import Mathlib

/-!
# WebSocket handshake and frame parser of brpc

A shallow embedding of `brpc/details/ws_parser.{h,cpp}`,
`brpc/details/ws_message.{h,cpp}` and the frame encoder of
`brpc/policy/ws_rpc_protocol.cpp`.

Conventions of the embedding.

* A byte (`char` / `u_char` of the source) is a natural number below 256; an
  input chunk `(const char* data, size_t len)` is a `List Nat`, `len` being
  its length.
* `size_t` fields are natural numbers; every `+=`, `<<` and `-` on them is
  written with an explicit `% 2 ^ 64`.  The bit-fields of `ws_data_parser`
  are truncated with an explicit `%` where they are assigned.
* The two parser structs live inside the `WsMessage` and their
  `ws_message_ptr` points back to it, so the callbacks are functions on the
  message itself.
* A function that mutates the message returns the new message next to its
  C++ return value.  `ssize_t` results are integers; the length of an
  in-memory chunk is below `2 ^ 63`, so a position converts to `ssize_t`
  without change.
-/

namespace brpc

/-! ## ws_parser.h -/

inductive WsPkgType where
  | UNKNOWN
  | HANDSHAKE
  | DATA
  deriving DecidableEq, Repr

inductive WsErrno where
  | VALID
  | INVALID_METHOD_FORMAT
  | INVALID_LINEBREAK
  | INVALID_HTTP_VERSION
  | INVALID_HTTP_HEADER
  | INVALID_UNKNOWN_OPCODE
  | INVALID_PAYLOAD_ZERO
  deriving DecidableEq, Repr

inductive WsHandShakeState where
  | ws_handshake_method_check
  | ws_handshake_method
  | ws_handshake_http_major_version
  | ws_handshake_http_version_dot
  | ws_handshake_http_minor_version
  | ws_handshake_segment_finish1
  | ws_handshake_segment_finish2
  | ws_handshake_header_key
  | ws_handshake_header_value
  deriving DecidableEq, Repr

inductive WsDataState where
  | ws_data_start
  | ws_data_fin_done
  | ws_data_payload_0
  | ws_data_payload_1
  | ws_data_payload_2
  | ws_data_payload_3
  | ws_data_payload_4
  | ws_data_payload_5
  | ws_data_payload_6
  | ws_data_payload_7
  | ws_mask_key_1
  | ws_mask_key_2
  | ws_mask_key_3
  | ws_mask_key_4
  | ws_data
  deriving DecidableEq, Repr

/-- The fields of `struct ws_hs_parser` (without the back pointer). -/
structure WsHsParser where
  state : WsHandShakeState
  index : Nat
  http_major : Nat
  http_minor : Nat
  ws_errno : WsErrno
  deriving DecidableEq, Repr

/-- The fields of `struct ws_data_parser` (without the back pointer). -/
structure WsDataParser where
  fin : Nat
  opcode : Nat
  mask : Nat
  payload_type : Nat
  state : WsDataState
  ws_errno : WsErrno
  payload_length : Nat
  readed_length : Nat
  deriving DecidableEq, Repr

/-! ## ws_message.h -/

/-- The fields of `class WsMessage`; `_hsParser` and `_dataParser` are the
members `_hs_parser` and `_data_parser`.  `_cur_header_key` holds the first
`_cur_key_pos` bytes of the 4096-byte array of the source (the rest of the
array is zero and never read), and likewise `_cur_header_value`. -/
structure WsMessage where
  _pkg_type : WsPkgType
  _header_checker : Nat
  _cur_header_key : List Nat
  _cur_header_value : List Nat
  _ws_key : List Nat
  _ws_protocol : List Nat
  _ws_extend : List Nat
  _body : List Nat
  _mask_key : List Nat
  _hsParser : WsHsParser
  _dataParser : WsDataParser
  _parsed_length : Nat
  deriving DecidableEq, Repr

/-- The bytes of a string literal of the source. -/
def bytes (s : String) : List Nat := s.toList.map Char.toNat

def CR : Nat := 13
def LF : Nat := 10

def _host_header : List Nat := bytes "Host"
def _upgrade_header : List Nat := bytes "Upgrade"
def _upgrade_header_value : List Nat := bytes "websocket"
def _connection_header : List Nat := bytes "Connection"
def _connection_header_value : List Nat := bytes "Upgrade"
def _ws_key_header : List Nat := bytes "Sec-WebSocket-Key"
def _ws_version_header : List Nat := bytes "Sec-WebSocket-Version"
def _ws_version_header_value : List Nat := bytes "13"
def _ws_protocol_header : List Nat := bytes "Sec-WebSocket-Protocol"
def _ws_extend_header : List Nat := bytes "Sec-WebSocket-Extensions"
def _ws_magic : List Nat := bytes "258EAFA5-E914-47DA-95CA-C5AB0DC85B11"
def g_ws_method_field : List Nat := bytes "GET / HTTP/"

/-- `ws_parser_init` followed by the rest of the constructor `WsMessage()`:
both parser structs zeroed, every buffer empty. -/
def WsMessage.new : WsMessage :=
  { _pkg_type := .UNKNOWN
    _header_checker := 0
    _cur_header_key := []
    _cur_header_value := []
    _ws_key := []
    _ws_protocol := []
    _ws_extend := []
    _body := []
    _mask_key := []
    _hsParser :=
      { state := .ws_handshake_method_check, index := 0, http_major := 0,
        http_minor := 0, ws_errno := .VALID }
    _dataParser :=
      { fin := 0, opcode := 0, mask := 0, payload_type := 0,
        state := .ws_data_start, ws_errno := .VALID, payload_length := 0,
        readed_length := 0 }
    _parsed_length := 0 }

/-- `WsMessage::Completed`. -/
def Completed (m : WsMessage) : Bool :=
  (decide (m._pkg_type = .DATA) &&
    decide (m._dataParser.ws_errno = .VALID) &&
    decide (m._dataParser.payload_length = m._dataParser.readed_length)) ||
  (decide (m._pkg_type = .HANDSHAKE) &&
    decide (m._header_checker &&& 0b00011111 = 0b00011111))

def WsMessage.PkgType (m : WsMessage) : WsPkgType := m._pkg_type
def WsMessage.Fin (m : WsMessage) : Nat := m._dataParser.fin
def WsMessage.Opcode (m : WsMessage) : Nat := m._dataParser.opcode

/-- `WsMessage::PayloadLength`: the `size_t` field converted to the `int64_t`
the accessor returns, so a length from `2 ^ 63` on comes out negative. -/
def WsMessage.PayloadLength (m : WsMessage) : Int :=
  if m._dataParser.payload_length % 2 ^ 64 < 2 ^ 63 then
    ((m._dataParser.payload_length % 2 ^ 64 : Nat) : Int)
  else ((m._dataParser.payload_length % 2 ^ 64 : Nat) : Int) - 2 ^ 64

def WsMessage.MaskKey (m : WsMessage) : List Nat := m._mask_key
def WsMessage.body (m : WsMessage) : List Nat := m._body

def on_set_pkgtype (m : WsMessage) (pkg_type : WsPkgType) : WsMessage :=
  { m with _pkg_type := pkg_type }

/-- `WsMessage::on_opcode`. -/
def on_opcode (opcode : Nat) : Bool :=
  match opcode with
  | 0 | 1 | 2 | 8 | 9 | 10 => true
  | _ => false

def on_set_mask_key (m : WsMessage) (ch : Nat) : WsMessage :=
  { m with _mask_key := m._mask_key ++ [ch] }

/-- The loop `res += (data[i] ^ _mask_key[idx++ % 4])` of `on_body`; `idx`
is a `size_t`.  (A key shorter than 4 bytes is read out of bounds by the
source; the embedding reads 0 there.) -/
def unmask (mask_key : List Nat) : Nat → List Nat → List Nat
  | _, [] => []
  | idx, x :: xs =>
    ((x ^^^ mask_key.getD (idx % 4) 0) % 256) ::
      unmask mask_key ((idx + 1) % 2 ^ 64) xs

/-- `WsMessage::on_body`: the number of bytes read and the new message. -/
def on_body (m : WsMessage) (data : List Nat) : Nat × WsMessage :=
  if Completed m then (0, m)
  else
    let dp := m._dataParser
    let read_len :=
      min ((dp.payload_length + 2 ^ 64 - dp.readed_length) % 2 ^ 64) data.length
    let m1 : WsMessage :=
      if dp.mask = 0 then
        { m with _body := m._body ++ data.take read_len }
      else
        { m with _body := m._body ++
            unmask m._mask_key dp.readed_length (data.take read_len) }
    (read_len,
      { m1 with _dataParser :=
          { dp with readed_length := (dp.readed_length + read_len) % 2 ^ 64 } })

def on_append_header_key (m : WsMessage) (ch : Nat) : Bool × WsMessage :=
  if m._cur_header_key.length = 4096 then (false, m)
  else (true, { m with _cur_header_key := m._cur_header_key ++ [ch] })

def on_append_header_value (m : WsMessage) (ch : Nat) : Bool × WsMessage :=
  if m._cur_header_value.length = 4096 then (false, m)
  else (true, { m with _cur_header_value := m._cur_header_value ++ [ch] })

def HostCheck (m : WsMessage) : Bool := decide (m._cur_header_value.length > 0)
def UpgradeCheck (m : WsMessage) : Bool :=
  decide (m._cur_header_value = _upgrade_header_value)
def ConnectionCheck (m : WsMessage) : Bool :=
  decide (m._cur_header_value = _connection_header_value)
def WsKeyCheck (m : WsMessage) : Bool := decide (m._cur_header_value.length > 0)
def WsVersionCheck (m : WsMessage) : Bool :=
  decide (m._cur_header_value = _ws_version_header_value)

/-- `WsMessage::on_header_end`.  The test
`_cur_key_pos == strlen(h) && !memcmp(_cur_header_key, h, _cur_key_pos)` is
equality of the accumulated name with `h`. -/
def on_header_end (m : WsMessage) : Bool × WsMessage :=
  let r : Bool × WsMessage :=
    if m._cur_header_key = _host_header then
      if HostCheck m then
        (true, { m with _header_checker := m._header_checker ||| 0b00000001 })
      else (false, m)
    else if m._cur_header_key = _upgrade_header then
      if UpgradeCheck m then
        (true, { m with _header_checker := m._header_checker ||| 0b00000010 })
      else (false, m)
    else if m._cur_header_key = _connection_header then
      if ConnectionCheck m then
        (true, { m with _header_checker := m._header_checker ||| 0b00000100 })
      else (false, m)
    else if m._cur_header_key = _ws_key_header then
      if WsKeyCheck m then
        (true, { m with _ws_key := m._cur_header_value,
                        _header_checker := m._header_checker ||| 0b00001000 })
      else (false, m)
    else if m._cur_header_key = _ws_version_header then
      if WsVersionCheck m then
        (true, { m with _header_checker := m._header_checker ||| 0b00010000 })
      else (false, m)
    else if m._cur_header_key = _ws_protocol_header ∧
        m._cur_header_value.length > 0 then
      (true, { m with _ws_protocol := m._cur_header_value })
    else if m._cur_header_key = _ws_extend_header ∧
        m._cur_header_value.length > 0 then
      (true, { m with _ws_extend := m._cur_header_value })
    else (true, m)
  (r.1, { r.2 with _cur_header_key := [], _cur_header_value := [] })

/-! ## ws_parser.cpp -/

/-- What one pass through the `switch` of a parser loop does: `next` is
`break` (the `for` goes on with `++pos`), `ret k` is `return pos + k`. -/
inductive Flow where
  | next (m : WsMessage)
  | ret (k : Nat) (m : WsMessage)
  deriving DecidableEq, Repr

def setDataState (m : WsMessage) (s : WsDataState) : WsMessage :=
  { m with _dataParser := { m._dataParser with state := s } }

def setDataErrno (m : WsMessage) (e : WsErrno) : WsMessage :=
  { m with _dataParser := { m._dataParser with ws_errno := e } }

def setPayloadLength (m : WsMessage) (n : Nat) : WsMessage :=
  { m with _dataParser := { m._dataParser with payload_length := n } }

def setHsState (m : WsMessage) (s : WsHandShakeState) : WsMessage :=
  { m with _hsParser := { m._hsParser with state := s } }

def setHsErrno (m : WsMessage) (e : WsErrno) : WsMessage :=
  { m with _hsParser := { m._hsParser with ws_errno := e } }

/-- The `switch (data_parser->state)` of `ws_data_parser_execute` at the byte
`ch = data[pos]`; `rest` are the bytes after it in the chunk. -/
def ws_data_switch (m : WsMessage) (ch : Nat) (rest : List Nat) : Flow :=
  match m._dataParser.state with
  | .ws_data_start =>
    let m1 : WsMessage :=
      { m with _dataParser :=
          { m._dataParser with fin := (ch / 128) % 2, opcode := ch % 16 } }
    if !on_opcode (ch % 16) then
      .ret 0 (setDataErrno m1 .INVALID_UNKNOWN_OPCODE)
    else .next (setDataState m1 .ws_data_fin_done)
  | .ws_data_fin_done =>
    let m1 : WsMessage :=
      { m with _dataParser := { m._dataParser with mask := (ch / 128) % 2 } }
    let payload_type := ch % 128
    if 126 > payload_type then
      let m2 := setPayloadLength m1 payload_type
      if 0 = m2._dataParser.payload_length then
        .ret 0 (setDataErrno m2 .INVALID_PAYLOAD_ZERO)
      else .next (setDataState m2 .ws_mask_key_1)
    else
      let m2 : WsMessage :=
        if 126 = payload_type then
          { m1 with _dataParser := { m1._dataParser with payload_type := 1 } }
        else
          { m1 with _dataParser := { m1._dataParser with payload_type := 2 } }
      .next (setDataState m2 .ws_data_payload_0)
  | .ws_data_payload_0 =>
    let tmp_data := ch
    let m1 :=
      if m._dataParser.payload_type = 1 then
        setPayloadLength m ((tmp_data <<< 8) % 2 ^ 64)
      else setPayloadLength m ((tmp_data <<< 56) % 2 ^ 64)
    .next (setDataState m1 .ws_data_payload_1)
  | .ws_data_payload_1 =>
    let tmp_data := ch
    if m._dataParser.payload_type = 1 then
      let m1 := setPayloadLength m
        ((m._dataParser.payload_length + tmp_data) % 2 ^ 64)
      if 0 = m1._dataParser.payload_length then
        .ret 0 (setDataErrno m1 .INVALID_PAYLOAD_ZERO)
      else .next (setDataState m1 .ws_mask_key_1)
    else
      let m1 := setPayloadLength m
        ((m._dataParser.payload_length + (tmp_data <<< 48) % 2 ^ 64) % 2 ^ 64)
      .next (setDataState m1 .ws_data_payload_2)
  | .ws_data_payload_2 =>
    let tmp_data := ch
    let m1 := setPayloadLength m
      ((m._dataParser.payload_length + (tmp_data <<< 40) % 2 ^ 64) % 2 ^ 64)
    .next (setDataState m1 .ws_data_payload_3)
  | .ws_data_payload_3 =>
    let tmp_data := ch
    let m1 := setPayloadLength m
      ((m._dataParser.payload_length + (tmp_data <<< 32) % 2 ^ 64) % 2 ^ 64)
    .next (setDataState m1 .ws_data_payload_4)
  | .ws_data_payload_4 =>
    let tmp_data := ch
    let m1 := setPayloadLength m
      ((m._dataParser.payload_length + (tmp_data <<< 24) % 2 ^ 64) % 2 ^ 64)
    .next (setDataState m1 .ws_data_payload_5)
  | .ws_data_payload_5 =>
    let tmp_data := ch
    let m1 := setPayloadLength m
      ((m._dataParser.payload_length + (tmp_data <<< 16) % 2 ^ 64) % 2 ^ 64)
    .next (setDataState m1 .ws_data_payload_6)
  | .ws_data_payload_6 =>
    let tmp_data := ch
    let m1 := setPayloadLength m
      ((m._dataParser.payload_length + (tmp_data <<< 8) % 2 ^ 64) % 2 ^ 64)
    .next (setDataState m1 .ws_data_payload_7)
  | .ws_data_payload_7 =>
    let tmp_data := ch
    let m1 := setPayloadLength m
      ((m._dataParser.payload_length + tmp_data) % 2 ^ 64)
    if 0 = m1._dataParser.payload_length then
      .ret 0 (setDataErrno m1 .INVALID_PAYLOAD_ZERO)
    else .next (setDataState m1 .ws_mask_key_1)
  | .ws_mask_key_1 =>
    if m._dataParser.mask = 0 then
      .next (setDataState m .ws_data)
    else .next (setDataState (on_set_mask_key m ch) .ws_mask_key_2)
  | .ws_mask_key_2 => .next (setDataState (on_set_mask_key m ch) .ws_mask_key_3)
  | .ws_mask_key_3 => .next (setDataState (on_set_mask_key m ch) .ws_mask_key_4)
  | .ws_mask_key_4 => .next (setDataState (on_set_mask_key m ch) .ws_data)
  | .ws_data =>
    let r := on_body (on_set_pkgtype m .DATA) (ch :: rest)
    .ret r.1 r.2

/-- The `for (; pos < len; ++pos)` loop of `ws_data_parser_execute`, entered
at position `pos` with the bytes `data[pos ..]` still to read. -/
def ws_data_parser_loop (m : WsMessage) (pos : Nat) : List Nat → Int × WsMessage
  | [] => ((pos : Int), m)
  | ch :: rest =>
    match ws_data_switch m ch rest with
    | .next m1 => ws_data_parser_loop m1 (pos + 1) rest
    | .ret k m1 => (((pos + k : Nat) : Int), m1)

/-- `ws_data_parser_execute`. -/
def ws_data_parser_execute (m : WsMessage) (data : List Nat) : Int × WsMessage :=
  ws_data_parser_loop m 0 data

/-- The `switch (hs_parser->state)` of `ws_handahake_parser_execute` at the
byte `ch = data[pos]`.  The results of `on_append_header_key` and
`on_append_header_value` are dropped, as in the source. -/
def ws_handshake_switch (m : WsMessage) (ch : Nat) : Flow :=
  match m._hsParser.state with
  | .ws_handshake_method_check =>
    if ch = CR ∨ ch = LF ∨ ch = 32 then .next m
    else if ch ≠ g_ws_method_field.getD 0 0 then
      .ret 0 (setHsErrno m .INVALID_METHOD_FORMAT)
    else
      let m1 := setHsState m .ws_handshake_method
      .next { m1 with _hsParser :=
                { m1._hsParser with index := (m1._hsParser.index + 1) % 2 ^ 16 } }
  | .ws_handshake_method =>
    if g_ws_method_field.getD m._hsParser.index 0 ≠ ch then
      .ret 0 (setHsErrno m .INVALID_METHOD_FORMAT)
    else
      let m1 : WsMessage :=
        { m with _hsParser :=
            { m._hsParser with index := (m._hsParser.index + 1) % 2 ^ 16 } }
      if m1._hsParser.index = g_ws_method_field.length then
        .next (setHsState
          { m1 with _hsParser := { m1._hsParser with index := 0 } }
          .ws_handshake_http_major_version)
      else .next m1
  | .ws_handshake_http_major_version =>
    let m1 : WsMessage :=
      { m with _hsParser := { m._hsParser with http_major := (ch + 256 - 48) % 256 } }
    if m1._hsParser.http_major ≠ 1 then
      .ret 0 (setHsErrno m1 .INVALID_HTTP_VERSION)
    else .next (setHsState m1 .ws_handshake_http_version_dot)
  | .ws_handshake_http_version_dot =>
    if ch ≠ 46 then .ret 0 (setHsErrno m .INVALID_METHOD_FORMAT)
    else .next (setHsState m .ws_handshake_http_minor_version)
  | .ws_handshake_http_minor_version =>
    let m1 : WsMessage :=
      { m with _hsParser := { m._hsParser with http_minor := (ch + 256 - 48) % 256 } }
    if m1._hsParser.http_major ≠ 1 then
      .ret 0 (setHsErrno m1 .INVALID_HTTP_VERSION)
    else
      .next (on_set_pkgtype (setHsState m1 .ws_handshake_segment_finish1) .HANDSHAKE)
  | .ws_handshake_segment_finish1 =>
    if ch ≠ CR then .ret 0 (setHsErrno m .INVALID_LINEBREAK)
    else .next (setHsState m .ws_handshake_segment_finish2)
  | .ws_handshake_segment_finish2 =>
    if ch ≠ LF then .ret 0 (setHsErrno m .INVALID_LINEBREAK)
    else .next (setHsState m .ws_handshake_header_key)
  | .ws_handshake_header_key =>
    if ch = 58 then .next (setHsState m .ws_handshake_header_value)
    else .next (on_append_header_key m ch).2
  | .ws_handshake_header_value =>
    if ch = 32 then .next m
    else if ch = CR then
      let r := on_header_end m
      if !r.1 then .ret 0 (setHsErrno r.2 .INVALID_HTTP_HEADER)
      else .next (setHsState r.2 .ws_handshake_segment_finish2)
    else .next (on_append_header_value m ch).2

/-- The `for (; pos < len; ++pos)` loop of `ws_handahake_parser_execute`. -/
def ws_handahake_parser_loop (m : WsMessage) (pos : Nat) :
    List Nat → Int × WsMessage
  | [] => ((pos : Int), m)
  | ch :: rest =>
    match ws_handshake_switch m ch with
    | .next m1 => ws_handahake_parser_loop m1 (pos + 1) rest
    | .ret k m1 => (((pos + k : Nat) : Int), m1)

/-- `ws_handahake_parser_execute`. -/
def ws_handahake_parser_execute (m : WsMessage) (data : List Nat) :
    Int × WsMessage :=
  ws_handahake_parser_loop m 0 data

/-- `ws_parser_execute` on the two parsers of the message. -/
def ws_parser_execute (m : WsMessage) (data : List Nat) : Int × WsMessage :=
  match data with
  | [] => (0, m)
  | d0 :: _ =>
    if m._dataParser.state ≠ .ws_data_start then ws_data_parser_execute m data
    else if d0 = 71 then ws_handahake_parser_execute m data
    else if d0 ∈ [0b00000000, 0b00000001, 0b00000010, 0b00001000, 0b00001001,
        0b00001010, 0b10000000, 0b10000001, 0b10000010, 0b10001000, 0b10001001,
        0b10001010] then
      ws_data_parser_execute m data
    else (-1, m)

/-! ## ws_message.cpp -/

/-- `WsMessage::ParseFromArray`.  `nprocessed` is the result of
`ws_parser_execute` converted to `size_t`, added to `_parsed_length` and
converted back to `ssize_t` for the return. -/
def ParseFromArray (m : WsMessage) (data : List Nat) : Int × WsMessage :=
  if Completed m then
    if data.length = 0 then (0, m) else (-1, m)
  else
    let r := ws_parser_execute m data
    if r.2._hsParser.ws_errno ≠ .VALID ∨ r.2._dataParser.ws_errno ≠ .VALID then
      (-1, r.2)
    else
      (r.1, { r.2 with _parsed_length :=
                (r.2._parsed_length + (r.1 % 2 ^ 64).toNat) % 2 ^ 64 })

/-- Feeding the chunks of a stream in order, one `ParseFromArray` call per
chunk: the list of the return values and the final message. -/
def parseChunks (m : WsMessage) : List (List Nat) → List Int × WsMessage
  | [] => ([], m)
  | c :: cs =>
    let r := ParseFromArray m c
    let rs := parseChunks r.2 cs
    (r.1 :: rs.1, rs.2)

/-! ## `ParseFromIOBuf` (ws_message.cpp) -/

/-- The `for` loop of `WsMessage::ParseFromIOBuf` over the backing blocks
still to visit, `nprocessed` being the sum so far.  The first component is
`none` for the `return -1` inside the loop and `some n` for the value `n` of
`nprocessed` when the loop is left, by its end or by `break`.  `nprocessed`
is an `ssize_t`; the buffers of a connection are far below `2 ^ 63` bytes,
so the sum is an integer without wrap-around. -/
def ParseFromIOBuf_loop (m : WsMessage) (nprocessed : Int) :
    List (List Nat) → Option Int × WsMessage
  | [] => (some nprocessed, m)
  | blk :: blks =>
    if blk.length = 0 then ParseFromIOBuf_loop m nprocessed blks
    else
      let r := ws_parser_execute m blk
      if r.2._hsParser.ws_errno ≠ .VALID ∨ r.2._dataParser.ws_errno ≠ .VALID then
        (none, r.2)
      else if Completed r.2 then (some (nprocessed + r.1), r.2)
      else ParseFromIOBuf_loop r.2 (nprocessed + r.1) blks

/-- `WsMessage::ParseFromIOBuf`; the buffer is the list of its backing
blocks, and it is empty when they hold no byte. -/
def ParseFromIOBuf (m : WsMessage) (buf : List (List Nat)) : Int × WsMessage :=
  if Completed m then
    if buf.flatten.length = 0 then (0, m) else (-1, m)
  else
    match ParseFromIOBuf_loop m 0 buf with
    | (none, m1) => (-1, m1)
    | (some n, m1) =>
      (n, { m1 with _parsed_length := (m1._parsed_length + (n % 2 ^ 64).toNat) % 2 ^ 64 })

/-! ## ws_rpc_protocol.cpp -/

/-- `PackPayloadLength<T>` with `sizeof(T) = size`: the bytes of the value
are appended from the highest address down to the lowest.  The value lies in
memory least significant byte first (the little-endian hosts brpc is built
for), so the byte at address `pos` is `(v >> 8 * pos) & 0xFF`. -/
def PackPayloadLength (buf : List Nat) (size payload_length : Nat) : List Nat :=
  buf ++ (List.range size).reverse.map (fun pos => (payload_length >>> (8 * pos)) % 256)

/-- `PackWsMsgToIOBuf`.  `send_buf` is `none` for a null pointer.  The
`int8_t` arguments are given by their 8-bit patterns (below 256); `|=` on the
`char` keeps the low 8 bits.  `payload` points to at least `message_length`
bytes.  The arguments `mask` and `mask_key` (here `_mask`, `_mask_key`) are not
used by the source. -/
def PackWsMsgToIOBuf (send_buf : Option (List Nat)) (fin opcode _mask : Nat)
    (message_length : Nat) (_mask_key payload : List Nat) : Bool × Option (List Nat) :=
  match send_buf with
  | none => (false, none)
  | some buf =>
    let fin_opcode := 0
    let fin_opcode := (fin_opcode ||| (fin <<< 7)) % 256
    let fin_opcode := (fin_opcode ||| opcode) % 256
    let buf := buf ++ [fin_opcode]
    let buf :=
      if message_length < 126 then buf ++ [message_length % 256]
      else if message_length < 65536 then
        PackPayloadLength (buf ++ [126]) 2 (message_length % 2 ^ 16)
      else PackPayloadLength (buf ++ [127]) 8 message_length
    (true, buf ++ payload.take message_length)

/-! ## Helpers of `butil` used by `MakeHandshakeResp` -/

/-- Modelled from the spec: `butil::string_printf` is not among the sources.
The call `string_printf("%s%s", a.data(), b.data())` formats two C strings
one after the other ("key + GUID" in the spec); a `%s` argument is read up to
its first zero byte, which for `std::string::data()` is the terminator or an
earlier zero byte of the string. -/
def c_str (s : List Nat) : List Nat := s.takeWhile (fun c => c != 0)

/-- Modelled from the spec: see `c_str`. -/
def string_printf_ss (a b : List Nat) : List Nat := c_str a ++ c_str b

/-- The `k` low bytes of `v`, most significant first. -/
def be_bytes : Nat → Nat → List Nat
  | 0, _ => []
  | k + 1, v => (v / 256 ^ k) % 256 :: be_bytes k v

/-- Rotation of a 32-bit word to the left. -/
def rotl32 (x n : Nat) : Nat := ((x <<< n) % 2 ^ 32) ||| (x >>> (32 - n))

/-- The padding of SHA-1: a byte `0x80`, zero bytes up to 56 modulo 64, and
the bit length as 8 big-endian bytes. -/
def sha1_pad (msg : List Nat) : List Nat :=
  msg ++ [0x80] ++ List.replicate ((119 - msg.length % 64) % 64) 0 ++
    be_bytes 8 (8 * msg.length)

/-- Big-endian 32-bit words of a byte string. -/
def be_words : List Nat → List Nat
  | a :: b :: c :: d :: rest =>
    ((a <<< 24) ||| (b <<< 16) ||| (c <<< 8) ||| d) :: be_words rest
  | _ => []

/-- The message schedule of SHA-1: 16 words extended to 80. -/
def sha1_schedule (w : List Nat) : List Nat :=
  (List.range 64).foldl
    (fun w _ =>
      let i := w.length
      w ++ [rotl32 (w.getD (i - 3) 0 ^^^ w.getD (i - 8) 0 ^^^
        w.getD (i - 14) 0 ^^^ w.getD (i - 16) 0) 1])
    w

structure Sha1State where
  a : Nat
  b : Nat
  c : Nat
  d : Nat
  e : Nat
  deriving DecidableEq, Repr

def sha1_round (st : Sha1State) (iw : Nat × Nat) : Sha1State :=
  let i := iw.1
  let f :=
    if i < 20 then (st.b &&& st.c) ||| ((st.b ^^^ 0xFFFFFFFF) &&& st.d)
    else if i < 40 then st.b ^^^ st.c ^^^ st.d
    else if i < 60 then (st.b &&& st.c) ||| (st.b &&& st.d) ||| (st.c &&& st.d)
    else st.b ^^^ st.c ^^^ st.d
  let k :=
    if i < 20 then 0x5A827999
    else if i < 40 then 0x6ED9EBA1
    else if i < 60 then 0x8F1BBCDC
    else 0xCA62C1D6
  { a := (rotl32 st.a 5 + f + st.e + k + iw.2) % 2 ^ 32
    b := st.a
    c := rotl32 st.b 30
    d := st.c
    e := st.d }

def sha1_block (h : Sha1State) (block : List Nat) : Sha1State :=
  let w := sha1_schedule (be_words block)
  let r := ((List.range 80).zip w).foldl sha1_round h
  { a := (h.a + r.a) % 2 ^ 32
    b := (h.b + r.b) % 2 ^ 32
    c := (h.c + r.c) % 2 ^ 32
    d := (h.d + r.d) % 2 ^ 32
    e := (h.e + r.e) % 2 ^ 32 }

def sha1_blocks (h : Sha1State) : Nat → List Nat → Sha1State
  | 0, _ => h
  | n + 1, bs => sha1_blocks (sha1_block h (bs.take 64)) n (bs.drop 64)

/-- Modelled from the spec: `butil::SHA1HashString` is not among the sources;
the spec names it `sha1`, the SHA-1 digest (FIPS 180) of a byte string as 20
bytes. -/
def SHA1HashString (msg : List Nat) : List Nat :=
  let p := sha1_pad msg
  let h := sha1_blocks
    { a := 0x67452301, b := 0xEFCDAB89, c := 0x98BADCFE, d := 0x10325476,
      e := 0xC3D2E1F0 }
    (p.length / 64) p
  be_bytes 4 h.a ++ be_bytes 4 h.b ++ be_bytes 4 h.c ++ be_bytes 4 h.d ++
    be_bytes 4 h.e

def base64_alphabet : List Nat :=
  bytes "ABCDEFGHIJKLMNOPQRSTUVWXYZabcdefghijklmnopqrstuvwxyz0123456789+/"

def base64_char (i : Nat) : Nat := base64_alphabet.getD i 0

/-- Modelled from the spec: `butil::Base64Encode` is not among the sources;
the spec names it `base64`, the standard encoding (RFC 4648) with `=`
padding. -/
def Base64Encode : List Nat → List Nat
  | a :: b :: c :: rest =>
    base64_char (a / 4) :: base64_char ((a % 4) * 16 + b / 16) ::
      base64_char ((b % 16) * 4 + c / 64) :: base64_char (c % 64) ::
      Base64Encode rest
  | [a, b] =>
    [base64_char (a / 4), base64_char ((a % 4) * 16 + b / 16),
      base64_char ((b % 16) * 4), 61]
  | [a] => [base64_char (a / 4), base64_char ((a % 4) * 16), 61, 61]
  | [] => []

/-- The value of `encoded_resp_key` in `MakeHandshakeResp`. -/
def encoded_resp_key (m : WsMessage) : List Nat :=
  let user_key := string_printf_ss m._ws_key _ws_magic
  let resp_key := SHA1HashString user_key
  Base64Encode resp_key

/-- `WsMessage::MakeHandshakeResp`: the bytes moved into `response`. -/
def MakeHandshakeResp (m : WsMessage) : List Nat :=
  bytes "HTTP/1.1 101 Switching Protocols" ++
    bytes "\r\n" ++
    bytes "Upgrade: websocket" ++
    bytes "\r\n" ++
    bytes "Connection: Upgrade" ++
    bytes "\r\n" ++
    bytes "Sec-WebSocket-Accept:" ++
    encoded_resp_key m ++
    bytes "\r\n\r\n"

/-! ## States reached while a frame header is read

These are names for the messages the frame machine passes through; they are
used to state the lemmas below and are not part of the source. -/

/-- The message after an accepted first frame byte `b`. -/
def afterFirst (m : WsMessage) (b : Nat) : WsMessage :=
  { m with _dataParser :=
      { m._dataParser with fin := b / 128, opcode := b % 16, state := .ws_data_fin_done } }

/-- The message after the length field: mask flag `mask`, length encoding
`payload_type` and decoded length `n`. -/
def afterLength (m : WsMessage) (mask payload_type n : Nat) : WsMessage :=
  { m with _dataParser :=
      { m._dataParser with
        mask := mask, payload_type := payload_type, payload_length := n,
        state := .ws_mask_key_1 } }

/-- The message on entering the payload state with the bytes `key` pushed on
the mask key. -/
def afterKey (m : WsMessage) (key : List Nat) : WsMessage :=
  { m with
    _mask_key := m._mask_key ++ key
    _dataParser := { m._dataParser with state := .ws_data } }

/-- The bytes `on_body` appends to the body for the slice `d`. -/
def decoded (m : WsMessage) (d : List Nat) : List Nat :=
  if m._dataParser.mask = 0 then d
  else unmask m._mask_key m._dataParser.readed_length d

/-- The message after `on_body` has delivered the whole slice `d`. -/
def delivered (m : WsMessage) (d : List Nat) : WsMessage :=
  { m with
    _body := m._body ++ decoded m d
    _dataParser :=
      { m._dataParser with
        readed_length := (m._dataParser.readed_length + d.length) % 2 ^ 64 } }


/-! ## Sample inputs -/

/-- A well-formed upgrade request: the request line, the five mandatory
headers and the blank line. -/
def sampleRequest : List Nat :=
  bytes "GET / HTTP/1.1\r\n" ++
    bytes "Host: example.com\r\n" ++
    bytes "Upgrade: websocket\r\n" ++
    bytes "Connection: Upgrade\r\n" ++
    bytes "Sec-WebSocket-Key: dGhlIHNhbXBsZSBub25jZQ==\r\n" ++
    bytes "Sec-WebSocket-Version: 13\r\n" ++
    bytes "\r\n"

/-- A well-formed upgrade request whose key value is the three bytes
`'A', 0, 'B'`. -/
def zeroByteKeyRequest : List Nat :=
  bytes "GET / HTTP/1.1\r\n" ++
    bytes "Host: example.com\r\n" ++
    bytes "Upgrade: websocket\r\n" ++
    bytes "Connection: Upgrade\r\n" ++
    bytes "Sec-WebSocket-Key: " ++ [65, 0, 66] ++ bytes "\r\n" ++
    bytes "Sec-WebSocket-Version: 13\r\n" ++
    bytes "\r\n"

/-- The response the spec describes for a captured key `K`: the fixed
status line and headers, `base64(sha1(K ++ GUID))` and the blank line. -/
def expectedHandshakeResp (K : List Nat) : List Nat :=
  bytes "HTTP/1.1 101 Switching Protocols\r\nUpgrade: websocket\r\nConnection: Upgrade\r\nSec-WebSocket-Accept:" ++
    Base64Encode (SHA1HashString (K ++ _ws_magic)) ++ bytes "\r\n\r\n"

/-! ## Frames -/

/-- The bytes of a frame with first byte `b`, second byte `c`, extended
length field `ext`, mask key `key` and payload `payload`. -/
def frameBytes (b c : Nat) (ext key payload : List Nat) : List Nat :=
  b :: c :: (ext ++ key ++ payload)

/-- The payload length a second byte `c` and an extended length field `ext`
declare: the selector itself below 126, else the big-endian value of `ext`. -/
def declaredLength (c : Nat) (ext : List Nat) : Nat :=
  if c % 128 < 126 then c % 128 else ext.foldl (fun acc x => 256 * acc + x) 0

/-- The parts of exactly one frame: a first byte with zero reserved bits
and a recognised opcode; an extended length field of 0, 2 or 8 bytes as the
selector asks; a 4-byte key exactly when the mask bit is set; and a payload
of the declared length, which is not zero. -/
def IsFrame (b c : Nat) (ext key payload : List Nat) : Prop :=
  b < 256 ∧ b / 16 % 8 = 0 ∧ b % 16 ∈ [0, 1, 2, 8, 9, 10] ∧ c < 256 ∧
    (∀ x ∈ ext, x < 256) ∧ (∀ x ∈ key, x < 256) ∧ (∀ x ∈ payload, x < 256) ∧
    ext.length = (if c % 128 < 126 then 0 else if c % 128 = 126 then 2 else 8) ∧
    key.length = (if c / 128 = 1 then 4 else 0) ∧
    payload.length = declaredLength c ext ∧ payload.length ≠ 0

/-- What holds of a message on which only the frame machine has run, without
error: the kind is DATA only in the payload state, no error is recorded, and
the two `size_t` counters are in range. -/
def FrameWF (m : WsMessage) : Prop :=
  m._pkg_type ≠ .HANDSHAKE ∧
    (m._pkg_type = .DATA → m._dataParser.state = .ws_data) ∧
    m._dataParser.ws_errno = .VALID ∧ m._hsParser.ws_errno = .VALID ∧
    m._dataParser.readed_length < 2 ^ 64 ∧ m._dataParser.payload_length < 2 ^ 64

/-- The message with `_parsed_length` replaced. -/
def setParsed (m : WsMessage) (x : Nat) : WsMessage :=
  { m with _parsed_length := x }

/-- The outcome of a switch with `_parsed_length` replaced in its message. -/
def Flow.setParsed (f : Flow) (x : Nat) : Flow :=
  match f with
  | .next m => .next (brpc.setParsed m x)
  | .ret k m => .ret k (brpc.setParsed m x)

/-! ## Upgrade requests -/

/-- The five mandatory headers. -/
inductive Hdr where
  | host
  | upgrade
  | connection
  | key
  | version
  deriving DecidableEq, Repr

/-- The name of a mandatory header. -/
def Hdr.name : Hdr → List Nat
  | .host => _host_header
  | .upgrade => _upgrade_header
  | .connection => _connection_header
  | .key => _ws_key_header
  | .version => _ws_version_header

/-- The value of a mandatory header in a well-formed request: free for `Host`
and `Sec-WebSocket-Key`, fixed for the other three. -/
def Hdr.value (hostv keyv : List Nat) : Hdr → List Nat
  | .host => hostv
  | .upgrade => _upgrade_header_value
  | .connection => _connection_header_value
  | .key => keyv
  | .version => _ws_version_header_value

/-- The bit of `_header_checker` that `on_header_end` sets for a header. -/
def Hdr.bit : Hdr → Nat
  | .host => 0b00000001
  | .upgrade => 0b00000010
  | .connection => 0b00000100
  | .key => 0b00001000
  | .version => 0b00010000

/-- A header line up to, and without, its terminating CR. -/
def headerLineBody (hostv keyv : List Nat) (h : Hdr) : List Nat :=
  h.name ++ bytes ": " ++ h.value hostv keyv

/-- A header line: name, colon, space, value, CR LF. -/
def headerLine (hostv keyv : List Nat) (h : Hdr) : List Nat :=
  headerLineBody hostv keyv h ++ bytes "\r\n"

/-- The upgrade request with the mandatory headers in the given order:
`GET / HTTP/1.1`, the header lines, and the blank line. -/
def upgradeRequest (hostv keyv : List Nat) (order : List Hdr) : List Nat :=
  bytes "GET / HTTP/1.1\r\n" ++ (order.map (headerLine hostv keyv)).flatten ++ bytes "\r\n"

/-- A free header value: it has no CR and is not made of spaces only. -/
def IsValue (v : List Nat) : Prop := 13 ∉ v ∧ ∃ x ∈ v, x ≠ 32

/-- What the value state accumulates from the bytes `v` (none of them CR)
on top of `w`: spaces are skipped, and a byte is dropped when the buffer
already holds 4096 bytes. -/
def accumValue (w : List Nat) : List Nat → List Nat
  | [] => w
  | x :: v =>
    if x = 32 then accumValue w v
    else accumValue (if w.length = 4096 then w else w ++ [x]) v

/-- The message between two header lines of a handshake: request line read,
header state, both scratch buffers empty, checker bits `c`, captured key
`k`. -/
def betweenLines (c : Nat) (k : List Nat) : WsMessage :=
  { WsMessage.new with
    _pkg_type := .HANDSHAKE
    _header_checker := c
    _ws_key := k
    _hsParser :=
      { state := .ws_handshake_header_key, index := 0, http_major := 1, http_minor := 1,
        ws_errno := .VALID } }

/-- The handshake part of `Completed`. -/
def HsDone (m : WsMessage) : Prop :=
  m._pkg_type = .HANDSHAKE ∧ m._header_checker &&& 0b00011111 = 0b00011111

/-- The message inside a header value: as `betweenLines`, with the name
`name` and the value bytes `w` accumulated so far. -/
def inValue (c : Nat) (k name w : List Nat) : WsMessage :=
  { betweenLines c k with
    _cur_header_key := name
    _cur_header_value := w
    _hsParser :=
      { state := .ws_handshake_header_value, index := 0, http_major := 1, http_minor := 1,
        ws_errno := .VALID } }

/-- The message after the CR of a header line, before its LF. -/
def afterCR (c : Nat) (k : List Nat) : WsMessage :=
  { betweenLines c k with
    _hsParser :=
      { state := .ws_handshake_segment_finish2, index := 0, http_major := 1,
        http_minor := 1, ws_errno := .VALID } }

/-- The checker bits after the header lines `hs`, starting from `c`. -/
def bitsAfter (c : Nat) (hs : List Hdr) : Nat := hs.foldl (fun c h => c ||| h.bit) c

/-- The captured key after the header lines `hs`, starting from `k`. -/
def keyAfter (keyv k : List Nat) (hs : List Hdr) : List Nat :=
  hs.foldl (fun k h => if h = .key then accumValue [] keyv else k) k

/-- The message an outcome of a switch carries. -/
def Flow.msg : Flow → WsMessage
  | .next m => m
  | .ret _ m => m


/-! ## Notions used by the claims on dispatch and header validation -/

/-- The handshake side of two messages is the same: the handshake parser
struct, the checker bits, both scratch buffers and the captured strings. -/
def SameHandshake (m m' : WsMessage) : Prop :=
  m'._hsParser = m._hsParser ∧ m'._header_checker = m._header_checker ∧
    m'._cur_header_key = m._cur_header_key ∧ m'._cur_header_value = m._cur_header_value ∧
    m'._ws_key = m._ws_key ∧ m'._ws_protocol = m._ws_protocol ∧ m'._ws_extend = m._ws_extend

/-- The frame side of two messages is the same: the frame parser struct, the
mask key and the body. -/
def SameFrame (m m' : WsMessage) : Prop :=
  m'._dataParser = m._dataParser ∧ m'._mask_key = m._mask_key ∧ m'._body = m._body

/-- The failure condition of header validation in the words of the spec:
`Host` or `Sec-WebSocket-Key` with an empty value, or `Upgrade`, `Connection`
or `Sec-WebSocket-Version` with a value other than `websocket`, `Upgrade`,
`13`. -/
def HeaderInvalid (N V : List Nat) : Prop :=
  (N = _host_header ∧ V = []) ∨
    (N = _upgrade_header ∧ V ≠ _upgrade_header_value) ∨
    (N = _connection_header ∧ V ≠ _connection_header_value) ∨
    (N = _ws_key_header ∧ V = []) ∨
    (N = _ws_version_header ∧ V ≠ _ws_version_header_value)

/-- A well-formed upgrade request with spaces inside the values of
`Sec-WebSocket-Key`, `Sec-WebSocket-Protocol` and `Sec-WebSocket-Extensions`. -/
def spacedValuesRequest : List Nat :=
  bytes "GET / HTTP/1.1\r\n" ++
    bytes "Host: example.com\r\n" ++
    bytes "Upgrade: websocket\r\n" ++
    bytes "Connection: Upgrade\r\n" ++
    bytes "Sec-WebSocket-Key: dGhl IHNh\r\n" ++
    bytes "Sec-WebSocket-Protocol: chat, superchat\r\n" ++
    bytes "Sec-WebSocket-Extensions: permessage-deflate; client_max_window_bits\r\n" ++
    bytes "Sec-WebSocket-Version: 13\r\n" ++
    bytes "\r\n"

/-! ## Notions used by the claims on encoding, payload and phases -/

/-- The header of the frame `PackWsMsgToIOBuf` writes into an empty buffer:
what precedes the payload bytes. -/
def packedHeader (fin opcode mask message_length : Nat) (mask_key payload : List Nat) :
    List Nat :=
  let out := ((PackWsMsgToIOBuf (some []) fin opcode mask message_length mask_key payload).2).getD []
  out.take (out.length - message_length)

/-- The length field of an outgoing frame in the words of the spec: the
length itself below 126, else `126` and 2 big-endian bytes below 65536, else
`127` and 8 big-endian bytes. -/
def lengthField (n : Nat) : List Nat :=
  if n < 126 then [n]
  else if n < 65536 then [126, n / 256, n % 256]
  else [127, n / 256 ^ 7 % 256, n / 256 ^ 6 % 256, n / 256 ^ 5 % 256, n / 256 ^ 4 % 256,
    n / 256 ^ 3 % 256, n / 256 ^ 2 % 256, n / 256 % 256, n % 256]

/-- The numeric value of a handshake phase in `enum class WsHandShakeState`. -/
def WsHandShakeState.rank : WsHandShakeState → Nat
  | .ws_handshake_method_check => 0
  | .ws_handshake_method => 1
  | .ws_handshake_http_major_version => 2
  | .ws_handshake_http_version_dot => 3
  | .ws_handshake_http_minor_version => 4
  | .ws_handshake_segment_finish1 => 5
  | .ws_handshake_segment_finish2 => 6
  | .ws_handshake_header_key => 7
  | .ws_handshake_header_value => 8

/-- What holds of the payload counters in every reachable message: the
declared length is a `size_t`, the body holds as many bytes as were
delivered, nothing is delivered before the payload state and never more than
declared. -/
def PayloadInv (m : WsMessage) : Prop :=
  m._dataParser.payload_length < 2 ^ 64 ∧
    m._body.length = m._dataParser.readed_length ∧
    (m._dataParser.state = .ws_data →
      m._dataParser.readed_length ≤ m._dataParser.payload_length) ∧
    (m._dataParser.state ≠ .ws_data → m._dataParser.readed_length = 0)

/-- The position of a mandatory header's bit in `_header_checker`. -/
def Hdr.index : Hdr → Nat
  | .host => 0
  | .upgrade => 1
  | .connection => 2
  | .key => 3
  | .version => 4

/-- The name of the header `h` occurs in the bytes `l` as the exact name of
a header line: a line break, the name, and the colon that ends it. -/
def NameSeen (h : Hdr) (l : List Nat) : Prop := (CR :: LF :: (h.name ++ [58])) <:+: l

/-- Every mandatory header whose bit is set in the checker has its name in
`l` as the name of a header line. -/
def BitsSeen (m : WsMessage) (l : List Nat) : Prop :=
  ∀ h : Hdr, m._header_checker.testBit h.index = true → NameSeen h l

/-- What holds of a message while the handshake machine reads a chunk, `pre`
being the bytes read so far: the bits set so far come from names in `pre`,
and the name buffer, while it is not full, holds the bytes that follow the
last line break. -/
def HsInv (m : WsMessage) (pre : List Nat) : Prop :=
  BitsSeen m pre ∧
    match m._hsParser.state with
    | .ws_handshake_header_key =>
      m._cur_header_key.length < 4096 → (CR :: LF :: m._cur_header_key) <:+ pre
    | .ws_handshake_header_value =>
      m._cur_header_key.length < 4096 → (CR :: LF :: (m._cur_header_key ++ [58])) <:+: pre
    | .ws_handshake_segment_finish2 => m._cur_header_key = [] ∧ [CR] <:+ pre
    | _ => m._cur_header_key = []

/-- An upgrade request with the five mandatory headers whose last header
line is ended by a CR that is followed by `X` instead of LF. -/
def brokenLineBreakRequest : List Nat :=
  bytes "GET / HTTP/1.1\r\n" ++
    bytes "Host: example.com\r\n" ++
    bytes "Upgrade: websocket\r\n" ++
    bytes "Connection: Upgrade\r\n" ++
    bytes "Sec-WebSocket-Key: dGhlIHNhbXBsZSBub25jZQ==\r\n" ++
    bytes "Sec-WebSocket-Version: 13\rX"

/-- A masked text frame with the one payload byte `A`. -/
def oneByteFrame : List Nat := [0x81, 0x81, 1, 2, 3, 4, 0x41]

/-- What follows the first byte `G` in an upgrade request whose `Host` line
is written `host`; the other four mandatory headers are as they should be. -/
def lowerCaseHostRequestTail : List Nat :=
  bytes "ET / HTTP/1.1\r\n" ++
    bytes "host: example.com\r\n" ++
    bytes "Upgrade: websocket\r\n" ++
    bytes "Connection: Upgrade\r\n" ++
    bytes "Sec-WebSocket-Key: dGhlIHNhbXBsZSBub25jZQ==\r\n" ++
    bytes "Sec-WebSocket-Version: 13\r\n" ++
    bytes "\r\n"

/-! ## Notions used by the claims on monotonicity and exact results -/

/-- The numeric value of a frame phase in `enum class WsDataState`. -/
def WsDataState.rank : WsDataState → Nat
  | .ws_data_start => 0
  | .ws_data_fin_done => 1
  | .ws_data_payload_0 => 2
  | .ws_data_payload_1 => 3
  | .ws_data_payload_2 => 4
  | .ws_data_payload_3 => 5
  | .ws_data_payload_4 => 6
  | .ws_data_payload_5 => 7
  | .ws_data_payload_6 => 8
  | .ws_data_payload_7 => 9
  | .ws_mask_key_1 => 10
  | .ws_mask_key_2 => 11
  | .ws_mask_key_3 => 12
  | .ws_mask_key_4 => 13
  | .ws_data => 14

/-- Feeding the chunks of a stream in order to `ws_parser_execute`, one call
per chunk: the list of the return values and the final message. -/
def executeChunks (m : WsMessage) : List (List Nat) → List Int × WsMessage
  | [] => ([], m)
  | c :: cs =>
    let r := ws_parser_execute m c
    let rs := executeChunks r.2 cs
    (r.1 :: rs.1, rs.2)

/-- From `m` to `m'` no error code has gone back to VALID and no bit of the
checker has been cleared. -/
def KeepsErrors (m m' : WsMessage) : Prop :=
  (m._hsParser.ws_errno ≠ .VALID → m'._hsParser.ws_errno ≠ .VALID) ∧
    (m._dataParser.ws_errno ≠ .VALID → m'._dataParser.ws_errno ≠ .VALID) ∧
    ∀ i, m._header_checker.testBit i = true → m'._header_checker.testBit i = true

/-- The mask key fits the phase: empty up to the first key phase, one byte
more after each key byte of a masked frame, and in the payload state four
bytes for a masked frame and none otherwise; the mask flag is 0 or 1. -/
def MaskKeyInv (m : WsMessage) : Prop :=
  m._dataParser.mask ≤ 1 ∧
    match m._dataParser.state with
    | .ws_mask_key_2 => m._dataParser.mask = 1 ∧ m._mask_key.length = 1
    | .ws_mask_key_3 => m._dataParser.mask = 1 ∧ m._mask_key.length = 2
    | .ws_mask_key_4 => m._dataParser.mask = 1 ∧ m._mask_key.length = 3
    | .ws_data =>
      (m._dataParser.mask = 0 → m._mask_key = []) ∧
        (m._dataParser.mask = 1 → m._mask_key.length = 4)
    | _ => m._mask_key = []

/-! ## Lemmas on the frame machine -/

theorem PayloadLength_of_lt (m : WsMessage) (n : Nat)
    (h : m._dataParser.payload_length = n) (hn : n < 2 ^ 63) :
    m.PayloadLength = (n : Int) := by
  have e : n % 2 ^ 64 = n := Nat.mod_eq_of_lt (by omega)
  simp only [WsMessage.PayloadLength, h, e]
  rw [if_pos hn]

theorem data_loop_next {m m1 : WsMessage} {ch : Nat} {rest : List Nat} (pos : Nat)
    (h : ws_data_switch m ch rest = .next m1) :
    ws_data_parser_loop m pos (ch :: rest) = ws_data_parser_loop m1 (pos + 1) rest := by
  simp only [ws_data_parser_loop, h]

theorem data_loop_ret {m m1 : WsMessage} {ch k : Nat} {rest : List Nat} (pos : Nat)
    (h : ws_data_switch m ch rest = .ret k m1) :
    ws_data_parser_loop m pos (ch :: rest) = (((pos + k : Nat) : Int), m1) := by
  simp only [ws_data_parser_loop, h]

theorem on_opcode_iff (o : Nat) : on_opcode o = true ↔ o ∈ [0, 1, 2, 8, 9, 10] := by
  unfold on_opcode
  split <;> simp_all

theorem loop_first_byte (m : WsMessage) (b pos : Nat) (rest : List Nat)
    (hs : m._dataParser.state = .ws_data_start) (hb : b < 256)
    (hop : on_opcode (b % 16) = true) :
    ws_data_parser_loop m pos (b :: rest) =
      ws_data_parser_loop (afterFirst m b) (pos + 1) rest := by
  have hf : b / 128 % 2 = b / 128 := by omega
  apply data_loop_next
  simp [ws_data_switch, hs, hop, hf, setDataState, afterFirst]

theorem loop_length_literal (m : WsMessage) (c n pos : Nat) (rest : List Nat)
    (hs : m._dataParser.state = .ws_data_fin_done)
    (hsel : c % 128 = n) (hn0 : n ≠ 0) (hn : n < 126) :
    ws_data_parser_loop m pos (c :: rest) =
      ws_data_parser_loop (afterLength m (c / 128 % 2) m._dataParser.payload_type n)
        (pos + 1) rest := by
  have hn0' : ¬ (0 = n) := fun h => hn0 h.symm
  apply data_loop_next
  simp [ws_data_switch, hs, hsel, hn, hn0', setDataState, setPayloadLength, afterLength]

theorem loop_length_16 (m : WsMessage) (c x0 x1 pos : Nat) (rest : List Nat)
    (hs : m._dataParser.state = .ws_data_fin_done)
    (hsel : c % 128 = 126) (h0 : x0 < 256) (h1 : x1 < 256) (hn0 : 256 * x0 + x1 ≠ 0) :
    ws_data_parser_loop m pos (c :: x0 :: x1 :: rest) =
      ws_data_parser_loop (afterLength m (c / 128 % 2) 1 (256 * x0 + x1)) (pos + 3) rest := by
  simp only [ws_data_parser_loop, ws_data_switch, hs, hsel,
      setPayloadLength, setDataState, setDataErrno, Nat.shiftLeft_eq]
  norm_num
  rw [if_neg (by omega)]
  simp only [afterLength]
  congr 3
  omega

theorem loop_length_64 (m : WsMessage) (c x0 x1 x2 x3 x4 x5 x6 x7 pos : Nat)
    (rest : List Nat)
    (hs : m._dataParser.state = .ws_data_fin_done) (hsel : c % 128 = 127)
    (h0 : x0 < 256) (h1 : x1 < 256) (h2 : x2 < 256) (h3 : x3 < 256)
    (h4 : x4 < 256) (h5 : x5 < 256) (h6 : x6 < 256) (h7 : x7 < 256)
    (hn0 : x0 * 256 ^ 7 + x1 * 256 ^ 6 + x2 * 256 ^ 5 + x3 * 256 ^ 4 + x4 * 256 ^ 3 +
        x5 * 256 ^ 2 + x6 * 256 + x7 ≠ 0) :
    ws_data_parser_loop m pos (c :: x0 :: x1 :: x2 :: x3 :: x4 :: x5 :: x6 :: x7 :: rest) =
      ws_data_parser_loop
        (afterLength m (c / 128 % 2) 2
          (x0 * 256 ^ 7 + x1 * 256 ^ 6 + x2 * 256 ^ 5 + x3 * 256 ^ 4 + x4 * 256 ^ 3 +
            x5 * 256 ^ 2 + x6 * 256 + x7))
        (pos + 9) rest := by
  simp only [ws_data_parser_loop, ws_data_switch, hs, hsel,
      setPayloadLength, setDataState, setDataErrno, Nat.shiftLeft_eq]
  norm_num
  norm_num at hn0
  rw [if_neg (by omega)]
  simp only [afterLength]
  congr 3
  omega

theorem loop_mask_key (m : WsMessage) (k0 k1 k2 k3 pos : Nat) (rest : List Nat)
    (hs : m._dataParser.state = .ws_mask_key_1) (hm : m._dataParser.mask ≠ 0) :
    ws_data_parser_loop m pos (k0 :: k1 :: k2 :: k3 :: rest) =
      ws_data_parser_loop (afterKey m [k0, k1, k2, k3]) (pos + 4) rest := by
  simp [ws_data_parser_loop, ws_data_switch, hs, hm, setDataState, on_set_mask_key, afterKey]

theorem loop_no_mask_key (m : WsMessage) (x pos : Nat) (rest : List Nat)
    (hs : m._dataParser.state = .ws_mask_key_1) (hm : m._dataParser.mask = 0) :
    ws_data_parser_loop m pos (x :: rest) =
      ws_data_parser_loop (afterKey m []) (pos + 1) rest := by
  simp [ws_data_parser_loop, ws_data_switch, hs, hm, setDataState, afterKey]

theorem unmask_length (key : List Nat) (p : List Nat) :
    ∀ idx, (unmask key idx p).length = p.length := by
  induction p with
  | nil => intro idx; simp [unmask]
  | cons x xs ih => intro idx; simp [unmask, ih]

theorem getD_lt_256 (key : List Nat) (hk : ∀ x ∈ key, x < 256) (j : Nat) :
    key.getD j 0 < 256 := by
  rw [List.getD_eq_getElem?_getD]
  cases hj : key[j]? with
  | none => simp
  | some v => simpa using hk v (List.getElem?_mem hj)

theorem unmask_getD (key : List Nat) (hk : ∀ x ∈ key, x < 256) (p : List Nat)
    (hp : ∀ x ∈ p, x < 256) :
    ∀ idx i, idx + p.length ≤ 2 ^ 64 → i < p.length →
      (unmask key idx p).getD i 0 = p.getD i 0 ^^^ key.getD ((idx + i) % 4) 0 := by
  induction p with
  | nil => intro idx i _ hi; simp at hi
  | cons x xs ih =>
    intro idx i hidx hi
    have hx : x < 256 := hp x (by simp)
    cases i with
    | zero =>
      have hlt : x ^^^ key.getD (idx % 4) 0 < 2 ^ 8 :=
        Nat.xor_lt_two_pow (by omega) (by simpa using getD_lt_256 key hk _)
      simp only [unmask, List.getD_cons_zero, Nat.add_zero]
      omega
    | succ i =>
      simp only [List.length_cons] at hidx hi
      have hidx1 : (idx + 1) % 2 ^ 64 = idx + 1 := Nat.mod_eq_of_lt (by omega)
      simp only [unmask, List.getD_cons_succ, hidx1]
      rw [ih (fun y hy => hp y (by simp [hy])) (idx + 1) i (by omega) (by omega)]
      congr 2
      omega



theorem data_loop_payload (m : WsMessage) (x pos : Nat) (rest : List Nat)
    (hs : m._dataParser.state = .ws_data) :
    ws_data_parser_loop m pos (x :: rest) =
      (((pos + (on_body (on_set_pkgtype m .DATA) (x :: rest)).1 : Nat) : Int),
        (on_body (on_set_pkgtype m .DATA) (x :: rest)).2) := by
  apply data_loop_ret
  simp [ws_data_switch, hs]

theorem on_body_fits (m : WsMessage) (d : List Nat) (hc : Completed m = false)
    (hfit : d.length ≤
      (m._dataParser.payload_length + 2 ^ 64 - m._dataParser.readed_length) % 2 ^ 64) :
    on_body m d = (d.length, delivered m d) := by
  simp only [on_body, hc, Bool.false_eq_true, ↓reduceIte, Nat.min_eq_right hfit, List.take_length,
    delivered, decoded]
  split <;> rfl

theorem mem_whitelist (b : Nat) (hb : b < 256) (hrsv : b / 16 % 8 = 0)
    (hop : b % 16 ∈ [0, 1, 2, 8, 9, 10]) :
    b ≠ 71 ∧ b ∈ [0b00000000, 0b00000001, 0b00000010, 0b00001000, 0b00001001,
        0b00001010, 0b10000000, 0b10000001, 0b10000010, 0b10001000, 0b10001001,
        0b10001010] := by
  simp at hop ⊢
  omega

theorem ws_parser_execute_new_frame (b : Nat) (rest : List Nat) (hb : b < 256)
    (hrsv : b / 16 % 8 = 0) (hop : b % 16 ∈ [0, 1, 2, 8, 9, 10]) :
    ws_parser_execute WsMessage.new (b :: rest) =
      ws_data_parser_loop WsMessage.new 0 (b :: rest) := by
  obtain ⟨h1, h2⟩ := mem_whitelist b hb hrsv hop
  simp only [ws_parser_execute, WsMessage.new, ne_eq, not_true_eq_false, ↓reduceIte, h1, h2,
    ws_data_parser_execute]

/-- C1 (masked frame decode): for a first byte `b` with zero reserved bits and
a recognised opcode, a 4-byte mask key and a payload `p` of `n` bytes,
`1 ≤ n ≤ 125`, one `ParseFromArray` call on a fresh message with the bytes
`b, 0x80|n, k0, k1, k2, k3, p` returns `6 + n` and leaves the message
completed, of kind DATA, with `Fin = b >> 7`, `Opcode = b & 0x0F`,
`PayloadLength = n`, the mask key stored in order and body byte `i` equal to
`p[i] XOR k[i mod 4]`. -/
theorem masked_frame_decode (b k0 k1 k2 k3 n : Nat) (p : List Nat)
    (hb : b < 256) (hrsv : b / 16 % 8 = 0) (hop : b % 16 ∈ [0, 1, 2, 8, 9, 10])
    (hk0 : k0 < 256) (hk1 : k1 < 256) (hk2 : k2 < 256) (hk3 : k3 < 256)
    (hp : ∀ x ∈ p, x < 256) (hlen : p.length = n) (hn1 : 1 ≤ n) (hn : n ≤ 125) :
    ∃ m, ParseFromArray WsMessage.new (b :: (128 + n) :: k0 :: k1 :: k2 :: k3 :: p)
        = (6 + (n : Int), m) ∧
      Completed m = true ∧ m.PkgType = .DATA ∧ m.Fin = b / 128 ∧ m.Opcode = b % 16 ∧
      m.PayloadLength = (n : Int) ∧ m.MaskKey = [k0, k1, k2, k3] ∧ m.body.length = n ∧
      ∀ i, i < n → m.body.getD i 0 = p.getD i 0 ^^^ [k0, k1, k2, k3].getD (i % 4) 0 := by
  obtain ⟨x, xs, rfl⟩ : ∃ x xs, p = x :: xs := by
    cases p with
    | nil => simp at hlen; omega
    | cons x xs => exact ⟨x, xs, rfl⟩
  have hm : (128 + n) / 128 % 2 = 1 := by omega
  have hx : (x :: xs).length = n := hlen
  let M := on_set_pkgtype (afterKey (afterLength (afterFirst WsMessage.new b) 1 0 n)
          [k0, k1, k2, k3]) .DATA
  have hM1 : Completed M = false := by
    simp [M, Completed, on_set_pkgtype, afterKey, afterLength, afterFirst, WsMessage.new]
    omega
  have hM2 : (x :: xs).length ≤
      (M._dataParser.payload_length + 2 ^ 64 - M._dataParser.readed_length) % 2 ^ 64 := by
    simp only [M, on_set_pkgtype, afterKey, afterLength, afterFirst, WsMessage.new, hx]
    omega
  have hloop : ws_data_parser_loop WsMessage.new 0
      (b :: (128 + n) :: k0 :: k1 :: k2 :: k3 :: x :: xs) =
      (((6 + n : Nat) : Int), delivered M (x :: xs)) := by
    rw [loop_first_byte _ _ _ _ rfl hb ((on_opcode_iff _).2 hop),
      loop_length_literal _ (128 + n) n _ _ rfl (by omega) (by omega) (by omega), hm,
      loop_mask_key _ _ _ _ _ _ _ rfl (by simp [afterLength]),
      data_loop_payload _ _ _ _ rfl]
    show ((((0 + 1 + 1 + 4 + (on_body M (x :: xs)).1 : Nat)) : Int), (on_body M (x :: xs)).2) = _
    rw [on_body_fits M _ hM1 hM2, hx]
  refine ⟨{ delivered M (x :: xs) with _parsed_length := 6 + n }, ?_, ?_⟩
  · rw [ParseFromArray, if_neg (by decide), ws_parser_execute_new_frame b _ hb hrsv hop, hloop]
    have hmod : (((6 + n : Nat) : Int) % 2 ^ 64).toNat = 6 + n := by omega
    simp only [hmod]
    simp [delivered, M, on_set_pkgtype, afterKey, afterLength, afterFirst, WsMessage.new]
    omega
  · have hb2 : ∀ i, i < n → (unmask [k0, k1, k2, k3] 0 (x :: xs)).getD i 0 =
        (x :: xs).getD i 0 ^^^ [k0, k1, k2, k3].getD (i % 4) 0 := by
      intro i hi
      have := unmask_getD [k0, k1, k2, k3] (by simp; omega) (x :: xs) hp 0 i
        (by rw [hx]; omega) (by rw [hx]; exact hi)
      simpa using this
    have hl := unmask_length [k0, k1, k2, k3] (x :: xs) 0
    refine ⟨?_, rfl, rfl, rfl, PayloadLength_of_lt _ n rfl (by omega), rfl, ?_, ?_⟩
    · simp [Completed, delivered, M, on_set_pkgtype, afterKey, afterLength, afterFirst,
        WsMessage.new, hx]
      omega
    · simp [WsMessage.body, delivered, decoded, M, on_set_pkgtype, afterKey, afterLength,
        afterFirst, WsMessage.new, hl, hx]
    · intro i hi
      simpa [WsMessage.body, delivered, decoded, M, on_set_pkgtype, afterKey, afterLength,
        afterFirst, WsMessage.new] using hb2 i hi

theorem parse_continues_frame (m : WsMessage) (c : Nat) (rest : List Nat)
    (hs : m._dataParser.state ≠ .ws_data_start) (hcomp : Completed m = false) :
    ParseFromArray m (c :: rest) =
      if (ws_data_parser_loop m 0 (c :: rest)).2._hsParser.ws_errno ≠ .VALID ∨
          (ws_data_parser_loop m 0 (c :: rest)).2._dataParser.ws_errno ≠ .VALID then
        (-1, (ws_data_parser_loop m 0 (c :: rest)).2)
      else
        ((ws_data_parser_loop m 0 (c :: rest)).1,
          { (ws_data_parser_loop m 0 (c :: rest)).2 with
            _parsed_length :=
              ((ws_data_parser_loop m 0 (c :: rest)).2._parsed_length +
                ((ws_data_parser_loop m 0 (c :: rest)).1 % 2 ^ 64).toNat) % 2 ^ 64 }) := by
  simp only [ParseFromArray, hcomp, Bool.false_eq_true, ↓reduceIte, ws_parser_execute, hs,
    ne_eq, not_false_eq_true, ws_data_parser_execute]

/-- C6 (zero-length payload): for a message whose frame machine has accepted
the first byte and that is not completed, a second byte with selector 0, or
selector 126 followed by `00 00`, or selector 127 followed by eight `00`
bytes (whatever the mask bit and whatever follows in the chunk) sets the
frame error to `INVALID_PAYLOAD_ZERO`; the loop returns the index of the last
length byte, the state is not the payload state, `Completed` is still false
and `ParseFromArray` on the chunk returns -1. -/
theorem zero_payload_length_rejected (m : WsMessage) (c pos : Nat) (rest : List Nat)
    (hs : m._dataParser.state = .ws_data_fin_done) (hcomp : Completed m = false) :
    (c % 128 = 0 →
      ∃ m', ws_data_parser_loop m pos (c :: rest) = ((pos : Int), m') ∧
        m'._dataParser.ws_errno = .INVALID_PAYLOAD_ZERO ∧
        m'._dataParser.state ≠ .ws_data ∧ Completed m' = false ∧
        ParseFromArray m (c :: rest) = (-1, m')) ∧
    (c % 128 = 126 →
      ∃ m', ws_data_parser_loop m pos (c :: 0 :: 0 :: rest) = (((pos + 2 : Nat) : Int), m') ∧
        m'._dataParser.ws_errno = .INVALID_PAYLOAD_ZERO ∧
        m'._dataParser.state ≠ .ws_data ∧ Completed m' = false ∧
        ParseFromArray m (c :: 0 :: 0 :: rest) = (-1, m')) ∧
    (c % 128 = 127 →
      ∃ m', ws_data_parser_loop m pos (c :: 0 :: 0 :: 0 :: 0 :: 0 :: 0 :: 0 :: 0 :: rest) =
          (((pos + 8 : Nat) : Int), m') ∧
        m'._dataParser.ws_errno = .INVALID_PAYLOAD_ZERO ∧
        m'._dataParser.state ≠ .ws_data ∧ Completed m' = false ∧
        ParseFromArray m (c :: 0 :: 0 :: 0 :: 0 :: 0 :: 0 :: 0 :: 0 :: rest) = (-1, m')) := by
  have hs' : m._dataParser.state ≠ .ws_data_start := by rw [hs]; decide
  have hc : (decide (m._pkg_type = .HANDSHAKE) &&
      decide (m._header_checker &&& 0b00011111 = 0b00011111)) = false := by
    simp only [Completed, Bool.or_eq_false_iff] at hcomp
    exact hcomp.2
  have key : ∀ (chunk : List Nat) (k : Nat) (m' : WsMessage),
      (∀ p, ws_data_parser_loop m p chunk = (((p + k : Nat) : Int), m')) →
      m'._dataParser.ws_errno = .INVALID_PAYLOAD_ZERO →
      m'._dataParser.state ≠ .ws_data → m'._pkg_type = m._pkg_type →
      m'._header_checker = m._header_checker → chunk ≠ [] →
      ∃ m', ws_data_parser_loop m pos chunk = (((pos + k : Nat) : Int), m') ∧
        m'._dataParser.ws_errno = .INVALID_PAYLOAD_ZERO ∧
        m'._dataParser.state ≠ .ws_data ∧ Completed m' = false ∧
        ParseFromArray m chunk = (-1, m') := by
    intro chunk k m' hl he hst hp hch hne
    refine ⟨m', hl pos, he, hst, ?_, ?_⟩
    · simp only [Completed, he, hp, hch]
      simpa using hc
    · obtain ⟨c', rest', rfl⟩ : ∃ c' rest', chunk = c' :: rest' := by
        cases chunk with
        | nil => exact absurd rfl hne
        | cons a l => exact ⟨a, l, rfl⟩
      rw [parse_continues_frame m c' rest' hs' hcomp, hl 0]
      simp [he]
  refine ⟨?_, ?_, ?_⟩
  · intro h
    simpa using key (c :: rest) 0
      { m with _dataParser := { m._dataParser with
          mask := c / 128 % 2, payload_length := 0, ws_errno := .INVALID_PAYLOAD_ZERO } }
      (fun p => by
        simp [ws_data_parser_loop, ws_data_switch, hs, h, setPayloadLength, setDataErrno])
      rfl (by simp [hs]) rfl rfl (by simp)
  · intro h
    exact key (c :: 0 :: 0 :: rest) 2
      { m with _dataParser := { m._dataParser with
          mask := c / 128 % 2, payload_type := 1, payload_length := 0,
          state := .ws_data_payload_1, ws_errno := .INVALID_PAYLOAD_ZERO } }
      (fun p => by
        simp [ws_data_parser_loop, ws_data_switch, hs, h, setPayloadLength, setDataErrno,
          setDataState]
        omega)
      rfl (by simp) rfl rfl (by simp)
  · intro h
    exact key (c :: 0 :: 0 :: 0 :: 0 :: 0 :: 0 :: 0 :: 0 :: rest) 8
      { m with _dataParser := { m._dataParser with
          mask := c / 128 % 2, payload_type := 2, payload_length := 0,
          state := .ws_data_payload_7, ws_errno := .INVALID_PAYLOAD_ZERO } }
      (fun p => by
        simp [ws_data_parser_loop, ws_data_switch, hs, h, setPayloadLength, setDataErrno,
          setDataState]
        omega)
      rfl (by simp) rfl rfl (by simp)

/-- C2 (unmasked frame decode), evaluated on the frame `81 05 "hello"`: the
call returns 7, but the byte `h` is consumed by the state `ws_mask_key_1`
without being delivered, so the body is `"ello"`, only 4 of the 5 declared
bytes are read and the message is not completed. -/
theorem unmasked_frame_loses_first_payload_byte :
    ∃ m, ParseFromArray WsMessage.new ([0x81, 0x05] ++ bytes "hello") = (7, m) ∧
      Completed m = false ∧ m.PayloadLength = 5 ∧ m.body = bytes "ello" := by
  refine ⟨_, rfl, ?_⟩
  decide

/-- C8 (first frame byte): in the start state, a byte `b` whose low four bits
are one of 0, 1, 2, 8, 9, 10 sets `fin` to the high bit of `b`, `opcode` to
`b & 0x0F`, leaves the error code as it was and moves to `ws_data_fin_done`;
any other byte sets `INVALID_UNKNOWN_OPCODE` and the call returns the index
of that byte. -/
theorem first_byte_decoding (m : WsMessage) (b : Nat) (pos : Nat) (rest : List Nat)
    (hb : b < 256) (hs : m._dataParser.state = .ws_data_start) :
    (b % 16 ∈ [0, 1, 2, 8, 9, 10] →
      ws_data_switch m b rest =
        .next { m with _dataParser :=
          { m._dataParser with
            fin := b / 128, opcode := b % 16, state := .ws_data_fin_done } }) ∧
    (b % 16 ∉ [0, 1, 2, 8, 9, 10] →
      ws_data_parser_loop m pos (b :: rest) =
        ((pos : Int), { m with _dataParser :=
          { m._dataParser with
            fin := b / 128, opcode := b % 16,
            ws_errno := .INVALID_UNKNOWN_OPCODE } })) := by
  have h2 : b / 128 % 2 = b / 128 := by omega
  constructor
  · intro h
    have := (on_opcode_iff (b % 16)).2 h
    simp [ws_data_switch, hs, this, h2, setDataState]
  · intro h
    have : on_opcode (b % 16) = false := by
      cases hh : on_opcode (b % 16)
      · rfl
      · exact absurd ((on_opcode_iff _).1 hh) h
    simp [ws_data_parser_loop, ws_data_switch, hs, this, h2, setDataErrno]

/-- C7 (payload length decoding): from the state after the first byte, a
second byte with selector `s < 126` gives `payload_length = s`; selector 126
gives `256 * x0 + x1` for the next two bytes; selector 127 gives the
big-endian value of the next eight bytes, which is below `2 ^ 64` (the
64-bit additions do not wrap); in each case for byte values with a non-zero
result, minimal or not. -/
theorem payload_length_decoding (m : WsMessage) (c x0 x1 x2 x3 x4 x5 x6 x7 : Nat)
    (h0 : x0 < 256) (h1 : x1 < 256) (h2 : x2 < 256) (h3 : x3 < 256)
    (h4 : x4 < 256) (h5 : x5 < 256) (h6 : x6 < 256) (h7 : x7 < 256)
    (hs : m._dataParser.state = .ws_data_fin_done) :
    (c % 128 < 126 → c % 128 ≠ 0 →
      ∃ m', ws_data_parser_execute m [c] = (1, m') ∧
        m'._dataParser.payload_length = c % 128 ∧
        m'._dataParser.state = .ws_mask_key_1 ∧
        m'._dataParser.ws_errno = m._dataParser.ws_errno) ∧
    (c % 128 = 126 → 256 * x0 + x1 ≠ 0 →
      ∃ m', ws_data_parser_execute m [c, x0, x1] = (3, m') ∧
        m'._dataParser.payload_length = 256 * x0 + x1 ∧
        m'._dataParser.state = .ws_mask_key_1 ∧
        m'._dataParser.ws_errno = m._dataParser.ws_errno) ∧
    (c % 128 = 127 →
      x0 * 256 ^ 7 + x1 * 256 ^ 6 + x2 * 256 ^ 5 + x3 * 256 ^ 4 + x4 * 256 ^ 3 +
        x5 * 256 ^ 2 + x6 * 256 + x7 ≠ 0 →
      ∃ m', ws_data_parser_execute m [c, x0, x1, x2, x3, x4, x5, x6, x7] = (9, m') ∧
        m'._dataParser.payload_length =
          x0 * 256 ^ 7 + x1 * 256 ^ 6 + x2 * 256 ^ 5 + x3 * 256 ^ 4 + x4 * 256 ^ 3 +
            x5 * 256 ^ 2 + x6 * 256 + x7 ∧
        m'._dataParser.payload_length < 2 ^ 64 ∧
        m'._dataParser.state = .ws_mask_key_1 ∧
        m'._dataParser.ws_errno = m._dataParser.ws_errno) := by
  refine ⟨?_, ?_, ?_⟩
  · intro hlt hne
    have hne' : ¬ (0 = c % 128) := fun h => hne h.symm
    simp [ws_data_parser_execute, ws_data_parser_loop, ws_data_switch, hs, hlt, hne',
      setPayloadLength, setDataState, setDataErrno]
  · intro h126 hne
    simp only [ws_data_parser_execute, ws_data_parser_loop, ws_data_switch, hs, h126,
      setPayloadLength, setDataState, setDataErrno, Nat.shiftLeft_eq]
    norm_num
    rw [if_neg (by omega)]
    refine ⟨_, rfl, ?_, rfl, rfl⟩
    simp only []
    omega
  · intro h127 hne
    simp only [ws_data_parser_execute, ws_data_parser_loop, ws_data_switch, hs, h127,
      setPayloadLength, setDataState, setDataErrno, Nat.shiftLeft_eq]
    norm_num
    norm_num at hne
    rw [if_neg (by omega)]
    refine ⟨_, rfl, ?_, ?_, rfl, rfl⟩
    · simp only []
      omega
    · simp only []
      omega


theorem masked_frame_decode_witness :
    ∃ m, ParseFromArray WsMessage.new [0x81, 128 + 5, 1, 2, 3, 4, 0, 0, 0, 0, 0]
        = (6 + ((5 : Nat) : Int), m) ∧
      Completed m = true ∧ m.PkgType = .DATA ∧ m.Fin = 0x81 / 128 ∧ m.Opcode = 0x81 % 16 ∧
      m.PayloadLength = ((5 : Nat) : Int) ∧ m.MaskKey = [1, 2, 3, 4] ∧ m.body.length = 5 ∧
      ∀ i, i < 5 →
        m.body.getD i 0 = [0, 0, 0, 0, 0].getD i 0 ^^^ [1, 2, 3, 4].getD (i % 4) 0 :=
  masked_frame_decode 0x81 1 2 3 4 5 [0, 0, 0, 0, 0] (by decide) (by decide) (by decide)
    (by decide) (by decide) (by decide) (by decide) (by decide) rfl (by decide) (by decide)

theorem zero_payload_length_rejected_witness :
    ∃ m', ws_data_parser_loop (afterFirst WsMessage.new 0x81) 1 [0xFE, 0, 0, 7] =
          (((1 + 2 : Nat) : Int), m') ∧
        m'._dataParser.ws_errno = .INVALID_PAYLOAD_ZERO ∧
        m'._dataParser.state ≠ .ws_data ∧ Completed m' = false ∧
        ParseFromArray (afterFirst WsMessage.new 0x81) [0xFE, 0, 0, 7] = (-1, m') :=
  (zero_payload_length_rejected (afterFirst WsMessage.new 0x81) 0xFE 1 [7] rfl rfl).2.1
    (by decide)

theorem first_byte_decoding_witness :
    ws_data_switch WsMessage.new 0x81 [5] =
      .next { WsMessage.new with _dataParser :=
        { WsMessage.new._dataParser with
          fin := 0x81 / 128, opcode := 0x81 % 16, state := .ws_data_fin_done } } :=
  (first_byte_decoding WsMessage.new 0x81 0 [5] (by decide) rfl).1 (by decide)

theorem payload_length_decoding_witness :
    ∃ m', ws_data_parser_execute (afterFirst WsMessage.new 0x82) [126, 1, 0] = (3, m') ∧
        m'._dataParser.payload_length = 256 * 1 + 0 ∧
        m'._dataParser.state = .ws_mask_key_1 ∧
        m'._dataParser.ws_errno = (afterFirst WsMessage.new 0x82)._dataParser.ws_errno :=
  (payload_length_decoding (afterFirst WsMessage.new 0x82) 126 1 0 0 0 0 0 0 0
    (by decide) (by decide) (by decide) (by decide) (by decide) (by decide) (by decide)
    (by decide) rfl).2.1 (by decide) (by decide)

/-! ## The handshake response -/

/-- C10 (RFC 6455 accept example): for the key `dGhlIHNhbXBsZSBub25jZQ==` the
accept value computed by `MakeHandshakeResp` is
`s3pPLMBiTxaQ9kYGzzhZRbK+xOo=`, and the response is the fixed header text
around it. -/
theorem rfc6455_accept_example (m : WsMessage) :
    encoded_resp_key { m with _ws_key := bytes "dGhlIHNhbXBsZSBub25jZQ==" } =
        bytes "s3pPLMBiTxaQ9kYGzzhZRbK+xOo=" ∧
      MakeHandshakeResp { m with _ws_key := bytes "dGhlIHNhbXBsZSBub25jZQ==" } =
        bytes "HTTP/1.1 101 Switching Protocols\r\nUpgrade: websocket\r\nConnection: Upgrade\r\nSec-WebSocket-Accept:s3pPLMBiTxaQ9kYGzzhZRbK+xOo=\r\n\r\n" := by
  have h : encoded_resp_key { m with _ws_key := bytes "dGhlIHNhbXBsZSBub25jZQ==" } =
        bytes "s3pPLMBiTxaQ9kYGzzhZRbK+xOo=" := by
    show Base64Encode (SHA1HashString
      (string_printf_ss (bytes "dGhlIHNhbXBsZSBub25jZQ==") _ws_magic)) = _
    decide!
  refine ⟨h, ?_⟩
  rw [MakeHandshakeResp, h]
  decide!

/-- C5 (handshake split invariance), evaluated on a well-formed request:
parsed in one call it is consumed whole and completes the message; cut after
its first byte, the second call returns -1 because the chunk `ET / ...` does
not start with `G`, and the message is not completed; fed one byte per chunk,
the second call (the byte `E`) returns -1 as well. -/
theorem handshake_split_after_first_byte_fails :
    (ParseFromArray WsMessage.new sampleRequest).1 = sampleRequest.length ∧
      Completed (ParseFromArray WsMessage.new sampleRequest).2 = true ∧
      (parseChunks WsMessage.new [sampleRequest.take 1, sampleRequest.drop 1]).1 = [1, -1] ∧
      Completed
        (parseChunks WsMessage.new [sampleRequest.take 1, sampleRequest.drop 1]).2 = false ∧
      (parseChunks WsMessage.new ((sampleRequest.take 2).map fun b => [b])).1 = [1, -1] :=
  ⟨by decide!, by decide!, by decide!, by decide!, by decide!⟩

/-- C9 (handshake response format), evaluated on a request whose key value is
`'A', 0, 'B'`: the request is consumed whole, the message is completed and the
captured key is these three bytes, but the response carries
`base64(sha1("A" ++ GUID))`, the key cut at its zero byte by the `%s` of
`string_printf`, and not `base64(sha1(K ++ GUID))`. -/
theorem response_truncates_key_at_zero_byte :
    (ParseFromArray WsMessage.new zeroByteKeyRequest).1 = zeroByteKeyRequest.length ∧
      Completed (ParseFromArray WsMessage.new zeroByteKeyRequest).2 = true ∧
      (ParseFromArray WsMessage.new zeroByteKeyRequest).2._ws_key = [65, 0, 66] ∧
      MakeHandshakeResp (ParseFromArray WsMessage.new zeroByteKeyRequest).2 =
        expectedHandshakeResp [65] ∧
      MakeHandshakeResp (ParseFromArray WsMessage.new zeroByteKeyRequest).2 ≠
        expectedHandshakeResp [65, 0, 66] :=
  ⟨by decide!, by decide!, by decide!, by decide!, by decide!⟩

theorem c_str_of_no_zero (K : List Nat) (h : ∀ x ∈ K, x ≠ 0) : c_str K = K := by
  unfold c_str
  rw [List.takeWhile_eq_self_iff]
  intro x hx
  simpa using h x hx

/-- For a key without a zero byte the response is the one the spec
describes, whatever else the message holds. -/
theorem MakeHandshakeResp_of_no_zero (m : WsMessage) (h : ∀ x ∈ m._ws_key, x ≠ 0) :
    MakeHandshakeResp m = expectedHandshakeResp m._ws_key := by
  have hm : c_str _ws_magic = _ws_magic := by decide
  simp only [MakeHandshakeResp, expectedHandshakeResp, encoded_resp_key, string_printf_ss,
    c_str_of_no_zero _ h, hm]
  have : bytes "HTTP/1.1 101 Switching Protocols\r\nUpgrade: websocket\r\nConnection: Upgrade\r\nSec-WebSocket-Accept:" =
      bytes "HTTP/1.1 101 Switching Protocols" ++ bytes "\r\n" ++ bytes "Upgrade: websocket" ++
        bytes "\r\n" ++ bytes "Connection: Upgrade" ++ bytes "\r\n" ++
        bytes "Sec-WebSocket-Accept:" := by decide
  rw [this]

/-! ## Chunked delivery of a frame -/

theorem header_switch (m : WsMessage) (ch : Nat) (rest : List Nat)
    (hs : m._dataParser.state ≠ .ws_data) (hwf : FrameWF m) :
    (∃ m1, (∀ rest', ws_data_switch m ch rest' = .next m1) ∧ FrameWF m1 ∧
        m1._dataParser.state ≠ .ws_data_start ∧ m1._parsed_length = m._parsed_length) ∨
      (∃ m1, ws_data_switch m ch rest = .ret 0 m1 ∧ m1._dataParser.ws_errno ≠ .VALID) := by
  obtain ⟨h1, h2, h3, h4, h5, h6⟩ := hwf
  have hp : m._pkg_type ≠ .DATA := fun h => hs (h2 h)
  cases hst : m._dataParser.state
  case ws_data => exact absurd hst hs
  all_goals
    simp only [ws_data_switch, hst, FrameWF, setDataState, setDataErrno, setPayloadLength,
      on_set_mask_key]
    (first | split_ifs | skip) <;>
    first
    | (right; exact ⟨_, rfl, by simp⟩)
    | (left
       refine ⟨_, fun _ => rfl, ⟨h1, fun h => absurd h hp, h3, h4, h5, ?_⟩, by simp, rfl⟩
       dsimp only
       omega)
theorem unmask_append (key : List Nat) (a : List Nat) :
    ∀ (idx : Nat) (b : List Nat), idx < 2 ^ 64 →
      unmask key idx (a ++ b) =
        unmask key idx a ++ unmask key ((idx + a.length) % 2 ^ 64) b := by
  induction a with
  | nil =>
    intro idx b h
    have e : (idx + 0) % 2 ^ 64 = idx := Nat.mod_eq_of_lt h
    simp only [List.nil_append, unmask, List.length_nil, e]
  | cons x a ih =>
    intro idx b h
    have hlt : (idx + 1) % 2 ^ 64 < 2 ^ 64 := Nat.mod_lt _ (by norm_num)
    have e : ((idx + 1) % 2 ^ 64 + a.length) % 2 ^ 64 = (idx + (a.length + 1)) % 2 ^ 64 := by
      omega
    rw [List.cons_append, unmask, unmask, ih _ b hlt, e, List.length_cons, List.cons_append]

theorem completed_set_data (m : WsMessage) (h : m._pkg_type = .DATA) :
    on_set_pkgtype m .DATA = m := by
  cases m
  simp_all [on_set_pkgtype]

theorem cast_pair_inj {p k q : Nat} {m m' : WsMessage}
    (h : ((((p + k : Nat) : Int)), m) = (((q : Nat) : Int), m')) : p + k = q ∧ m = m' := by
  simp only [Prod.mk.injEq, Nat.cast_inj] at h
  exact h

theorem not_completed_of_consumes (m m' : WsMessage) (pos : Nat) (b : List Nat)
    (hwf : FrameWF m) (hb : b ≠ [])
    (h : ws_data_parser_loop m pos b = (((pos + b.length : Nat) : Int), m')) :
    Completed m = false := by
  obtain ⟨h1, h2, h3, h4, h5, h6⟩ := hwf
  cases hp : m._pkg_type
  · simp [Completed, hp]
  · exact absurd hp h1
  · obtain ⟨x, xs, rfl⟩ : ∃ x xs, b = x :: xs := by
      cases b with
      | nil => exact absurd rfl hb
      | cons x xs => exact ⟨x, xs, rfl⟩
    rw [data_loop_payload m x pos xs (h2 hp), completed_set_data m hp] at h
    by_contra hc
    simp only [Bool.not_eq_false] at hc
    simp only [on_body, hc, ↓reduceIte] at h
    have := (cast_pair_inj h).1
    simp at this
theorem delivered_append (m : WsMessage) (a b : List Nat)
    (h5 : m._dataParser.readed_length < 2 ^ 64) :
    delivered (delivered m a) b = delivered m (a ++ b) := by
  have e : ((m._dataParser.readed_length + a.length) % 2 ^ 64 + b.length) % 2 ^ 64 =
      (m._dataParser.readed_length + (a.length + b.length)) % 2 ^ 64 := by omega
  simp only [delivered, decoded, List.length_append, e, List.append_assoc]
  split
  · rfl
  · rw [unmask_append _ _ _ _ h5]

theorem payload_split (m m' : WsMessage) (pos x : Nat) (a b : List Nat)
    (hwf : FrameWF m) (hs : m._dataParser.state = .ws_data) (hb : b ≠ [])
    (h : ws_data_parser_loop m pos ((x :: a) ++ b) =
      (((pos + (x :: a).length + b.length : Nat) : Int), m')) :
    ∃ m1, ws_data_parser_loop m pos (x :: a) = (((pos + (x :: a).length : Nat) : Int), m1) ∧
      FrameWF m1 ∧ Completed m1 = false ∧ m1._dataParser.state ≠ .ws_data_start ∧
      m1._parsed_length = m._parsed_length ∧
      ws_data_parser_loop m1 (pos + (x :: a).length) b =
        (((pos + (x :: a).length + b.length : Nat) : Int), m') := by
  obtain ⟨h1, h2, h3, h4, h5, h6⟩ := hwf
  obtain ⟨y, ys, rfl⟩ : ∃ y ys, b = y :: ys := by
    cases b with
    | nil => exact absurd rfl hb
    | cons y ys => exact ⟨y, ys, rfl⟩
  set M := on_set_pkgtype m .DATA with hM
  have hMc : Completed M = false := by
    by_contra hc
    simp only [Bool.not_eq_false] at hc
    rw [List.cons_append, data_loop_payload m x pos _ hs] at h
    simp only [← hM, on_body, hc, ↓reduceIte] at h
    have := (cast_pair_inj h).1
    simp at this
    omega
  have hfit : ((x :: a) ++ (y :: ys)).length ≤
      (M._dataParser.payload_length + 2 ^ 64 - M._dataParser.readed_length) % 2 ^ 64 := by
    rw [List.cons_append, data_loop_payload m x pos _ hs] at h
    simp only [← hM, on_body, hMc, Bool.false_eq_true, ↓reduceIte] at h
    have := (cast_pair_inj h).1
    simp only [List.length_cons, List.length_append] at this ⊢
    omega
  have hMr : M._dataParser.readed_length = m._dataParser.readed_length := rfl
  have hMp : M._dataParser.payload_length = m._dataParser.payload_length := rfl
  have hfit1 : (x :: a).length ≤
      (M._dataParser.payload_length + 2 ^ 64 - M._dataParser.readed_length) % 2 ^ 64 := by
    simp only [List.length_cons, List.length_append] at hfit ⊢
    omega
  have hm' : m' = delivered M ((x :: a) ++ (y :: ys)) := by
    rw [List.cons_append, data_loop_payload m x pos _ hs, ← hM, ← List.cons_append,
      on_body_fits M _ hMc hfit] at h
    exact ((cast_pair_inj h).2).symm
  have hc1 : Completed (delivered M (x :: a)) = false := by
    simp only [List.length_cons, List.length_append, hMr, hMp] at hfit
    simp only [Completed, delivered, M, on_set_pkgtype, List.length_cons, h3]
    simp
    omega
  refine ⟨delivered M (x :: a), ?_, ?_, hc1, ?_, rfl, ?_⟩
  · rw [data_loop_payload m x pos _ hs, ← hM, on_body_fits M _ hMc hfit1]
  · refine ⟨by simp [delivered, M, on_set_pkgtype], fun _ => hs, h3, h4, ?_, h6⟩
    exact Nat.mod_lt _ (by norm_num)
  · show m._dataParser.state ≠ _
    rw [hs]; decide
  · have hs1 : (delivered M (x :: a))._dataParser.state = .ws_data := hs
    have hset : on_set_pkgtype (delivered M (x :: a)) .DATA = delivered M (x :: a) :=
      completed_set_data _ rfl
    have hfit2 : (y :: ys).length ≤
        ((delivered M (x :: a))._dataParser.payload_length + 2 ^ 64 -
          (delivered M (x :: a))._dataParser.readed_length) % 2 ^ 64 := by
      simp only [List.length_cons, List.length_append, hMr, hMp] at hfit
      simp only [delivered, M, on_set_pkgtype, List.length_cons]
      omega
    rw [data_loop_payload _ y _ ys hs1, hset, on_body_fits _ _ hc1 hfit2, hm',
      delivered_append M _ _ (by rw [hMr]; exact h5)]
theorem data_loop_split (a : List Nat) :
    ∀ (m : WsMessage) (pos : Nat) (b : List Nat) (m' : WsMessage),
      FrameWF m → b ≠ [] →
      ws_data_parser_loop m pos (a ++ b) =
        (((pos + a.length + b.length : Nat) : Int), m') →
      ∃ m1, ws_data_parser_loop m pos a = (((pos + a.length : Nat) : Int), m1) ∧
        FrameWF m1 ∧ Completed m1 = false ∧
        (m._dataParser.state ≠ .ws_data_start ∨ a ≠ [] →
          m1._dataParser.state ≠ .ws_data_start) ∧
        m1._parsed_length = m._parsed_length ∧
        ws_data_parser_loop m1 (pos + a.length) b =
          (((pos + a.length + b.length : Nat) : Int), m') := by
  induction a with
  | nil =>
    intro m pos b m' hwf hb h
    refine ⟨m, rfl, hwf, ?_, ?_, rfl, h⟩
    · exact not_completed_of_consumes m m' pos b hwf hb (by simpa using h)
    · intro hh
      rcases hh with hh | hh
      · exact hh
      · exact absurd rfl hh
  | cons x a ih =>
    intro m pos b m' hwf hb h
    by_cases hs : m._dataParser.state = .ws_data
    · obtain ⟨m1, e1, e2, e3, e4, e5, e6⟩ := payload_split m m' pos x a b hwf hs hb h
      exact ⟨m1, e1, e2, e3, fun _ => e4, e5, e6⟩
    · rcases header_switch m x (a ++ b) hs hwf with ⟨m2, hn, hwf2, hst2, hpl2⟩ | ⟨m2, hr, _⟩
      · rw [List.cons_append, data_loop_next pos (hn _)] at h
        have h' : ws_data_parser_loop m2 (pos + 1) (a ++ b) =
            ((((pos + 1) + a.length + b.length : Nat) : Int), m') := by
          rw [h]
          simp only [List.length_cons, Prod.mk.injEq, Nat.cast_inj, and_true]
          omega
        obtain ⟨m1, e1, e2, e3, e4, e5, e6⟩ := ih m2 (pos + 1) b m' hwf2 hb h'
        refine ⟨m1, ?_, e2, e3, fun _ => e4 (Or.inl hst2), e5.trans hpl2, ?_⟩
        · rw [data_loop_next pos (hn _), e1]
          simp only [List.length_cons, Prod.mk.injEq, Nat.cast_inj, and_true]
          omega
        · have e : pos + (x :: a).length = pos + 1 + a.length := by
            simp only [List.length_cons]; omega
          rw [e, e6]
      · rw [List.cons_append, data_loop_ret pos hr] at h
        have := (cast_pair_inj h).1
        simp only [List.length_cons] at this
        omega
theorem switch_setParsed (m : WsMessage) (x ch : Nat) (rest : List Nat) :
    ws_data_switch (setParsed m x) ch rest = (ws_data_switch m ch rest).setParsed x := by
  cases hst : m._dataParser.state
  case ws_data =>
    have hst' : (setParsed m x)._dataParser.state = .ws_data := hst
    simp only [ws_data_switch, hst, hst', on_body, on_set_pkgtype, setParsed, Completed]
    split_ifs <;> rfl
  all_goals
    have hst' : (setParsed m x)._dataParser.state = _ := hst
    simp only [ws_data_switch, hst, hst', setDataState, setDataErrno, setPayloadLength,
      on_set_mask_key, setParsed]
    (first | split_ifs | skip) <;> rfl

theorem loop_setParsed (d : List Nat) : ∀ (m : WsMessage) (x pos : Nat),
    ws_data_parser_loop (setParsed m x) pos d =
      ((ws_data_parser_loop m pos d).1, setParsed (ws_data_parser_loop m pos d).2 x) := by
  induction d with
  | nil => intro m x pos; rfl
  | cons ch rest ih =>
    intro m x pos
    simp only [ws_data_parser_loop, switch_setParsed]
    cases ws_data_switch m ch rest with
    | next m1 => exact ih m1 x (pos + 1)
    | ret k m1 => rfl

theorem loop_pos (d : List Nat) : ∀ (m : WsMessage) (pos : Nat),
    ws_data_parser_loop m pos d =
      ((ws_data_parser_loop m 0 d).1 + pos, (ws_data_parser_loop m 0 d).2) := by
  induction d with
  | nil => intro m pos; simp [ws_data_parser_loop]
  | cons ch rest ih =>
    intro m pos
    simp only [ws_data_parser_loop]
    cases ws_data_switch m ch rest with
    | next m1 =>
      simp only
      rw [ih m1 (pos + 1), ih m1 (0 + 1)]
      simp only [Prod.mk.injEq, and_true]
      push_cast
      omega
    | ret k m1 =>
      simp only [Prod.mk.injEq, and_true]
      push_cast
      omega

theorem switch_keeps (m : WsMessage) (ch : Nat) (rest : List Nat) :
    ∀ k m1, (ws_data_switch m ch rest = .next m1 ∨ ws_data_switch m ch rest = .ret k m1) →
      m1._hsParser = m._hsParser ∧ m1._parsed_length = m._parsed_length := by
  intro k m1 h
  cases hst : m._dataParser.state
  case ws_data =>
    simp only [ws_data_switch, hst, on_body, on_set_pkgtype] at h
    split_ifs at h <;> simp at h <;> (obtain ⟨_, rfl⟩ := h; exact ⟨rfl, rfl⟩)
  all_goals
    simp only [ws_data_switch, hst, setDataState, setDataErrno, setPayloadLength,
      on_set_mask_key] at h
    (first | split_ifs at h | skip) <;> simp at h <;>
      (obtain ⟨_, rfl⟩ := h; exact ⟨rfl, rfl⟩)

theorem loop_keeps (d : List Nat) : ∀ (m : WsMessage) (pos : Nat),
    (ws_data_parser_loop m pos d).2._hsParser = m._hsParser ∧
      (ws_data_parser_loop m pos d).2._parsed_length = m._parsed_length := by
  induction d with
  | nil => intro m pos; exact ⟨rfl, rfl⟩
  | cons ch rest ih =>
    intro m pos
    simp only [ws_data_parser_loop]
    cases hsw : ws_data_switch m ch rest with
    | next m1 =>
      obtain ⟨a, b⟩ := switch_keeps m ch rest 0 m1 (Or.inl hsw)
      obtain ⟨c, d⟩ := ih m1 (pos + 1)
      exact ⟨c.trans a, d.trans b⟩
    | ret k m1 => exact switch_keeps m ch rest k m1 (Or.inr hsw)
theorem parse_eq_loop (m : WsMessage) (x : Nat) (xs : List Nat)
    (hcomp : Completed m = false)
    (hd : m._dataParser.state ≠ .ws_data_start ∨
      (x ≠ 71 ∧ x ∈ [0b00000000, 0b00000001, 0b00000010, 0b00001000, 0b00001001,
        0b00001010, 0b10000000, 0b10000001, 0b10000010, 0b10001000, 0b10001001,
        0b10001010])) :
    ParseFromArray m (x :: xs) =
      if (ws_data_parser_loop m 0 (x :: xs)).2._hsParser.ws_errno ≠ .VALID ∨
          (ws_data_parser_loop m 0 (x :: xs)).2._dataParser.ws_errno ≠ .VALID then
        (-1, (ws_data_parser_loop m 0 (x :: xs)).2)
      else
        ((ws_data_parser_loop m 0 (x :: xs)).1,
          { (ws_data_parser_loop m 0 (x :: xs)).2 with
            _parsed_length :=
              ((ws_data_parser_loop m 0 (x :: xs)).2._parsed_length +
                ((ws_data_parser_loop m 0 (x :: xs)).1 % 2 ^ 64).toNat) % 2 ^ 64 }) := by
  have h : ws_parser_execute m (x :: xs) = ws_data_parser_loop m 0 (x :: xs) := by
    rcases hd with hd | ⟨h1, h2⟩
    · simp only [ws_parser_execute, hd, ne_eq, not_false_eq_true, ↓reduceIte,
        ws_data_parser_execute]
    · by_cases hs : m._dataParser.state = .ws_data_start
      · simp only [ws_parser_execute, hs, ne_eq, not_true_eq_false, ↓reduceIte, h1, h2,
          ws_data_parser_execute]
      · simp only [ws_parser_execute, hs, ne_eq, not_false_eq_true, ↓reduceIte,
          ws_data_parser_execute]
  simp only [ParseFromArray, hcomp, Bool.false_eq_true, ↓reduceIte, h]

theorem parse_consumes (m m' : WsMessage) (c : List Nat) (hc : c ≠ []) (hwf : FrameWF m)
    (hd : ∀ x xs, c = x :: xs → m._dataParser.state ≠ .ws_data_start ∨
      (x ≠ 71 ∧ x ∈ [0b00000000, 0b00000001, 0b00000010, 0b00001000, 0b00001001,
        0b00001010, 0b10000000, 0b10000001, 0b10000010, 0b10001000, 0b10001001,
        0b10001010]))
    (h : ws_data_parser_loop m 0 c = (((c.length : Nat) : Int), m'))
    (he : m'._dataParser.ws_errno = .VALID) :
    ParseFromArray m c =
      ((c.length : Int), setParsed m' ((m._parsed_length + c.length) % 2 ^ 64)) := by
  have hcomp : Completed m = false :=
    not_completed_of_consumes m m' 0 c hwf hc (by simpa using h)
  obtain ⟨x, xs, rfl⟩ : ∃ x xs, c = x :: xs := by
    cases c with
    | nil => exact absurd rfl hc
    | cons x xs => exact ⟨x, xs, rfl⟩
  have hk := loop_keeps (x :: xs) m 0
  rw [h] at hk
  obtain ⟨hk1, hk2⟩ := hk
  simp only at hk1 hk2
  have hhs : m'._hsParser.ws_errno = .VALID := by rw [hk1]; exact hwf.2.2.2.1
  rw [parse_eq_loop m x xs hcomp (hd x xs rfl), h]
  simp only [hhs, he, ne_eq, not_true_eq_false, or_self, ↓reduceIte, hk2, setParsed]
  have : (((x :: xs).length : Int) % 2 ^ 64).toNat = (x :: xs).length % 2 ^ 64 := by
    omega
  rw [this]
  simp only [Nat.add_mod_mod]

theorem chunks_consume (cs : List (List Nat)) :
    ∀ (m m' : WsMessage), FrameWF m → cs ≠ [] → (∀ c ∈ cs, c ≠ []) →
      (∀ x xs, cs.flatten = x :: xs → m._dataParser.state ≠ .ws_data_start ∨
        (x ≠ 71 ∧ x ∈ [0b00000000, 0b00000001, 0b00000010, 0b00001000, 0b00001001,
          0b00001010, 0b10000000, 0b10000001, 0b10000010, 0b10001000, 0b10001001,
          0b10001010])) →
      ws_data_parser_loop m 0 cs.flatten = (((cs.flatten.length : Nat) : Int), m') →
      m'._dataParser.ws_errno = .VALID →
      parseChunks m cs =
        (cs.map (fun c => (c.length : Int)),
          setParsed m' ((m._parsed_length + cs.flatten.length) % 2 ^ 64)) := by
  induction cs with
  | nil => intro m m' _ h; exact absurd rfl h
  | cons c cs ih =>
    intro m m' hwf _ hne hd h he
    have hc : c ≠ [] := hne c (by simp)
    by_cases hcs : cs = []
    · subst hcs
      simp only [List.flatten_cons, List.flatten_nil, List.append_nil] at h hd ⊢
      simp only [parseChunks, List.map_cons, List.map_nil]
      rw [parse_consumes m m' c hc hwf hd h he]
    · have hne' : ∀ c' ∈ cs, c' ≠ [] := fun c' hc' => hne c' (by simp [hc'])
      have hrest : cs.flatten ≠ [] := by
        cases cs with
        | nil => exact absurd rfl hcs
        | cons c2 cs2 =>
          have : c2 ≠ [] := hne' c2 (by simp)
          simp [this]
      simp only [List.flatten_cons, List.length_append] at h hd ⊢
      obtain ⟨m1, e1, e2, e3, e4, e5, e6⟩ :=
        data_loop_split c m 0 cs.flatten m' hwf hrest (by rw [h]; simp)
      simp only [Nat.zero_add] at e1 e6
      have hp := parse_consumes m m1 c hc hwf
        (fun x xs hx => hd x (xs ++ cs.flatten) (by rw [hx]; rfl)) e1 e2.2.2.1
      have hst1 : m1._dataParser.state ≠ .ws_data_start := e4 (Or.inr hc)
      have hl := loop_pos cs.flatten m1 c.length
      rw [e6] at hl
      have hl0 : ws_data_parser_loop m1 0 cs.flatten = (((cs.flatten.length : Nat) : Int), m') := by
        have h1 := congrArg Prod.fst hl
        have h2 := congrArg Prod.snd hl
        simp only at h1 h2
        apply Prod.ext
        · simp only
          push_cast at h1 ⊢
          omega
        · exact h2.symm
      have hl1 := loop_setParsed cs.flatten m1 ((m._parsed_length + c.length) % 2 ^ 64) 0
      rw [hl0] at hl1
      have hih := ih (setParsed m1 ((m._parsed_length + c.length) % 2 ^ 64))
        (setParsed m' ((m._parsed_length + c.length) % 2 ^ 64)) e2 hcs hne'
        (fun _ _ _ => Or.inl hst1) hl1 he
      simp only [parseChunks, List.map_cons, hp, hih]
      simp only [setParsed, Prod.mk.injEq, true_and]
      congr 1
      omega
theorem length_phase (m : WsMessage) (c pos : Nat) (ext rest : List Nat)
    (hs : m._dataParser.state = .ws_data_fin_done)
    (hext : ∀ x ∈ ext, x < 256)
    (hel : ext.length = (if c % 128 < 126 then 0 else if c % 128 = 126 then 2 else 8))
    (hn0 : declaredLength c ext ≠ 0) :
    ∃ t, ws_data_parser_loop m pos (c :: (ext ++ rest)) =
        ws_data_parser_loop (afterLength m (c / 128 % 2) t (declaredLength c ext))
          (pos + 1 + ext.length) rest ∧
      declaredLength c ext < 2 ^ 64 := by
  by_cases h1 : c % 128 < 126
  · simp only [h1, ↓reduceIte, List.length_eq_zero] at hel
    subst hel
    simp only [declaredLength, h1, ↓reduceIte] at hn0 ⊢
    exact ⟨_, loop_length_literal m c (c % 128) pos rest hs rfl hn0 h1, by omega⟩
  · by_cases h2 : c % 128 = 126
    · simp only [h1, h2, ↓reduceIte] at hel
      obtain ⟨x0, x1, rfl⟩ := List.length_eq_two.1 hel
      have hx0 : x0 < 256 := hext x0 (by simp)
      have hx1 : x1 < 256 := hext x1 (by simp)
      have hd : declaredLength c [x0, x1] = 256 * x0 + x1 := by
        simp [declaredLength, h1]
      rw [hd] at hn0 ⊢
      exact ⟨1, loop_length_16 m c x0 x1 pos rest hs h2 hx0 hx1 hn0, by omega⟩
    · simp only [h1, h2, ↓reduceIte] at hel
      have h3 : c % 128 = 127 := by omega
      match ext, hel, hext, hn0 with
      | [x0, x1, x2, x3, x4, x5, x6, x7], _, hext, hn0 =>
        have hx0 : x0 < 256 := hext x0 (by simp)
        have hx1 : x1 < 256 := hext x1 (by simp)
        have hx2 : x2 < 256 := hext x2 (by simp)
        have hx3 : x3 < 256 := hext x3 (by simp)
        have hx4 : x4 < 256 := hext x4 (by simp)
        have hx5 : x5 < 256 := hext x5 (by simp)
        have hx6 : x6 < 256 := hext x6 (by simp)
        have hx7 : x7 < 256 := hext x7 (by simp)
        have hd : declaredLength c [x0, x1, x2, x3, x4, x5, x6, x7] =
            x0 * 256 ^ 7 + x1 * 256 ^ 6 + x2 * 256 ^ 5 + x3 * 256 ^ 4 + x4 * 256 ^ 3 +
              x5 * 256 ^ 2 + x6 * 256 + x7 := by
          simp only [declaredLength, h1, ↓reduceIte, List.foldl_cons, List.foldl_nil]
          ring
        rw [hd] at hn0 ⊢
        refine ⟨2, loop_length_64 m c x0 x1 x2 x3 x4 x5 x6 x7 pos rest hs h3
          hx0 hx1 hx2 hx3 hx4 hx5 hx6 hx7 hn0, ?_⟩
        norm_num
        omega

theorem frame_consumed (b c : Nat) (ext key payload : List Nat)
    (hF : IsFrame b c ext key payload) :
    ∃ m', ws_data_parser_loop WsMessage.new 0 (frameBytes b c ext key payload) =
        ((((frameBytes b c ext key payload).length : Nat) : Int), m') ∧
      m'._dataParser.ws_errno = .VALID := by
  obtain ⟨hb, hrsv, hop, hc, hext, hkey, hpay, hel, hkl, hpl, hp0⟩ := hF
  obtain ⟨t, hlen, hlt⟩ := length_phase (afterFirst WsMessage.new b) c 1 ext (key ++ payload)
    rfl hext hel (by rw [← hpl]; exact hp0)
  obtain ⟨x, xs, rfl⟩ : ∃ x xs, payload = x :: xs := by
    cases payload with
    | nil => exact absurd rfl hp0
    | cons x xs => exact ⟨x, xs, rfl⟩
  have hstart : ws_data_parser_loop WsMessage.new 0 (frameBytes b c ext key (x :: xs)) =
      ws_data_parser_loop
        (afterLength (afterFirst WsMessage.new b) (c / 128 % 2) t (declaredLength c ext))
        (1 + 1 + ext.length) (key ++ x :: xs) := by
    rw [frameBytes, loop_first_byte _ _ _ _ rfl hb ((on_opcode_iff _).2 hop),
      List.append_assoc, hlen]
  rw [hstart]
  set M1 := afterLength (afterFirst WsMessage.new b) (c / 128 % 2) t (declaredLength c ext)
    with hM1
  have hM1pl : M1._dataParser.payload_length = (x :: xs).length := by rw [hpl]; rfl
  have hM1r : M1._dataParser.readed_length = 0 := rfl
  have hlt' : (x :: xs).length < 2 ^ 64 := by rw [hpl]; exact hlt
  by_cases hmask : c / 128 = 1
  · simp only [hmask, ↓reduceIte] at hkl
    match key, hkl with
    | [k0, k1, k2, k3], _ =>
      rw [List.cons_append, List.cons_append, List.cons_append, List.cons_append,
        List.nil_append,
        loop_mask_key M1 k0 k1 k2 k3 _ _ rfl (by show c / 128 % 2 ≠ 0; omega),
        data_loop_payload _ _ _ _ rfl,
        on_body_fits _ _
          (by
            simp only [Completed, on_set_pkgtype, afterKey, hM1pl, hM1r]
            simp)
          (by
            show (x :: xs).length ≤ (M1._dataParser.payload_length + 2 ^ 64 -
              M1._dataParser.readed_length) % 2 ^ 64
            rw [hM1pl, hM1r]
            omega)]
      refine ⟨_, Prod.ext ?_ rfl, rfl⟩
      simp only [frameBytes, List.length_cons, List.length_append, List.length_nil,
        Nat.cast_inj]
      omega
  · simp only [hmask, ↓reduceIte, List.length_eq_zero] at hkl
    subst hkl
    rw [List.nil_append, loop_no_mask_key M1 x _ xs rfl (by show c / 128 % 2 = 0; omega)]
    cases xs with
    | nil =>
      refine ⟨_, Prod.ext ?_ rfl, rfl⟩
      simp only [ws_data_parser_loop, frameBytes, List.length_cons, List.length_append,
        List.length_nil, Nat.cast_inj]
      omega
    | cons y ys =>
      rw [data_loop_payload _ _ _ _ rfl,
        on_body_fits _ _
          (by
            simp only [Completed, on_set_pkgtype, afterKey, hM1pl, hM1r]
            simp)
          (by
            show (y :: ys).length ≤ (M1._dataParser.payload_length + 2 ^ 64 -
              M1._dataParser.readed_length) % 2 ^ 64
            rw [hM1pl, hM1r]
            simp only [List.length_cons] at hlt' ⊢
            omega)]
      refine ⟨_, Prod.ext ?_ rfl, rfl⟩
      simp only [frameBytes, List.length_cons, List.length_append, List.length_nil,
        Nat.cast_inj]
      omega
theorem frameWF_new : FrameWF WsMessage.new := by
  simp [FrameWF, WsMessage.new]

/-- C3 (frame split invariance): for the bytes `F` of exactly one frame
(valid first byte, any of the three length encodings with a non-zero length,
masked or not) and every way of cutting `F` into consecutive non-empty
chunks, feeding the chunks in order to a fresh message makes every
`ParseFromArray` call return its chunk's length and ends in the very message
(so the same `Fin`, `Opcode`, `PayloadLength`, `MaskKey`, body and
`Completed`) that one call on the whole of `F` produces. -/
theorem frame_split_invariance (b c : Nat) (ext key payload : List Nat)
    (chunks : List (List Nat)) (hF : IsFrame b c ext key payload)
    (hjoin : chunks.flatten = frameBytes b c ext key payload)
    (hne : ∀ ch ∈ chunks, ch ≠ []) :
    (parseChunks WsMessage.new chunks).1 = chunks.map (fun ch => (ch.length : Int)) ∧
      (parseChunks WsMessage.new chunks).2 =
        (ParseFromArray WsMessage.new (frameBytes b c ext key payload)).2 := by
  obtain ⟨m', hloop, herr⟩ := frame_consumed b c ext key payload hF
  have hwl := mem_whitelist b hF.1 hF.2.1 hF.2.2.1
  have hcs : chunks ≠ [] := by
    intro h
    rw [h] at hjoin
    simp [frameBytes] at hjoin
  have h1 := chunks_consume chunks WsMessage.new m' frameWF_new hcs hne
    (fun x xs hx => by
      rw [hjoin, frameBytes] at hx
      have : b = x := (List.cons.inj hx).1
      exact Or.inr (this ▸ hwl))
    (by rw [hjoin]; exact hloop) herr
  have h2 := chunks_consume [frameBytes b c ext key payload] WsMessage.new m' frameWF_new
    (by simp) (by simp [frameBytes])
    (fun x xs hx => by
      simp only [List.flatten_cons, List.flatten_nil, List.append_nil, frameBytes] at hx
      have : b = x := (List.cons.inj hx).1
      exact Or.inr (this ▸ hwl))
    (by simpa using hloop) herr
  have h3 : (parseChunks WsMessage.new [frameBytes b c ext key payload]).2 =
      (ParseFromArray WsMessage.new (frameBytes b c ext key payload)).2 := rfl
  rw [h2] at h3
  simp only [List.flatten_cons, List.flatten_nil, List.append_nil] at h3
  rw [h1, ← h3, hjoin]
  exact ⟨rfl, rfl⟩

theorem frame_split_invariance_witness :
    (parseChunks WsMessage.new [[0x81], [0x85, 1], [2, 3, 4, 0], [0, 0, 0, 0]]).1 =
        [[0x81], [0x85, 1], [2, 3, 4, 0], [0, 0, 0, 0]].map (fun ch => (ch.length : Int)) ∧
      (parseChunks WsMessage.new [[0x81], [0x85, 1], [2, 3, 4, 0], [0, 0, 0, 0]]).2 =
        (ParseFromArray WsMessage.new
          (frameBytes 0x81 0x85 [] [1, 2, 3, 4] [0, 0, 0, 0, 0])).2 :=
  frame_split_invariance 0x81 0x85 [] [1, 2, 3, 4] [0, 0, 0, 0, 0]
    [[0x81], [0x85, 1], [2, 3, 4, 0], [0, 0, 0, 0]]
    (by simp [IsFrame, declaredLength]) rfl (by decide)

/-! ## The handshake machine on a well-formed request -/

theorem hs_loop_next {m m1 : WsMessage} {ch : Nat} (rest : List Nat) (pos : Nat)
    (h : ws_handshake_switch m ch = .next m1) :
    ws_handahake_parser_loop m pos (ch :: rest) =
      ws_handahake_parser_loop m1 (pos + 1) rest := by
  simp only [ws_handahake_parser_loop, h]

theorem hs_loop_to (m1 : WsMessage) {m : WsMessage} {ch : Nat} (rest : List Nat) (pos : Nat)
    (h : ws_handshake_switch m ch = .next m1) :
    ws_handahake_parser_loop m pos (ch :: rest) =
      ws_handahake_parser_loop m1 (pos + 1) rest :=
  hs_loop_next rest pos h

theorem hs_loop_ret {m m1 : WsMessage} {ch k : Nat} (rest : List Nat) (pos : Nat)
    (h : ws_handshake_switch m ch = .ret k m1) :
    ws_handahake_parser_loop m pos (ch :: rest) = (((pos + k : Nat) : Int), m1) := by
  simp only [ws_handahake_parser_loop, h]

theorem hs_switch_ret_zero (m m1 : WsMessage) (ch k : Nat)
    (h : ws_handshake_switch m ch = .ret k m1) : k = 0 := by
  cases hst : m._hsParser.state <;>
    simp only [ws_handshake_switch, hst] at h <;>
    split_ifs at h <;> simp at h <;> exact h.1.symm

theorem hs_loop_append (a : List Nat) :
    ∀ (m m1 : WsMessage) (pos : Nat) (b : List Nat),
      ws_handahake_parser_loop m pos a = (((pos + a.length : Nat) : Int), m1) →
      ws_handahake_parser_loop m pos (a ++ b) =
        ws_handahake_parser_loop m1 (pos + a.length) b := by
  induction a with
  | nil =>
    intro m m1 pos b h
    simp only [ws_handahake_parser_loop, List.length_nil, Nat.add_zero, Prod.mk.injEq,
      true_and] at h
    subst h
    rfl
  | cons x a ih =>
    intro m m1 pos b h
    cases hsw : ws_handshake_switch m x with
    | next m2 =>
      rw [hs_loop_next _ _ hsw] at h
      rw [List.cons_append, hs_loop_next _ _ hsw]
      have e : pos + (x :: a).length = pos + 1 + a.length := by
        simp only [List.length_cons]; omega
      rw [e] at h ⊢
      exact ih m2 m1 (pos + 1) b h
    | ret k m2 =>
      rw [hs_loop_ret _ _ hsw] at h
      have hk := hs_switch_ret_zero m m2 x k hsw
      have := (cast_pair_inj h).1
      simp only [List.length_cons] at this
      omega

theorem key_loop (name : List Nat) :
    ∀ (m : WsMessage) (pos : Nat),
      m._hsParser.state = .ws_handshake_header_key → 58 ∉ name →
      m._cur_header_key.length + name.length ≤ 4096 →
      ws_handahake_parser_loop m pos name =
        (((pos + name.length : Nat) : Int),
          { m with _cur_header_key := m._cur_header_key ++ name }) := by
  induction name with
  | nil =>
    intro m pos _ _ _
    simp [ws_handahake_parser_loop]
  | cons x name ih =>
    intro m pos hs hc hl
    have hx : x ≠ 58 := fun h => hc (by simp [h])
    have hc' : 58 ∉ name := fun h => hc (by simp [h])
    simp only [List.length_cons] at hl
    have hlen : m._cur_header_key.length ≠ 4096 := by omega
    rw [hs_loop_to { m with _cur_header_key := m._cur_header_key ++ [x] } name pos
      (by simp [ws_handshake_switch, hs, hx, on_append_header_key, hlen])]
    have hl2 : (m._cur_header_key ++ [x]).length + name.length ≤ 4096 := by
      simp only [List.length_append, List.length_cons, List.length_nil]
      omega
    rw [ih { m with _cur_header_key := m._cur_header_key ++ [x] } (pos + 1) hs hc' hl2]
    simp only [List.length_cons, List.append_assoc, List.singleton_append, Prod.mk.injEq,
      Nat.cast_inj, and_true]
    omega

theorem value_loop (v : List Nat) :
    ∀ (m : WsMessage) (pos : Nat),
      m._hsParser.state = .ws_handshake_header_value → 13 ∉ v →
      ws_handahake_parser_loop m pos v =
        (((pos + v.length : Nat) : Int),
          { m with _cur_header_value := accumValue m._cur_header_value v }) := by
  induction v with
  | nil =>
    intro m pos _ _
    simp [ws_handahake_parser_loop, accumValue]
  | cons x v ih =>
    intro m pos hs hc
    have hx : x ≠ 13 := fun h => hc (by simp [h])
    have hc' : 13 ∉ v := fun h => hc (by simp [h])
    by_cases h32 : x = 32
    · rw [hs_loop_to m v pos (by simp [ws_handshake_switch, hs, h32])]
      rw [ih m (pos + 1) hs hc']
      simp only [accumValue, h32, ↓reduceIte, List.length_cons, Prod.mk.injEq, Nat.cast_inj,
        and_true]
      omega
    · rw [hs_loop_to
        { m with _cur_header_value :=
          if m._cur_header_value.length = 4096 then m._cur_header_value
          else m._cur_header_value ++ [x] } v pos
        (by
          simp only [ws_handshake_switch, hs, h32, ↓reduceIte, CR, hx, on_append_header_value]
          split <;> simp_all)]
      rw [ih { m with _cur_header_value :=
          if m._cur_header_value.length = 4096 then m._cur_header_value
          else m._cur_header_value ++ [x] } (pos + 1) hs hc']
      simp only [accumValue, h32, ↓reduceIte, List.length_cons, Prod.mk.injEq, Nat.cast_inj,
        and_true]
      omega

theorem accumValue_ne_nil (v : List Nat) :
    ∀ w, (w ≠ [] ∨ ∃ x ∈ v, x ≠ 32) → accumValue w v ≠ [] := by
  induction v with
  | nil =>
    intro w h
    rcases h with h | ⟨x, hx, _⟩
    · simpa [accumValue] using h
    · simp at hx
  | cons y v ih =>
    intro w h
    simp only [accumValue]
    split
    · rename_i hy
      apply ih
      rcases h with h | ⟨x, hx, hne⟩
      · exact Or.inl h
      · simp only [List.mem_cons] at hx
        rcases hx with rfl | hx
        · exact absurd hy hne
        · exact Or.inr ⟨x, hx, hne⟩
    · apply ih
      left
      split
      · intro h0
        simp [h0] at *
      · simp

theorem name_no_colon (h : Hdr) : 58 ∉ h.name := by
  cases h <;> decide

theorem name_length (h : Hdr) : h.name.length ≤ 4096 := by
  cases h <;> decide

theorem value_no_cr (hostv keyv : List Nat) (hh : IsValue hostv) (hk : IsValue keyv)
    (h : Hdr) : 13 ∉ h.value hostv keyv := by
  cases h
  · exact hh.1
  · show 13 ∉ _upgrade_header_value
    decide
  · show 13 ∉ _connection_header_value
    decide
  · exact hk.1
  · show 13 ∉ _ws_version_header_value
    decide

theorem header_end_ok (hostv keyv : List Nat) (hh : IsValue hostv) (hk : IsValue keyv)
    (c : Nat) (k : List Nat) (h : Hdr) :
    on_header_end (inValue c k h.name (accumValue [] (h.value hostv keyv))) =
      (true,
        { betweenLines (c ||| h.bit) (if h = .key then accumValue [] keyv else k) with
          _hsParser :=
            { state := .ws_handshake_header_value, index := 0, http_major := 1,
              http_minor := 1, ws_errno := .VALID } }) := by
  have hhv : (accumValue [] hostv).length > 0 :=
    List.length_pos.2 (accumValue_ne_nil hostv [] (Or.inr hh.2))
  have hkv : (accumValue [] keyv).length > 0 :=
    List.length_pos.2 (accumValue_ne_nil keyv [] (Or.inr hk.2))
  have e1 : accumValue [] _upgrade_header_value = _upgrade_header_value := by decide
  have e2 : accumValue [] _connection_header_value = _connection_header_value := by decide
  have e3 : accumValue [] _ws_version_header_value = _ws_version_header_value := by decide
  have n1 : _upgrade_header ≠ _host_header := by decide
  have n2 : _connection_header ≠ _host_header := by decide
  have n3 : _connection_header ≠ _upgrade_header := by decide
  have n4 : _ws_key_header ≠ _host_header := by decide
  have n5 : _ws_key_header ≠ _upgrade_header := by decide
  have n6 : _ws_key_header ≠ _connection_header := by decide
  have n7 : _ws_version_header ≠ _host_header := by decide
  have n8 : _ws_version_header ≠ _upgrade_header := by decide
  have n9 : _ws_version_header ≠ _connection_header := by decide
  have n10 : _ws_version_header ≠ _ws_key_header := by decide
  cases h <;>
    simp [on_header_end, inValue, betweenLines, WsMessage.new, Hdr.name, Hdr.value, Hdr.bit, HostCheck,
      UpgradeCheck, ConnectionCheck, WsKeyCheck, WsVersionCheck, hhv, hkv, e1, e2, e3,
      n1, n2, n3, n4, n5, n6, n7, n8, n9, n10]

theorem line_body_loop (hostv keyv : List Nat) (hh : IsValue hostv) (hk : IsValue keyv)
    (c : Nat) (k : List Nat) (h : Hdr) (pos : Nat) :
    ws_handahake_parser_loop (betweenLines c k) pos (headerLineBody hostv keyv h) =
      (((pos + (headerLineBody hostv keyv h).length : Nat) : Int),
        inValue c k h.name (accumValue [] (h.value hostv keyv))) := by
  have hk1 := key_loop h.name (betweenLines c k) pos rfl (name_no_colon h)
    (by simpa [betweenLines, WsMessage.new] using name_length h)
  have e : bytes ": " = [58, 32] := by decide
  rw [headerLineBody, List.append_assoc, hs_loop_append _ _ _ _ _ hk1, e,
    List.cons_append, List.cons_append, List.nil_append,
    hs_loop_to (inValue c k h.name []) _ _
      (by simp [ws_handshake_switch, betweenLines, WsMessage.new, setHsState, inValue]),
    hs_loop_to (inValue c k h.name []) _ _
      (by simp [ws_handshake_switch, inValue]),
    value_loop _ (inValue c k h.name []) _ rfl (value_no_cr hostv keyv hh hk h)]
  simp only [List.length_append, List.length_cons, List.length_nil, Prod.mk.injEq,
    Nat.cast_inj]
  exact ⟨by omega, rfl⟩

theorem line_loop (hostv keyv : List Nat) (hh : IsValue hostv) (hk : IsValue keyv)
    (c : Nat) (k : List Nat) (h : Hdr) (pos : Nat) :
    ws_handahake_parser_loop (betweenLines c k) pos (headerLine hostv keyv h) =
      (((pos + (headerLine hostv keyv h).length : Nat) : Int),
        betweenLines (c ||| h.bit) (if h = .key then accumValue [] keyv else k)) := by
  have e : bytes "\r\n" = [13, 10] := by decide
  rw [headerLine, hs_loop_append _ _ _ _ _ (line_body_loop hostv keyv hh hk c k h pos), e,
    hs_loop_to (afterCR (c ||| h.bit) (if h = .key then accumValue [] keyv else k)) _ _
      (by
        simp only [ws_handshake_switch]
        rw [show (inValue c k h.name (accumValue [] (h.value hostv keyv)))._hsParser.state =
          .ws_handshake_header_value from rfl]
        simp only [header_end_ok hostv keyv hh hk c k h]
        simp [CR, setHsState, afterCR, betweenLines]),
    hs_loop_to (betweenLines (c ||| h.bit) (if h = .key then accumValue [] keyv else k)) _ _
      (by simp [ws_handshake_switch, afterCR, LF, setHsState, betweenLines])]
  simp only [ws_handahake_parser_loop, List.length_append, List.length_cons, List.length_nil,
    Prod.mk.injEq, Nat.cast_inj, and_true]
  omega

theorem lines_loop (hostv keyv : List Nat) (hh : IsValue hostv) (hk : IsValue keyv)
    (hs : List Hdr) :
    ∀ (c : Nat) (k : List Nat) (pos : Nat),
      ws_handahake_parser_loop (betweenLines c k) pos
          ((hs.map (headerLine hostv keyv)).flatten) =
        (((pos + ((hs.map (headerLine hostv keyv)).flatten).length : Nat) : Int),
          betweenLines (bitsAfter c hs) (keyAfter keyv k hs)) := by
  induction hs with
  | nil =>
    intro c k pos
    simp [ws_handahake_parser_loop, bitsAfter, keyAfter]
  | cons h hs ih =>
    intro c k pos
    rw [List.map_cons, List.flatten_cons,
      hs_loop_append _ _ _ _ _ (line_loop hostv keyv hh hk c k h pos), ih]
    simp only [bitsAfter, keyAfter, List.foldl_cons, List.length_append, Prod.mk.injEq,
      Nat.cast_inj, and_true]
    omega

theorem request_line_loop :
    ws_handahake_parser_loop WsMessage.new 0 (bytes "GET / HTTP/1.1\r\n") =
      ((((0 + (bytes "GET / HTTP/1.1\r\n").length : Nat)) : Int), betweenLines 0 []) := by
  decide!

theorem checker_or_done (c x : Nat) (hc : c &&& 31 = 31) : (c ||| x) &&& 31 = 31 := by
  apply Nat.eq_of_testBit_eq
  intro i
  have h := congrArg (fun n => n.testBit i) hc
  simp only [Nat.testBit_and, Nat.testBit_or] at h ⊢
  cases h1 : c.testBit i <;> cases h2 : x.testBit i <;> cases h3 : Nat.testBit 31 i <;>
    simp_all

theorem header_end_done (m : WsMessage) (hd : HsDone m) : HsDone (on_header_end m).2 := by
  obtain ⟨hp, hc⟩ := hd
  have hor := fun x => checker_or_done m._header_checker x hc
  simp only [on_header_end, HsDone]
  split_ifs <;> first | exact ⟨hp, hc⟩ | exact ⟨hp, hor _⟩

theorem header_end_pkg (m : WsMessage) : (on_header_end m).2._pkg_type = m._pkg_type := by
  simp only [on_header_end]
  split_ifs <;> rfl

theorem hs_switch_done (m : WsMessage) (ch : Nat) (hd : HsDone m) :
    HsDone (ws_handshake_switch m ch).msg := by
  have hd' := hd
  obtain ⟨hp, hc⟩ := hd
  cases hst : m._hsParser.state
  case ws_handshake_header_value =>
    simp only [ws_handshake_switch, hst, on_append_header_value]
    split_ifs <;> first | exact ⟨hp, hc⟩ | exact header_end_done m hd'
  all_goals
    simp only [ws_handshake_switch, hst, on_append_header_key]
    split_ifs <;> first | exact ⟨hp, hc⟩ | exact ⟨rfl, hc⟩

theorem hs_loop_done (d : List Nat) : ∀ (m : WsMessage) (pos : Nat),
    HsDone m → HsDone (ws_handahake_parser_loop m pos d).2 := by
  induction d with
  | nil => intro m pos h; exact h
  | cons ch rest ih =>
    intro m pos h
    have := hs_switch_done m ch h
    simp only [ws_handahake_parser_loop]
    cases hsw : ws_handshake_switch m ch with
    | next m1 =>
      rw [hsw] at this
      exact ih m1 (pos + 1) this
    | ret k m1 =>
      rw [hsw] at this
      exact this

theorem hs_loop_prefix_done (a : List Nat) : ∀ (m : WsMessage) (pos : Nat) (b : List Nat),
    HsDone (ws_handahake_parser_loop m pos a).2 →
      HsDone (ws_handahake_parser_loop m pos (a ++ b)).2 := by
  induction a with
  | nil =>
    intro m pos b h
    exact hs_loop_done b m pos h
  | cons ch rest ih =>
    intro m pos b h
    simp only [ws_handahake_parser_loop, List.cons_append] at h ⊢
    cases hsw : ws_handshake_switch m ch with
    | next m1 =>
      rw [hsw] at h
      exact ih m1 (pos + 1) b h
    | ret k m1 =>
      rw [hsw] at h
      exact h

theorem hs_switch_not_data (m : WsMessage) (ch : Nat) (hd : m._pkg_type ≠ .DATA) :
    (ws_handshake_switch m ch).msg._pkg_type ≠ .DATA := by
  have he : (on_header_end m).2._pkg_type ≠ .DATA := by rw [header_end_pkg]; exact hd
  have hh : WsPkgType.HANDSHAKE ≠ WsPkgType.DATA := by decide
  cases hst : m._hsParser.state
  case ws_handshake_header_value =>
    simp only [ws_handshake_switch, hst, on_append_header_value]
    split_ifs <;> first | exact hd | exact he
  all_goals
    simp only [ws_handshake_switch, hst, on_append_header_key]
    split_ifs <;> first | exact hd | exact hh

theorem hs_loop_not_data (d : List Nat) : ∀ (m : WsMessage) (pos : Nat),
    m._pkg_type ≠ .DATA → (ws_handahake_parser_loop m pos d).2._pkg_type ≠ .DATA := by
  induction d with
  | nil => intro m pos h; exact h
  | cons ch rest ih =>
    intro m pos h
    have := hs_switch_not_data m ch h
    simp only [ws_handahake_parser_loop]
    cases hsw : ws_handshake_switch m ch with
    | next m1 =>
      rw [hsw] at this
      exact ih m1 (pos + 1) this
    | ret k m1 =>
      rw [hsw] at this
      exact this

theorem completed_of_done (m : WsMessage) (h : HsDone m) : Completed m = true := by
  simp [Completed, h.1, h.2]

theorem done_of_completed (m : WsMessage) (hd : m._pkg_type ≠ .DATA)
    (h : Completed m = true) : HsDone m := by
  simp only [Completed, Bool.or_eq_true, Bool.and_eq_true, decide_eq_true_eq] at h
  rcases h with ⟨⟨h1, _⟩, _⟩ | h
  · exact absurd h1 hd
  · exact h

theorem completed_parse_new (P : List Nat) (hP : P = [] ∨ ∃ rest, P = 71 :: rest) :
    Completed (ParseFromArray WsMessage.new P).2 =
      Completed (ws_handahake_parser_loop WsMessage.new 0 P).2 := by
  rcases hP with rfl | ⟨rest, rfl⟩
  · decide
  · have h1 : Completed WsMessage.new = false := by decide
    have h2 : ws_parser_execute WsMessage.new (71 :: rest) =
        ws_handahake_parser_loop WsMessage.new 0 (71 :: rest) := by
      simp [ws_parser_execute, WsMessage.new, ws_handahake_parser_execute]
    simp only [ParseFromArray, h1, Bool.false_eq_true, ↓reduceIte, h2]
    split <;> rfl

theorem parse_new_handshake (rest : List Nat) (m' : WsMessage)
    (h : ws_handahake_parser_loop WsMessage.new 0 (71 :: rest) =
      ((((71 :: rest).length : Nat) : Int), m'))
    (he : m'._hsParser.ws_errno = .VALID) (hd : m'._dataParser.ws_errno = .VALID) :
    ParseFromArray WsMessage.new (71 :: rest) =
      (((71 :: rest).length : Int),
        setParsed m' ((m'._parsed_length + (71 :: rest).length) % 2 ^ 64)) := by
  have h1 : Completed WsMessage.new = false := by decide
  have h2 : ws_parser_execute WsMessage.new (71 :: rest) =
      ws_handahake_parser_loop WsMessage.new 0 (71 :: rest) := by
    simp [ws_parser_execute, WsMessage.new, ws_handahake_parser_execute]
  simp only [ParseFromArray, h1, Bool.false_eq_true, ↓reduceIte, h2, h, he, hd, ne_eq,
    not_true_eq_false, or_self, setParsed]
  have : ((((71 :: rest).length : Nat) : Int) % 2 ^ 64).toNat = (71 :: rest).length % 2 ^ 64 := by
    omega
  rw [this]
  simp only [Nat.add_mod_mod]

theorem bitsAfter_perm {a b : List Hdr} (h : a.Perm b) (c : Nat) :
    bitsAfter c a = bitsAfter c b := by
  unfold bitsAfter
  apply List.Perm.foldl_eq' h
  intro x _ y _ z
  rw [Nat.or_assoc, Nat.or_comm x.bit, ← Nat.or_assoc]

theorem perm_bits (order : List Hdr)
    (hperm : order.Perm [.host, .upgrade, .connection, .key, .version]) :
    ∃ d l, order = d ++ [l] ∧ bitsAfter 0 order = 31 ∧ bitsAfter 0 d &&& 31 ≠ 31 := by
  have hne : order ≠ [] := by
    intro h
    rw [h] at hperm
    exact absurd hperm.length_eq (by decide)
  refine ⟨order.dropLast, order.getLast hne, (List.dropLast_append_getLast hne).symm, ?_, ?_⟩
  · rw [bitsAfter_perm hperm]
    decide
  · have h1 : (order.getLast hne :: order.dropLast).Perm
        [.host, .upgrade, .connection, .key, .version] := by
      refine List.Perm.trans ?_ hperm
      rw [← List.singleton_append]
      refine List.Perm.trans List.perm_append_comm ?_
      rw [List.dropLast_append_getLast hne]
    have h2 := h1.erase (order.getLast hne)
    rw [List.erase_cons_head] at h2
    rw [bitsAfter_perm h2]
    cases order.getLast hne <;> decide

theorem cr_step (hostv keyv : List Nat) (hh : IsValue hostv) (hk : IsValue keyv)
    (c : Nat) (k : List Nat) (h : Hdr) :
    ws_handshake_switch (inValue c k h.name (accumValue [] (h.value hostv keyv))) 13 =
      .next (afterCR (c ||| h.bit) (if h = .key then accumValue [] keyv else k)) := by
  simp only [ws_handshake_switch]
  rw [show (inValue c k h.name (accumValue [] (h.value hostv keyv)))._hsParser.state =
    .ws_handshake_header_value from rfl]
  simp only [header_end_ok hostv keyv hh hk c k h]
  simp [CR, setHsState, afterCR, betweenLines]

theorem tail_loop (c : Nat) (k : List Nat) (pos : Nat) :
    ws_handahake_parser_loop (afterCR c k) pos [10, 13, 10] =
      (((pos + 3 : Nat) : Int), { betweenLines c k with _cur_header_key := [13, 10] }) := by
  simp [ws_handahake_parser_loop, ws_handshake_switch, afterCR, betweenLines, LF, setHsState,
    on_append_header_key, WsMessage.new]
  omega

theorem loop_before_last_cr (hostv keyv : List Nat) (hh : IsValue hostv) (hk : IsValue keyv)
    (d : List Hdr) (l : Hdr) :
    ws_handahake_parser_loop WsMessage.new 0
        (bytes "GET / HTTP/1.1\r\n" ++ (d.map (headerLine hostv keyv)).flatten ++
          headerLineBody hostv keyv l) =
      ((((bytes "GET / HTTP/1.1\r\n" ++ (d.map (headerLine hostv keyv)).flatten ++
          headerLineBody hostv keyv l).length : Nat) : Int),
        inValue (bitsAfter 0 d) (keyAfter keyv [] d) l.name
          (accumValue [] (l.value hostv keyv))) := by
  rw [List.append_assoc, hs_loop_append _ _ _ _ _ request_line_loop,
    hs_loop_append _ _ _ _ _ (lines_loop hostv keyv hh hk d 0 [] _),
    line_body_loop hostv keyv hh hk]
  simp only [List.length_append, Nat.zero_add, Prod.mk.injEq, Nat.cast_inj, and_true]
  omega

theorem request_split (hostv keyv : List Nat) (d : List Hdr) (l : Hdr) :
    upgradeRequest hostv keyv (d ++ [l]) =
      (bytes "GET / HTTP/1.1\r\n" ++ (d.map (headerLine hostv keyv)).flatten ++
          headerLineBody hostv keyv l) ++ [13, 10, 13, 10] := by
  have e : bytes "\r\n" = [13, 10] := by decide
  simp only [upgradeRequest, headerLine, List.map_append, List.map_cons, List.map_nil,
    List.flatten_append, List.flatten_cons, List.flatten_nil, List.append_nil, e,
    List.append_assoc, List.cons_append, List.nil_append]

/-- C4 (handshake completion in any header order): for every order of the
five mandatory header lines, with free `Host` and key values, one
`ParseFromArray` call on a fresh message with the request returns the input
length and leaves the kind HANDSHAKE and `Completed` true.  The request ends
with `CR LF CR LF`, the first `CR` terminating the fifth header: parsing a
prefix that stops before it (at most `length - 4` bytes) leaves `Completed`
false, parsing a prefix that includes it leaves `Completed` true. -/
theorem handshake_completes_in_any_order (hostv keyv : List Nat) (order : List Hdr)
    (hperm : order.Perm [.host, .upgrade, .connection, .key, .version])
    (hh : IsValue hostv) (hk : IsValue keyv) :
    (ParseFromArray WsMessage.new (upgradeRequest hostv keyv order)).1 =
        (upgradeRequest hostv keyv order).length ∧
      (ParseFromArray WsMessage.new (upgradeRequest hostv keyv order)).2.PkgType =
        .HANDSHAKE ∧
      Completed (ParseFromArray WsMessage.new (upgradeRequest hostv keyv order)).2 = true ∧
      (∀ k, k + 4 ≤ (upgradeRequest hostv keyv order).length →
        Completed (ParseFromArray WsMessage.new
          ((upgradeRequest hostv keyv order).take k)).2 = false) ∧
      (∀ k, (upgradeRequest hostv keyv order).length ≤ k + 3 →
        Completed (ParseFromArray WsMessage.new
          ((upgradeRequest hostv keyv order).take k)).2 = true) := by
  obtain ⟨d, l, rfl, hall, hfour⟩ := perm_bits order hperm
  set A := bytes "GET / HTTP/1.1\r\n" ++ (d.map (headerLine hostv keyv)).flatten ++
    headerLineBody hostv keyv l with hA
  have hR : upgradeRequest hostv keyv (d ++ [l]) = A ++ [13, 10, 13, 10] :=
    request_split hostv keyv d l
  have hloopA := loop_before_last_cr hostv keyv hh hk d l
  rw [← hA] at hloopA
  have hbits : bitsAfter 0 d ||| l.bit = 31 := by
    rw [← hall]
    simp [bitsAfter, List.foldl_append]
  -- the loop up to and including the CR of the fifth header
  have hloopCR : ws_handahake_parser_loop WsMessage.new 0 (A ++ [13]) =
      ((((A ++ [13]).length : Nat) : Int),
        afterCR 31 (if l = .key then accumValue [] keyv else keyAfter keyv [] d)) := by
    rw [hs_loop_append _ _ _ _ _ (by simpa using hloopA),
      hs_loop_next _ _ (cr_step hostv keyv hh hk _ _ l), hbits]
    simp [ws_handahake_parser_loop]
  -- the loop on the whole request
  have hloopR : ws_handahake_parser_loop WsMessage.new 0 (A ++ [13, 10, 13, 10]) =
      ((((A ++ [13, 10, 13, 10]).length : Nat) : Int),
        { betweenLines 31 (if l = .key then accumValue [] keyv else keyAfter keyv [] d) with
          _cur_header_key := [13, 10] }) := by
    have e : A ++ [13, 10, 13, 10] = (A ++ [13]) ++ [10, 13, 10] := by simp
    rw [e, hs_loop_append _ _ _ _ _ (by simpa using hloopCR), tail_loop]
    simp only [List.length_append, List.length_cons, List.length_nil, Nat.zero_add]
  have hAhead : ∃ rest, A = 71 :: rest := by
    have : bytes "GET / HTTP/1.1\r\n" = 71 :: bytes "ET / HTTP/1.1\r\n" := by decide
    exact ⟨_, by rw [hA, this, List.cons_append, List.cons_append]⟩
  obtain ⟨rest, hrest⟩ := hAhead
  have htake : ∀ k, (A ++ [13, 10, 13, 10]).take k = [] ∨
      ∃ r, (A ++ [13, 10, 13, 10]).take k = 71 :: r := by
    intro k
    cases k with
    | zero => exact Or.inl rfl
    | succ k => exact Or.inr ⟨_, by rw [hrest, List.cons_append, List.take_succ_cons]⟩
  have hnd : ∀ P, (ws_handahake_parser_loop WsMessage.new 0 P).2._pkg_type ≠ .DATA :=
    fun P => hs_loop_not_data P WsMessage.new 0 (by decide)
  rw [hR]
  have hparse := parse_new_handshake (rest ++ [13, 10, 13, 10]) _
    (by rw [← List.cons_append, ← hrest]; exact hloopR) rfl rfl
  rw [← List.cons_append, ← hrest] at hparse
  refine ⟨?_, ?_, ?_, ?_, ?_⟩
  · rw [hparse]
  · rw [hparse]; rfl
  · rw [hparse]
    simp [Completed, setParsed, betweenLines]
  · intro k hk4
    have hle : k ≤ A.length := by
      simp only [List.length_append, List.length_cons, List.length_nil] at hk4
      omega
    rw [completed_parse_new _ (htake k), List.take_append_of_le_length hle]
    by_contra hc
    simp only [Bool.not_eq_false] at hc
    have hdone := done_of_completed _ (hnd _) hc
    have := hs_loop_prefix_done (A.take k) WsMessage.new 0 (A.drop k) hdone
    rw [List.take_append_drop, hloopA] at this
    exact hfour this.2
  · intro k hk3
    have hge : (A ++ [13]).length ≤ k := by
      simp only [List.length_append, List.length_cons, List.length_nil] at hk3 ⊢
      omega
    rw [completed_parse_new _ (htake k)]
    apply completed_of_done
    have e : A ++ [13, 10, 13, 10] = (A ++ [13]) ++ [10, 13, 10] := by simp
    rw [e, List.take_append_eq_append_take, List.take_of_length_le hge]
    apply hs_loop_prefix_done
    rw [hloopCR]
    exact ⟨rfl, (by decide : (31 : Nat) &&& 31 = 31)⟩

theorem handshake_completes_in_any_order_witness :
    (ParseFromArray WsMessage.new
        (upgradeRequest (bytes "example.com") (bytes "dGhlIHNhbXBsZSBub25jZQ==")
          [.version, .key, .host, .connection, .upgrade])).1 =
        (upgradeRequest (bytes "example.com") (bytes "dGhlIHNhbXBsZSBub25jZQ==")
          [.version, .key, .host, .connection, .upgrade]).length ∧
      (ParseFromArray WsMessage.new
        (upgradeRequest (bytes "example.com") (bytes "dGhlIHNhbXBsZSBub25jZQ==")
          [.version, .key, .host, .connection, .upgrade])).2.PkgType = .HANDSHAKE ∧
      Completed (ParseFromArray WsMessage.new
        (upgradeRequest (bytes "example.com") (bytes "dGhlIHNhbXBsZSBub25jZQ==")
          [.version, .key, .host, .connection, .upgrade])).2 = true :=
  have h := handshake_completes_in_any_order (bytes "example.com")
    (bytes "dGhlIHNhbXBsZSBub25jZQ==") [.version, .key, .host, .connection, .upgrade]
    (by decide) (by unfold IsValue; decide) (by unfold IsValue; decide)
  ⟨h.1, h.2.1, h.2.2.1⟩

/-! ## Completed messages and end of stream -/

/-- C11 (a completed message is immutable): on a message with `Completed`
true, `ParseFromArray` with length 0 returns 0, with any length above 0
returns -1, and in both cases the message, every field of it, is unchanged. -/
theorem completed_message_immutable (m : WsMessage) (h : Completed m = true) :
    ParseFromArray m [] = (0, m) ∧
      ∀ data : List Nat, data.length > 0 → ParseFromArray m data = (-1, m) := by
  constructor
  · simp [ParseFromArray, h]
  · intro data hd
    have : data.length ≠ 0 := by omega
    simp [ParseFromArray, h, this]

theorem completed_message_immutable_witness :
    ParseFromArray (ParseFromArray WsMessage.new [0x81, 0x85, 1, 2, 3, 4, 0, 0, 0, 0, 0]).2 [] =
        (0, (ParseFromArray WsMessage.new [0x81, 0x85, 1, 2, 3, 4, 0, 0, 0, 0, 0]).2) ∧
      ∀ data : List Nat, data.length > 0 →
        ParseFromArray
            (ParseFromArray WsMessage.new [0x81, 0x85, 1, 2, 3, 4, 0, 0, 0, 0, 0]).2 data =
          (-1, (ParseFromArray WsMessage.new [0x81, 0x85, 1, 2, 3, 4, 0, 0, 0, 0, 0]).2) :=
  completed_message_immutable _ (by decide)

theorem data_switch_same_handshake (m : WsMessage) (ch : Nat) (rest : List Nat) :
    SameHandshake m (ws_data_switch m ch rest).msg := by
  cases hst : m._dataParser.state
  case ws_data =>
    simp only [ws_data_switch, hst, on_body, on_set_pkgtype]
    split_ifs <;> exact ⟨rfl, rfl, rfl, rfl, rfl, rfl, rfl⟩
  all_goals
    simp only [ws_data_switch, hst, setDataState, setDataErrno, setPayloadLength,
      on_set_mask_key]
    (first | split_ifs | skip) <;> exact ⟨rfl, rfl, rfl, rfl, rfl, rfl, rfl⟩

theorem sameHandshake_trans {a b c : WsMessage} (h1 : SameHandshake a b)
    (h2 : SameHandshake b c) : SameHandshake a c := by
  obtain ⟨a1, a2, a3, a4, a5, a6, a7⟩ := h1
  obtain ⟨b1, b2, b3, b4, b5, b6, b7⟩ := h2
  exact ⟨b1.trans a1, b2.trans a2, b3.trans a3, b4.trans a4, b5.trans a5, b6.trans a6,
    b7.trans a7⟩

theorem data_loop_same_handshake (d : List Nat) : ∀ (m : WsMessage) (pos : Nat),
    SameHandshake m (ws_data_parser_loop m pos d).2 := by
  induction d with
  | nil => intro m pos; exact ⟨rfl, rfl, rfl, rfl, rfl, rfl, rfl⟩
  | cons ch rest ih =>
    intro m pos
    have h := data_switch_same_handshake m ch rest
    simp only [ws_data_parser_loop]
    cases hsw : ws_data_switch m ch rest with
    | next m1 =>
      rw [hsw] at h
      exact sameHandshake_trans h (ih m1 (pos + 1))
    | ret k m1 =>
      rw [hsw] at h
      exact h

theorem hs_switch_same_frame (m : WsMessage) (ch : Nat) :
    SameFrame m (ws_handshake_switch m ch).msg := by
  have he : SameFrame m (on_header_end m).2 := by
    simp only [on_header_end]
    split_ifs <;> exact ⟨rfl, rfl, rfl⟩
  cases hst : m._hsParser.state
  case ws_handshake_header_value =>
    simp only [ws_handshake_switch, hst, on_append_header_value]
    split_ifs <;> first | exact ⟨rfl, rfl, rfl⟩ | exact he
  all_goals
    simp only [ws_handshake_switch, hst, on_append_header_key]
    split_ifs <;> exact ⟨rfl, rfl, rfl⟩

theorem hs_loop_same_frame (d : List Nat) : ∀ (m : WsMessage) (pos : Nat),
    SameFrame m (ws_handahake_parser_loop m pos d).2 := by
  induction d with
  | nil => intro m pos; exact ⟨rfl, rfl, rfl⟩
  | cons ch rest ih =>
    intro m pos
    have h := hs_switch_same_frame m ch
    simp only [ws_handahake_parser_loop]
    cases hsw : ws_handshake_switch m ch with
    | next m1 =>
      rw [hsw] at h
      obtain ⟨a1, a2, a3⟩ := h
      obtain ⟨b1, b2, b3⟩ := ih m1 (pos + 1)
      exact ⟨b1.trans a1, b2.trans a2, b3.trans a3⟩
    | ret k m1 =>
      rw [hsw] at h
      exact h

/-- C19 (dispatch precedence): on a non-empty chunk, when the frame machine
has left its start state `ws_parser_execute` is `ws_data_parser_execute` on
the whole chunk, whatever its first byte (also `G`), and the handshake side
of the message is untouched; otherwise, when the first byte is `G`, it is
`ws_handahake_parser_execute` on the whole chunk and the frame side of the
message is untouched. -/
theorem dispatch_precedence (m : WsMessage) (b : Nat) (rest : List Nat) :
    (m._dataParser.state ≠ .ws_data_start →
        ws_parser_execute m (b :: rest) = ws_data_parser_execute m (b :: rest) ∧
          SameHandshake m (ws_parser_execute m (b :: rest)).2) ∧
      (m._dataParser.state = .ws_data_start → b = 71 →
        ws_parser_execute m (b :: rest) = ws_handahake_parser_execute m (b :: rest) ∧
          SameFrame m (ws_parser_execute m (b :: rest)).2) := by
  constructor
  · intro hs
    have e : ws_parser_execute m (b :: rest) = ws_data_parser_execute m (b :: rest) := by
      simp only [ws_parser_execute, hs, ne_eq, not_false_eq_true, ↓reduceIte]
    rw [e]
    exact ⟨rfl, data_loop_same_handshake (b :: rest) m 0⟩
  · intro hs hb
    have e : ws_parser_execute m (b :: rest) = ws_handahake_parser_execute m (b :: rest) := by
      simp only [ws_parser_execute, hs, ne_eq, not_true_eq_false, ↓reduceIte, hb]
    rw [e]
    exact ⟨rfl, hs_loop_same_frame (b :: rest) m 0⟩

theorem dispatch_precedence_witness :
    ws_parser_execute (afterFirst WsMessage.new 0x81) [71, 1] =
        ws_data_parser_execute (afterFirst WsMessage.new 0x81) [71, 1] ∧
      SameHandshake (afterFirst WsMessage.new 0x81)
        (ws_parser_execute (afterFirst WsMessage.new 0x81) [71, 1]).2 :=
  (dispatch_precedence (afterFirst WsMessage.new 0x81) 71 [1]).1 (by decide)

/-- C20, the claim as stated fails: the byte `01` (fin = 0, opcode 1) is not
`G` and not one of `80 81 82 88 89 8A`, yet on a fresh message
`ws_parser_execute` hands it to the frame machine: it returns 1, not -1, and
the frame state has moved to `ws_data_fin_done`. -/
theorem dispatch_accepts_fin_zero_byte :
    (1 : Nat) ∉ [0x80, 0x81, 0x82, 0x88, 0x89, 0x8A] ∧
      ws_parser_execute WsMessage.new [0x01] ≠ (-1, WsMessage.new) ∧
      (ws_parser_execute WsMessage.new [0x01]).1 = 1 ∧
      (ws_parser_execute WsMessage.new [0x01]).2._dataParser.state = .ws_data_fin_done :=
  ⟨by decide, by decide, by decide, by decide⟩

/-- C20 as amended: when no frame decode is in progress and the first byte
`b` of a non-empty chunk is not `G`, `ws_parser_execute` hands the chunk to
the frame machine exactly when `b` has zero reserved bits and a recognised
opcode, with fin 0 or 1 (the twelve bytes `00 01 02 08 09 0A 80 81 82 88 89
8A`); for every other `b` it returns -1 and leaves the message, so both
state machines, unchanged. -/
theorem dispatch_whitelist (m : WsMessage) (b : Nat) (rest : List Nat)
    (hs : m._dataParser.state = .ws_data_start) (hG : b ≠ 71) (hb : b < 256) :
    (b / 16 % 8 = 0 ∧ b % 16 ∈ [0, 1, 2, 8, 9, 10] →
        ws_parser_execute m (b :: rest) = ws_data_parser_execute m (b :: rest)) ∧
      (¬ (b / 16 % 8 = 0 ∧ b % 16 ∈ [0, 1, 2, 8, 9, 10]) →
        ws_parser_execute m (b :: rest) = (-1, m)) := by
  constructor
  · intro ⟨h1, h2⟩
    have hw := (mem_whitelist b hb h1 h2).2
    simp only [ws_parser_execute, hs, ne_eq, not_true_eq_false, ↓reduceIte, hG, hw]
  · intro hn
    have hw : b ∉ [0b00000000, 0b00000001, 0b00000010, 0b00001000, 0b00001001,
        0b00001010, 0b10000000, 0b10000001, 0b10000010, 0b10001000, 0b10001001,
        0b10001010] := by
      intro hmem
      apply hn
      simp only [List.mem_cons, List.mem_singleton, List.not_mem_nil, or_false] at hmem ⊢
      omega
    simp only [ws_parser_execute, hs, ne_eq, not_true_eq_false, ↓reduceIte, hG, hw]

theorem dispatch_whitelist_witness :
    ws_parser_execute WsMessage.new [0x45, 0x54] = (-1, WsMessage.new) :=
  (dispatch_whitelist WsMessage.new 0x45 [0x54] rfl (by decide) (by decide)).2 (by decide)

/-! ## Request line, version and line breaks -/

theorem skip_loop (s : List Nat) : ∀ (m : WsMessage) (pos : Nat) (rest : List Nat),
    m._hsParser.state = .ws_handshake_method_check →
    (∀ x ∈ s, x = 13 ∨ x = 10 ∨ x = 32) →
    ws_handahake_parser_loop m pos (s ++ rest) =
      ws_handahake_parser_loop m (pos + s.length) rest := by
  induction s with
  | nil => intro m pos rest _ _; rfl
  | cons x s ih =>
    intro m pos rest hst hx
    have h1 : x = 13 ∨ x = 10 ∨ x = 32 := hx x (by simp)
    rw [List.cons_append, hs_loop_to m _ pos
      (by simp only [ws_handshake_switch, hst, CR, LF, h1, ↓reduceIte]),
      ih m (pos + 1) rest hst (fun y hy => hx y (by simp [hy]))]
    congr 1
    simp only [List.length_cons]
    omega

theorem method_field_eq : g_ws_method_field = [71, 69, 84, 32, 47, 32, 72, 84, 84, 80, 47] := by
  decide

theorem literal_loop (m : WsMessage) (pos : Nat) (rest : List Nat)
    (hst : m._hsParser.state = .ws_handshake_method_check) (hidx : m._hsParser.index = 0) :
    ws_handahake_parser_loop m pos (g_ws_method_field ++ rest) =
      ws_handahake_parser_loop
        { m with _hsParser :=
            { m._hsParser with state := .ws_handshake_http_major_version, index := 0 } }
        (pos + 11) rest := by
  rw [method_field_eq]
  simp [ws_handahake_parser_loop, ws_handshake_switch, hst, hidx, method_field_eq, CR, LF,
    setHsState]

theorem literal_mismatch (m : WsMessage) (pos i x : Nat) (rest : List Nat)
    (hst : m._hsParser.state = .ws_handshake_method_check) (hidx : m._hsParser.index = 0)
    (hi : i < 11) (hx : x ≠ g_ws_method_field.getD i 0)
    (h0 : i = 0 → x ≠ 13 ∧ x ≠ 10 ∧ x ≠ 32) :
    ∃ m', ws_handahake_parser_loop m pos (g_ws_method_field.take i ++ x :: rest) =
        (((pos + i : Nat) : Int), m') ∧
      m'._hsParser.ws_errno = .INVALID_METHOD_FORMAT := by
  rw [method_field_eq] at hx ⊢
  interval_cases i
  · obtain ⟨a, b, c⟩ := h0 rfl
    simp at hx
    refine ⟨setHsErrno m .INVALID_METHOD_FORMAT, ?_, rfl⟩
    simp [ws_handahake_parser_loop, ws_handshake_switch, hst, hidx, method_field_eq, CR, LF,
      a, b, c, hx]
  · simp at hx
    simp [ws_handahake_parser_loop, ws_handshake_switch, hst, hidx, method_field_eq, CR, LF,
      setHsState, setHsErrno, Ne.symm hx]
  all_goals
    simp at hx
    simp [ws_handahake_parser_loop, ws_handshake_switch, hst, hidx, method_field_eq, CR, LF,
      setHsState, setHsErrno, Ne.symm hx]
    exact ⟨_, ⟨by omega, rfl⟩, rfl⟩

theorem hs_loop_stop (m1 : WsMessage) {m : WsMessage} {ch : Nat} (rest : List Nat)
    (pos : Nat) (h : ws_handshake_switch m ch = .ret 0 m1) :
    ws_handahake_parser_loop m pos (ch :: rest) = (((pos : Nat) : Int), m1) := by
  rw [hs_loop_ret rest pos h]
  rfl

/-- C16 (request-line literal): from a fresh handshake state the machine
skips any run of leading CR, LF and space bytes and then compares with
`GET / HTTP/`: when all 11 bytes match, the state becomes
`ws_handshake_http_major_version` with the error code as it was; at the first
byte that differs (for the first letter, a byte that is not skipped either)
the error is `INVALID_METHOD_FORMAT` and the call returns the index of that
byte. -/
theorem request_line_literal (m : WsMessage) (s rest : List Nat) (pos : Nat)
    (hst : m._hsParser.state = .ws_handshake_method_check) (hidx : m._hsParser.index = 0)
    (hskip : ∀ x ∈ s, x = 13 ∨ x = 10 ∨ x = 32) :
    ws_handahake_parser_loop m pos (s ++ (g_ws_method_field ++ rest)) =
        ws_handahake_parser_loop
          { m with _hsParser :=
              { m._hsParser with state := .ws_handshake_http_major_version, index := 0 } }
          (pos + s.length + 11) rest ∧
      ∀ i x, i < 11 → x ≠ g_ws_method_field.getD i 0 →
        (i = 0 → x ≠ 13 ∧ x ≠ 10 ∧ x ≠ 32) →
        ∃ m', ws_handahake_parser_loop m pos (s ++ (g_ws_method_field.take i ++ x :: rest)) =
            (((pos + s.length + i : Nat) : Int), m') ∧
          m'._hsParser.ws_errno = .INVALID_METHOD_FORMAT := by
  constructor
  · rw [skip_loop s m pos _ hst hskip, literal_loop m _ rest hst hidx]
  · intro i x hi hx h0
    rw [skip_loop s m pos _ hst hskip]
    exact literal_mismatch m _ i x rest hst hidx hi hx h0

theorem request_line_literal_witness :
    ws_handahake_parser_loop WsMessage.new 0 ([13, 10, 32] ++ (g_ws_method_field ++ [49])) =
        ws_handahake_parser_loop
          { WsMessage.new with _hsParser :=
              { WsMessage.new._hsParser with
                state := .ws_handshake_http_major_version, index := 0 } }
          (0 + [13, 10, 32].length + 11) [49] :=
  (request_line_literal WsMessage.new [13, 10, 32] [49] 0 rfl rfl (by decide)).1

/-- C17 (HTTP version check): in the HTTP-major state every byte other than
`1` sets `INVALID_HTTP_VERSION` and the call returns at that byte; after `1`
and `.`, every byte in the minor position is accepted: the error code stays
as it was, the kind becomes HANDSHAKE and the state
`ws_handshake_segment_finish1`. -/
theorem http_version_check (m : WsMessage) (pos : Nat) (rest : List Nat)
    (hst : m._hsParser.state = .ws_handshake_http_major_version) :
    (∀ ch, ch < 256 → ch ≠ 49 →
        ∃ m', ws_handahake_parser_loop m pos (ch :: rest) = (((pos : Nat) : Int), m') ∧
          m'._hsParser.ws_errno = .INVALID_HTTP_VERSION) ∧
      ∀ x, ws_handahake_parser_loop m pos (49 :: 46 :: x :: rest) =
        ws_handahake_parser_loop
          { m with
            _pkg_type := .HANDSHAKE
            _hsParser :=
              { m._hsParser with
                state := .ws_handshake_segment_finish1, http_major := 1,
                http_minor := (x + 256 - 48) % 256 } }
          (pos + 3) rest := by
  constructor
  · intro ch hch hne
    have h1 : (ch + 256 - 48) % 256 ≠ 1 := by omega
    refine ⟨setHsErrno { m with _hsParser :=
        { m._hsParser with http_major := (ch + 256 - 48) % 256 } } .INVALID_HTTP_VERSION,
      hs_loop_stop _ rest pos ?_, rfl⟩
    simp only [ws_handshake_switch, hst, ne_eq, h1, not_false_eq_true, ↓reduceIte]
  · intro x
    simp [ws_handahake_parser_loop, ws_handshake_switch, hst, setHsState, on_set_pkgtype]

theorem http_version_check_witness :
    ∃ m', ws_handahake_parser_loop
          (setHsState WsMessage.new .ws_handshake_http_major_version) 11 [50, 46, 48] =
        (((11 : Nat) : Int), m') ∧
      m'._hsParser.ws_errno = .INVALID_HTTP_VERSION :=
  (http_version_check (setHsState WsMessage.new .ws_handshake_http_major_version) 11
    [46, 48] rfl).1 50 (by decide) (by decide)

/-- C18 (line-break check): in the state after the minor version the byte
must be CR, in the state after that CR, which is also the state after the CR
that ends a header value, the byte must be LF; any other byte in these
positions sets `INVALID_LINEBREAK` and the call returns the index of that
byte. -/
theorem line_break_check (m : WsMessage) (pos ch : Nat) (rest : List Nat) :
    (m._hsParser.state = .ws_handshake_segment_finish1 →
        ws_handshake_switch m 13 = .next (setHsState m .ws_handshake_segment_finish2) ∧
          (ch ≠ 13 → ws_handahake_parser_loop m pos (ch :: rest) =
            (((pos : Nat) : Int), setHsErrno m .INVALID_LINEBREAK))) ∧
      (m._hsParser.state = .ws_handshake_segment_finish2 →
        ws_handshake_switch m 10 = .next (setHsState m .ws_handshake_header_key) ∧
          (ch ≠ 10 → ws_handahake_parser_loop m pos (ch :: rest) =
            (((pos : Nat) : Int), setHsErrno m .INVALID_LINEBREAK))) ∧
      (m._hsParser.state = .ws_handshake_header_value → (on_header_end m).1 = true →
        ws_handshake_switch m 13 =
          .next (setHsState (on_header_end m).2 .ws_handshake_segment_finish2)) := by
  refine ⟨?_, ?_, ?_⟩
  · intro hst
    refine ⟨by simp [ws_handshake_switch, hst, CR], fun hne => ?_⟩
    exact hs_loop_stop _ rest pos (by simp [ws_handshake_switch, hst, CR, hne])
  · intro hst
    refine ⟨by simp [ws_handshake_switch, hst, LF], fun hne => ?_⟩
    exact hs_loop_stop _ rest pos (by simp [ws_handshake_switch, hst, LF, hne])
  · intro hst hok
    simp [ws_handshake_switch, hst, CR, hok]

theorem line_break_check_witness :
    ws_handshake_switch (setHsState WsMessage.new .ws_handshake_segment_finish1) 13 =
        .next (setHsState (setHsState WsMessage.new .ws_handshake_segment_finish1)
          .ws_handshake_segment_finish2) ∧
      ((65 : Nat) ≠ 13 →
        ws_handahake_parser_loop (setHsState WsMessage.new .ws_handshake_segment_finish1) 14
            (65 :: []) =
          (((14 : Nat) : Int),
            setHsErrno (setHsState WsMessage.new .ws_handshake_segment_finish1)
              .INVALID_LINEBREAK)) :=
  (line_break_check (setHsState WsMessage.new .ws_handshake_segment_finish1) 14 65 []).1 rfl

/-! ## Header validation -/

theorem header_end_fails_iff (m : WsMessage) :
    (on_header_end m).1 = false ↔ HeaderInvalid m._cur_header_key m._cur_header_value := by
  have n1 : _upgrade_header ≠ _host_header := by decide
  have n2 : _connection_header ≠ _host_header := by decide
  have n3 : _connection_header ≠ _upgrade_header := by decide
  have n4 : _ws_key_header ≠ _host_header := by decide
  have n5 : _ws_key_header ≠ _upgrade_header := by decide
  have n6 : _ws_key_header ≠ _connection_header := by decide
  have n7 : _ws_version_header ≠ _host_header := by decide
  have n8 : _ws_version_header ≠ _upgrade_header := by decide
  have n9 : _ws_version_header ≠ _connection_header := by decide
  have n10 : _ws_version_header ≠ _ws_key_header := by decide
  have hlen : ∀ V : List Nat, V.length > 0 ↔ V ≠ [] := fun V => List.length_pos
  simp only [on_header_end, HeaderInvalid, HostCheck, UpgradeCheck, ConnectionCheck,
    WsKeyCheck, WsVersionCheck, decide_eq_true_eq, hlen]
  by_cases h1 : m._cur_header_key = _host_header
  · by_cases hv : m._cur_header_value = [] <;> simp [h1, hv, n1.symm, n2.symm, n4.symm, n7.symm]
  by_cases h2 : m._cur_header_key = _upgrade_header
  · by_cases hv : m._cur_header_value = _upgrade_header_value <;>
      simp [h2, hv, n1, n3.symm, n5.symm, n8.symm]
  by_cases h3 : m._cur_header_key = _connection_header
  · by_cases hv : m._cur_header_value = _connection_header_value <;>
      simp [h3, hv, n2, n3, n6.symm, n9.symm]
  by_cases h4 : m._cur_header_key = _ws_key_header
  · by_cases hv : m._cur_header_value = [] <;> simp [h4, hv, n4, n5, n6, n10.symm]
  by_cases h5 : m._cur_header_key = _ws_version_header
  · by_cases hv : m._cur_header_value = _ws_version_header_value <;>
      simp [h5, hv, n7, n8, n9, n10]
  simp only [h1, h2, h3, h4, h5, false_and, or_self, iff_false]
  split_ifs <;> simp_all

theorem header_end_sets_bit (m : WsMessage) (h : Hdr) (hn : m._cur_header_key = h.name)
    (hok : (on_header_end m).1 = true) :
    (on_header_end m).2._header_checker = m._header_checker ||| h.bit ∧
      (h = .key → (on_header_end m).2._ws_key = m._cur_header_value) ∧
      (h ≠ .key → (on_header_end m).2._ws_key = m._ws_key) := by
  have n1 : _upgrade_header ≠ _host_header := by decide
  have n2 : _connection_header ≠ _host_header := by decide
  have n3 : _connection_header ≠ _upgrade_header := by decide
  have n4 : _ws_key_header ≠ _host_header := by decide
  have n5 : _ws_key_header ≠ _upgrade_header := by decide
  have n6 : _ws_key_header ≠ _connection_header := by decide
  have n7 : _ws_version_header ≠ _host_header := by decide
  have n8 : _ws_version_header ≠ _upgrade_header := by decide
  have n9 : _ws_version_header ≠ _connection_header := by decide
  have n10 : _ws_version_header ≠ _ws_key_header := by decide
  cases h <;>
    simp only [Hdr.name] at hn <;>
    simp only [on_header_end, hn, n1, n2, n3, n4, n5, n6, n7, n8, n9, n10, ↓reduceIte,
      Hdr.bit] at hok ⊢ <;>
    split_ifs at hok ⊢ <;> simp_all

/-- C13 (mandatory header validation): at the CR that ends a header line
with accumulated name `N` and value `V`, `on_header_end` fails exactly when
`N`, `V` are invalid in the sense of `HeaderInvalid`; then the handshake
error is `INVALID_HTTP_HEADER` and the call returns the index of that CR.
When it succeeds for one of the five names, that name's bit is or-ed into
the checker and, for `Sec-WebSocket-Key`, the stored key becomes `V`. -/
theorem mandatory_header_validation (m : WsMessage) (pos : Nat) (rest : List Nat)
    (hst : m._hsParser.state = .ws_handshake_header_value) :
    ((on_header_end m).1 = false ↔
        HeaderInvalid m._cur_header_key m._cur_header_value) ∧
      (HeaderInvalid m._cur_header_key m._cur_header_value →
        ws_handahake_parser_loop m pos (13 :: rest) =
            (((pos : Nat) : Int), setHsErrno (on_header_end m).2 .INVALID_HTTP_HEADER) ∧
          (setHsErrno (on_header_end m).2 .INVALID_HTTP_HEADER)._hsParser.ws_errno =
            .INVALID_HTTP_HEADER) ∧
      (¬ HeaderInvalid m._cur_header_key m._cur_header_value →
        ws_handshake_switch m 13 =
            .next (setHsState (on_header_end m).2 .ws_handshake_segment_finish2) ∧
          ∀ h : Hdr, m._cur_header_key = h.name →
            (on_header_end m).2._header_checker = m._header_checker ||| h.bit ∧
              (h = .key → (on_header_end m).2._ws_key = m._cur_header_value)) := by
  have hiff := header_end_fails_iff m
  refine ⟨hiff, ?_, ?_⟩
  · intro hbad
    have hf : (on_header_end m).1 = false := hiff.2 hbad
    refine ⟨hs_loop_stop _ rest pos ?_, rfl⟩
    simp [ws_handshake_switch, hst, CR, hf]
  · intro hgood
    have ht : (on_header_end m).1 = true := by
      cases hc : (on_header_end m).1
      · exact absurd (hiff.1 hc) hgood
      · rfl
    refine ⟨by simp [ws_handshake_switch, hst, CR, ht], fun h hn => ?_⟩
    obtain ⟨a, b, _⟩ := header_end_sets_bit m h hn ht
    exact ⟨a, b⟩

theorem mandatory_header_validation_witness :
    ws_handahake_parser_loop
          (inValue 0 [] _connection_header (bytes "keep-alive,Upgrade")) 40 (13 :: [10]) =
        (((40 : Nat) : Int),
          setHsErrno
            (on_header_end (inValue 0 [] _connection_header (bytes "keep-alive,Upgrade"))).2
            .INVALID_HTTP_HEADER) ∧
      (setHsErrno
          (on_header_end (inValue 0 [] _connection_header (bytes "keep-alive,Upgrade"))).2
          .INVALID_HTTP_HEADER)._hsParser.ws_errno = .INVALID_HTTP_HEADER :=
  (mandatory_header_validation
    (inValue 0 [] _connection_header (bytes "keep-alive,Upgrade")) 40 [10] rfl).2.1
    (Or.inr (Or.inr (Or.inl ⟨rfl, by decide⟩)))

/-! ## Values of headers -/

theorem accumValue_eq (v : List Nat) : ∀ w : List Nat, w.length ≤ 4096 →
    accumValue w v = (w ++ v.filter (fun x => x != 32)).take 4096 := by
  induction v with
  | nil =>
    intro w hw
    simp [accumValue, List.take_of_length_le hw]
  | cons x v ih =>
    intro w hw
    by_cases hx : x = 32
    · simp only [accumValue, hx, ↓reduceIte]
      rw [ih w hw]
      simp
    · have hf : (x :: v).filter (fun x => x != 32) = x :: v.filter (fun x => x != 32) := by
        simp [hx]
      simp only [accumValue, hx, ↓reduceIte, hf]
      by_cases hl : w.length = 4096
      · simp only [hl, ↓reduceIte]
        rw [ih w hw, List.take_append_of_le_length (by omega),
          List.take_append_of_le_length (by omega)]
      · simp only [hl, ↓reduceIte]
        have hw1 : (w ++ [x]).length ≤ 4096 := by
          simp only [List.length_append, List.length_cons, List.length_nil]
          omega
        rw [ih (w ++ [x]) hw1, List.append_assoc, List.singleton_append]

theorem keyAfter_eq (keyv : List Nat) (hs : List Hdr) : ∀ k : List Nat,
    keyAfter keyv k hs = if Hdr.key ∈ hs then accumValue [] keyv else k := by
  induction hs with
  | nil => intro k; simp [keyAfter]
  | cons h hs ih =>
    intro k
    have e : keyAfter keyv k (h :: hs) =
        keyAfter keyv (if h = .key then accumValue [] keyv else k) hs := rfl
    rw [e, ih]
    by_cases hk : h = .key
    · simp [hk]
    · have : ¬ (Hdr.key = h) := fun e => hk e.symm
      simp [hk, this]

theorem parse_upgrade_request (hostv keyv : List Nat) (order : List Hdr)
    (hperm : order.Perm [.host, .upgrade, .connection, .key, .version])
    (hh : IsValue hostv) (hk : IsValue keyv) :
    ParseFromArray WsMessage.new (upgradeRequest hostv keyv order) =
      (((upgradeRequest hostv keyv order).length : Int),
        setParsed { betweenLines 31 (accumValue [] keyv) with _cur_header_key := [13, 10] }
          ((upgradeRequest hostv keyv order).length % 2 ^ 64)) := by
  have hkey : Hdr.key ∈ order := hperm.mem_iff.2 (by simp)
  obtain ⟨d, l, rfl, hall, _⟩ := perm_bits order hperm
  have hbits : bitsAfter 0 d ||| l.bit = 31 := by
    rw [← hall]
    simp [bitsAfter, List.foldl_append]
  have hk5 : (if l = .key then accumValue [] keyv else keyAfter keyv [] d) =
      accumValue [] keyv := by
    by_cases hl : l = .key
    · simp [hl]
    · have : Hdr.key ∈ d := by
        rcases List.mem_append.1 hkey with h | h
        · exact h
        · simp at h
          exact absurd h.symm hl
      simp [hl, keyAfter_eq, this]
  have hloop : ws_handahake_parser_loop WsMessage.new 0 (upgradeRequest hostv keyv (d ++ [l])) =
      ((((upgradeRequest hostv keyv (d ++ [l])).length : Nat) : Int),
        { betweenLines 31 (accumValue [] keyv) with _cur_header_key := [13, 10] }) := by
    rw [request_split, show ([13, 10, 13, 10] : List Nat) = [13] ++ [10, 13, 10] from rfl,
      hs_loop_append _ _ _ _ _ (by simpa using loop_before_last_cr hostv keyv hh hk d l),
      List.singleton_append,
      hs_loop_next _ _ (cr_step hostv keyv hh hk _ _ l), hbits, hk5, tail_loop]
    simp only [List.length_append, List.length_cons, List.length_nil, Nat.zero_add,
      Prod.mk.injEq, Nat.cast_inj, and_true]
  have hhead : ∃ rest, upgradeRequest hostv keyv (d ++ [l]) = 71 :: rest := by
    have : bytes "GET / HTTP/1.1\r\n" = 71 :: bytes "ET / HTTP/1.1\r\n" := by decide
    exact ⟨_, by rw [upgradeRequest, this, List.cons_append, List.cons_append]⟩
  obtain ⟨rest, hrest⟩ := hhead
  rw [hrest] at hloop ⊢
  rw [parse_new_handshake rest _ hloop rfl rfl]
  simp [setParsed, betweenLines, WsMessage.new]

/-- C14 (header buffer overflow), evaluated on a well-formed request whose
key value is 4097 bytes `a`: the call does not fail, it returns the input
length with both error codes VALID and the message completed; the byte that
exceeds the 4096-byte buffer is dropped and the stored key is the first 4096
bytes. -/
theorem oversized_header_value_is_truncated :
    (ParseFromArray WsMessage.new
        (upgradeRequest (bytes "example.com") (List.replicate 4097 97)
          [.host, .upgrade, .connection, .key, .version])).1 =
        (upgradeRequest (bytes "example.com") (List.replicate 4097 97)
          [.host, .upgrade, .connection, .key, .version]).length ∧
      (ParseFromArray WsMessage.new
        (upgradeRequest (bytes "example.com") (List.replicate 4097 97)
          [.host, .upgrade, .connection, .key, .version])).1 ≠ -1 ∧
      (ParseFromArray WsMessage.new
        (upgradeRequest (bytes "example.com") (List.replicate 4097 97)
          [.host, .upgrade, .connection, .key, .version])).2._hsParser.ws_errno = .VALID ∧
      (ParseFromArray WsMessage.new
        (upgradeRequest (bytes "example.com") (List.replicate 4097 97)
          [.host, .upgrade, .connection, .key, .version])).2._dataParser.ws_errno = .VALID ∧
      Completed (ParseFromArray WsMessage.new
        (upgradeRequest (bytes "example.com") (List.replicate 4097 97)
          [.host, .upgrade, .connection, .key, .version])).2 = true ∧
      (ParseFromArray WsMessage.new
        (upgradeRequest (bytes "example.com") (List.replicate 4097 97)
          [.host, .upgrade, .connection, .key, .version])).2._ws_key =
        List.replicate 4096 97 := by
  have hk : IsValue (List.replicate 4097 97) :=
    ⟨fun h => absurd (List.mem_replicate.1 h).2 (by decide), 97,
      List.mem_replicate.2 ⟨by decide, rfl⟩, by decide⟩
  have hh : IsValue (bytes "example.com") := by unfold IsValue; decide
  have hacc : accumValue [] (List.replicate 4097 97) = List.replicate 4096 97 := by
    rw [accumValue_eq _ [] (by simp)]
    decide!
  rw [parse_upgrade_request _ _ _ (List.Perm.refl _) hh hk, hacc]
  refine ⟨rfl, by omega, rfl, rfl, by decide, rfl⟩

/-- C15 (header values retained verbatim), evaluated on a well-formed request
with the lines `Sec-WebSocket-Key: dGhl IHNh`,
`Sec-WebSocket-Protocol: chat, superchat` and
`Sec-WebSocket-Extensions: permessage-deflate; client_max_window_bits`: the
request is consumed whole and completes the message, but the value state
skips every space, not only the leading ones, so the stored strings are
`dGhlIHNh`, `chat,superchat` and
`permessage-deflate;client_max_window_bits`. -/
theorem interior_spaces_are_dropped :
    (ParseFromArray WsMessage.new spacedValuesRequest).1 = spacedValuesRequest.length ∧
      Completed (ParseFromArray WsMessage.new spacedValuesRequest).2 = true ∧
      (ParseFromArray WsMessage.new spacedValuesRequest).2._ws_protocol =
        bytes "chat,superchat" ∧
      (ParseFromArray WsMessage.new spacedValuesRequest).2._ws_protocol ≠
        bytes "chat, superchat" ∧
      (ParseFromArray WsMessage.new spacedValuesRequest).2._ws_extend =
        bytes "permessage-deflate;client_max_window_bits" ∧
      (ParseFromArray WsMessage.new spacedValuesRequest).2._ws_key = bytes "dGhlIHNh" ∧
      (ParseFromArray WsMessage.new spacedValuesRequest).2._ws_key ≠ bytes "dGhl IHNh" :=
  ⟨by decide!, by decide!, by decide!, by decide!, by decide!, by decide!, by decide!⟩

/-! ## The outgoing frame -/

theorem pack_first_byte (fin opcode : Nat) (hfin : fin ≤ 1) (hop : opcode ≤ 15) :
    ((0 ||| (fin <<< 7)) % 256 ||| opcode) % 256 = (fin <<< 7) ||| opcode ∧
      (fin <<< 7) ||| opcode = fin * 128 + opcode := by
  interval_cases fin <;> interval_cases opcode <;> decide

theorem PackWsMsgToIOBuf_eq (buf : List Nat) (fin opcode mask n : Nat)
    (mask_key payload : List Nat)
    (hfin : fin ≤ 1) (hop : opcode ≤ 15) (hn : n < 2 ^ 64) (hp : payload.length = n) :
    PackWsMsgToIOBuf (some buf) fin opcode mask n mask_key payload =
      (true, some (buf ++ [(fin <<< 7) ||| opcode] ++ lengthField n ++ payload)) := by
  have hb := (pack_first_byte fin opcode hfin hop).1
  have hr2 : List.range 2 = [0, 1] := by decide
  have hr8 : List.range 8 = [0, 1, 2, 3, 4, 5, 6, 7] := by decide
  have ht : payload.take n = payload := by rw [← hp, List.take_length]
  simp only [PackWsMsgToIOBuf, hb, ht, lengthField]
  by_cases h1 : n < 126
  · have : n % 256 = n := by omega
    simp [h1, this]
  · by_cases h2 : n < 65536
    · have e1 : n % 2 ^ 16 = n := by omega
      simp only [h1, h2, ↓reduceIte, PackPayloadLength, hr2, e1, List.reverse_cons,
        List.reverse_nil, List.nil_append, List.singleton_append, List.map_cons, List.map_nil,
        Nat.shiftRight_eq_div_pow]
      have e2 : n / 2 ^ (8 * 1) % 256 = n / 256 := by norm_num; omega
      have e3 : n / 2 ^ (8 * 0) % 256 = n % 256 := by norm_num
      simp [e2, e3]
      omega
    · simp only [h1, h2, ↓reduceIte, PackPayloadLength, hr8, List.reverse_cons,
        List.reverse_nil, List.nil_append, List.singleton_append, List.map_cons, List.map_nil,
        Nat.shiftRight_eq_div_pow, List.cons_append]
      norm_num

/-- C23 (outgoing frame encoding): for fin in {0,1}, an opcode in 0..15, a
length `n < 2 ^ 64` and a payload of `n` bytes, `PackWsMsgToIOBuf` appends to
the buffer exactly the byte `(fin << 7) | opcode`, the length field (the byte
`n` below 126; `126` and `n` as 2 big-endian bytes below 65536; `127` and `n`
as 8 big-endian bytes from 65536 on) and the payload unchanged.  The second
byte has its mask bit clear, and the result does not depend on the arguments
`mask` and `mask_key`: no mask key is written. -/
theorem outgoing_frame_encoding (buf : List Nat) (fin opcode mask n : Nat)
    (mask_key payload : List Nat)
    (hfin : fin ≤ 1) (hop : opcode ≤ 15) (hn : n < 2 ^ 64) (hp : payload.length = n) :
    PackWsMsgToIOBuf (some buf) fin opcode mask n mask_key payload =
        (true, some (buf ++ [(fin <<< 7) ||| opcode] ++ lengthField n ++ payload)) ∧
      (lengthField n = if n < 126 then [n]
        else if n < 65536 then 126 :: be_bytes 2 n else 127 :: be_bytes 8 n) ∧
      (buf ++ [(fin <<< 7) ||| opcode] ++ lengthField n ++ payload).getD (buf.length + 1) 0
        / 128 = 0 := by
  refine ⟨PackWsMsgToIOBuf_eq buf fin opcode mask n mask_key payload hfin hop hn hp, ?_, ?_⟩
  · simp only [lengthField, be_bytes]
    split_ifs <;> simp
    omega
  · have h : (buf ++ [(fin <<< 7) ||| opcode] ++ lengthField n ++ payload).getD
        (buf.length + 1) 0 = (lengthField n).headD 0 := by
      simp only [List.append_assoc, List.getD_eq_getElem?_getD]
      rw [List.getElem?_append_right (by omega)]
      simp only [lengthField]
      split_ifs <;> simp
    rw [h]
    simp only [lengthField]
    split_ifs <;> simp
    omega

theorem outgoing_frame_encoding_witness :
    PackWsMsgToIOBuf (some []) 1 1 0 2 [] [0x31, 0x32] =
        (true, some ([] ++ [(1 <<< 7) ||| 1] ++ lengthField 2 ++ [0x31, 0x32])) ∧
      (lengthField 2 = if 2 < 126 then [2]
        else if 2 < 65536 then 126 :: be_bytes 2 2 else 127 :: be_bytes 8 2) ∧
      ([] ++ [(1 <<< 7) ||| 1] ++ lengthField 2 ++ [0x31, 0x32]).getD
        (([] : List Nat).length + 1) 0 / 128 = 0 :=
  outgoing_frame_encoding [] 1 1 0 2 [] [0x31, 0x32] (by decide) (by decide) (by decide) rfl

theorem packedHeader_eq (fin opcode mask n : Nat) (mask_key payload : List Nat)
    (hfin : fin ≤ 1) (hop : opcode ≤ 15) (hn : n < 2 ^ 64) (hp : payload.length = n) :
    packedHeader fin opcode mask n mask_key payload =
      ((fin <<< 7) ||| opcode) :: lengthField n := by
  simp only [packedHeader,
    PackWsMsgToIOBuf_eq [] fin opcode mask n mask_key payload hfin hop hn hp,
    Option.getD_some, List.nil_append, List.length_append, hp, Nat.add_sub_cancel]
  rw [List.take_left' (by simp; omega)]
  rfl

theorem on_opcode_le (opcode : Nat) (h : on_opcode opcode = true) : opcode ≤ 15 := by
  have := (on_opcode_iff opcode).1 h
  simp at this
  omega

/-- C24 (length field round trip): for fin in {0,1}, a recognised opcode and
a length `n < 2 ^ 64`, the header bytes `PackWsMsgToIOBuf` produces (first
byte and length field), fed to the frame machine of a fresh message, are
consumed whole when `1 ≤ n`, set no error and decode the same fin and opcode,
mask flag 0 and `payload_length = n`; when `n = 0` the machine stops at the
second byte with `INVALID_PAYLOAD_ZERO`. -/
theorem length_field_round_trip (fin opcode mask n : Nat) (mask_key payload : List Nat)
    (hfin : fin ≤ 1) (hop : on_opcode opcode = true) (hn : n < 2 ^ 64)
    (hp : payload.length = n) :
    (1 ≤ n →
      ∃ m, ws_data_parser_execute WsMessage.new
          (packedHeader fin opcode mask n mask_key payload) =
          (((packedHeader fin opcode mask n mask_key payload).length : Int), m) ∧
        m._dataParser.ws_errno = .VALID ∧ m._hsParser.ws_errno = .VALID ∧
        m.Fin = fin ∧ m.Opcode = opcode ∧ m._dataParser.mask = 0 ∧
        m._dataParser.payload_length = n) ∧
    (n = 0 →
      ∃ m, ws_data_parser_execute WsMessage.new
          (packedHeader fin opcode mask n mask_key payload) = (1, m) ∧
        m._dataParser.ws_errno = .INVALID_PAYLOAD_ZERO) := by
  have hop15 := on_opcode_le opcode hop
  obtain ⟨-, hb⟩ := pack_first_byte fin opcode hfin hop15
  rw [packedHeader_eq fin opcode mask n mask_key payload hfin hop15 hn hp, hb]
  have hb256 : fin * 128 + opcode < 256 := by omega
  have hbo : (fin * 128 + opcode) % 16 = opcode := by omega
  have hbf : (fin * 128 + opcode) / 128 = fin := by omega
  have hfirst : ∀ rest, ws_data_parser_execute WsMessage.new ((fin * 128 + opcode) :: rest) =
      ws_data_parser_loop (afterFirst WsMessage.new (fin * 128 + opcode)) 1 rest := by
    intro rest
    rw [ws_data_parser_execute, loop_first_byte _ _ _ _ rfl hb256 (by rw [hbo]; exact hop)]
  have hnil : ∀ (m : WsMessage) (pos : Nat), ws_data_parser_loop m pos [] = ((pos : Int), m) :=
    fun _ _ => rfl
  constructor
  · intro hn1
    rw [hfirst]
    by_cases h1 : n < 126
    · have hl : lengthField n = [n] := by simp [lengthField, h1]
      rw [hl, loop_length_literal _ n n 1 [] rfl (by omega) (by omega) h1, hnil]
      exact ⟨_, rfl, rfl, rfl, hbf, hbo, (by show n / 128 % 2 = 0; omega), rfl⟩
    · by_cases h2 : n < 65536
      · have hl : lengthField n = [126, n / 256, n % 256] := by simp [lengthField, h1, h2]
        have hsum : 256 * (n / 256) + n % 256 = n := by omega
        rw [hl, loop_length_16 _ 126 (n / 256) (n % 256) 1 [] rfl (by norm_num) (by omega)
          (by omega) (by omega), hsum, hnil]
        exact ⟨_, rfl, rfl, rfl, hbf, hbo, rfl, rfl⟩
      · have hl : lengthField n = [127, n / 256 ^ 7 % 256, n / 256 ^ 6 % 256,
            n / 256 ^ 5 % 256, n / 256 ^ 4 % 256, n / 256 ^ 3 % 256, n / 256 ^ 2 % 256,
            n / 256 % 256, n % 256] := by simp [lengthField, h1, h2]
        have hsum : n / 256 ^ 7 % 256 * 256 ^ 7 + n / 256 ^ 6 % 256 * 256 ^ 6 +
            n / 256 ^ 5 % 256 * 256 ^ 5 + n / 256 ^ 4 % 256 * 256 ^ 4 +
            n / 256 ^ 3 % 256 * 256 ^ 3 + n / 256 ^ 2 % 256 * 256 ^ 2 +
            n / 256 % 256 * 256 + n % 256 = n := by
          norm_num
          norm_num at hn
          omega
        rw [hl, loop_length_64 _ 127 _ _ _ _ _ _ _ _ 1 [] rfl (by norm_num)
          (Nat.mod_lt _ (by norm_num)) (Nat.mod_lt _ (by norm_num))
          (Nat.mod_lt _ (by norm_num)) (Nat.mod_lt _ (by norm_num))
          (Nat.mod_lt _ (by norm_num)) (Nat.mod_lt _ (by norm_num))
          (Nat.mod_lt _ (by norm_num)) (Nat.mod_lt _ (by norm_num))
          (by rw [hsum]; omega), hsum, hnil]
        exact ⟨_, rfl, rfl, rfl, hbf, hbo, rfl, rfl⟩
  · intro h0
    subst h0
    rw [hfirst]
    exact ⟨_, rfl, rfl⟩

theorem length_field_round_trip_witness :
    ∃ m, ws_data_parser_execute WsMessage.new
        (packedHeader 1 2 0 70000 [] (List.replicate 70000 0)) =
        (((packedHeader 1 2 0 70000 [] (List.replicate 70000 0)).length : Int), m) ∧
      m._dataParser.ws_errno = .VALID ∧ m._hsParser.ws_errno = .VALID ∧
      m.Fin = 1 ∧ m.Opcode = 2 ∧ m._dataParser.mask = 0 ∧
      m._dataParser.payload_length = 70000 :=
  (length_field_round_trip 1 2 0 70000 [] (List.replicate 70000 0) (by decide) (by decide)
    (by norm_num) (List.length_replicate _ _)).1 (by norm_num)

/-! ## Delivery of the payload -/

theorem on_body_min (m : WsMessage) (data : List Nat) (hd : m._pkg_type = .DATA)
    (hle : m._dataParser.readed_length ≤ m._dataParser.payload_length)
    (hpl : m._dataParser.payload_length < 2 ^ 64) :
    on_body m data =
      (min (m._dataParser.payload_length - m._dataParser.readed_length) data.length,
        delivered m (data.take
          (min (m._dataParser.payload_length - m._dataParser.readed_length) data.length))) := by
  have hr : (m._dataParser.payload_length + 2 ^ 64 - m._dataParser.readed_length) % 2 ^ 64 =
      m._dataParser.payload_length - m._dataParser.readed_length := by omega
  by_cases hc : Completed m = true
  · have he : m._dataParser.payload_length = m._dataParser.readed_length := by
      simp only [Completed, hd, decide_True, Bool.true_and, Bool.or_eq_true,
        Bool.and_eq_true, decide_eq_true_eq] at hc
      rcases hc with h | h
      · exact h.2
      · simp at h
    have h0 : m._dataParser.readed_length % 2 ^ 64 = m._dataParser.readed_length :=
      Nat.mod_eq_of_lt (by omega)
    have hz : m._dataParser.payload_length - m._dataParser.readed_length = 0 := by omega
    simp only [on_body, hc, ↓reduceIte, hz, Nat.zero_min, List.take_zero,
      delivered, decoded, unmask, ite_self, List.append_nil, List.length_nil, Nat.add_zero, h0]
  · simp only [Bool.not_eq_true] at hc
    simp only [on_body, hc, Bool.false_eq_true, ↓reduceIte, hr, delivered, decoded,
      List.length_take]
    have hmm : min (min (m._dataParser.payload_length - m._dataParser.readed_length)
        data.length) data.length =
        min (m._dataParser.payload_length - m._dataParser.readed_length) data.length := by
      omega
    rw [hmm]
    split <;> rfl

theorem decoded_length (m : WsMessage) (d : List Nat) : (decoded m d).length = d.length := by
  simp only [decoded]
  split
  · rfl
  · exact unmask_length _ _ _

theorem data_switch_header (m : WsMessage) (ch : Nat) (rest rest' : List Nat)
    (hs : m._dataParser.state ≠ .ws_data) :
    ws_data_switch m ch rest = ws_data_switch m ch rest' ∧
      ∀ k m1, ws_data_switch m ch rest = .ret k m1 → k = 0 := by
  cases hst : m._dataParser.state
  case ws_data => exact absurd hst hs
  all_goals
    simp only [ws_data_switch, hst, setDataState, setDataErrno, setPayloadLength,
      on_set_mask_key]
    (first | split_ifs | skip) <;> simp

theorem data_switch_payload_pkg (m : WsMessage) (ch : Nat) (rest : List Nat)
    (hs : m._dataParser.state = .ws_data) :
    ∃ k m1, ws_data_switch m ch rest = .ret k m1 ∧ m1._pkg_type = .DATA := by
  refine ⟨(on_body (on_set_pkgtype m .DATA) (ch :: rest)).1,
    (on_body (on_set_pkgtype m .DATA) (ch :: rest)).2, by simp only [ws_data_switch, hs], ?_⟩
  simp only [on_body, on_set_pkgtype]
  split_ifs <;> rfl

theorem data_loop_prefix (a : List Nat) : ∀ (m : WsMessage) (pos : Nat) (m1 : WsMessage)
    (b : List Nat),
    ws_data_parser_loop m pos a = (((pos + a.length : Nat) : Int), m1) →
    m1._pkg_type ≠ .DATA →
    ws_data_parser_loop m pos (a ++ b) = ws_data_parser_loop m1 (pos + a.length) b := by
  induction a with
  | nil =>
    intro m pos m1 b h _
    simp only [ws_data_parser_loop, Prod.mk.injEq] at h
    simp [h.2]
  | cons x a ih =>
    intro m pos m1 b h hp
    by_cases hs : m._dataParser.state = .ws_data
    · obtain ⟨k, m2, hsw, hpk⟩ := data_switch_payload_pkg m x a hs
      rw [data_loop_ret pos hsw] at h
      exact absurd ((cast_pair_inj h).2 ▸ hpk) hp
    · obtain ⟨hind, hk⟩ := data_switch_header m x a (a ++ b) hs
      cases hsw : ws_data_switch m x a with
      | next m2 =>
        rw [data_loop_next pos hsw] at h
        rw [List.cons_append, data_loop_next pos (hind ▸ hsw)]
        have h' : ws_data_parser_loop m2 (pos + 1) a = ((((pos + 1) + a.length : Nat) : Int), m1) := by
          rw [h]
          simp only [List.length_cons, Prod.mk.injEq, Nat.cast_inj, and_true]
          omega
        rw [ih m2 (pos + 1) m1 b h' hp]
        congr 1
        simp only [List.length_cons]
        omega
      | ret k m2 =>
        have hk0 := hk k m2 hsw
        subst hk0
        rw [data_loop_ret pos hsw] at h
        have := (cast_pair_inj h).1
        simp only [List.length_cons] at this
        omega

theorem masked_frame_loop_extra (b c : Nat) (ext key payload : List Nat)
    (hF : IsFrame b c ext key payload) (hmask : c / 128 = 1) :
    ∃ m', (∀ extra, ws_data_parser_loop WsMessage.new 0
          (frameBytes b c ext key payload ++ extra) =
        ((((frameBytes b c ext key payload).length : Nat) : Int), m')) ∧
      m'._body = unmask key 0 payload ∧ m'._dataParser.ws_errno = .VALID ∧
      m'._hsParser.ws_errno = .VALID ∧ m'._parsed_length = 0 ∧
      m'._dataParser.readed_length = payload.length ∧
      m'._dataParser.payload_length = payload.length ∧ m'._pkg_type = .DATA ∧
      payload.length < 2 ^ 64 := by
  obtain ⟨hb, hrsv, hop, hc, hext, hkey, hpay, hel, hkl, hpl, hp0⟩ := hF
  obtain ⟨t, hlen, hlt⟩ := length_phase (afterFirst WsMessage.new b) c 1 ext
    key rfl hext hel (by rw [← hpl]; exact hp0)
  obtain ⟨x, xs, rfl⟩ : ∃ x xs, payload = x :: xs := by
    cases payload with
    | nil => exact absurd rfl hp0
    | cons x xs => exact ⟨x, xs, rfl⟩
  simp only [hmask, ↓reduceIte] at hkl
  match key, hkl with
  | [k0, k1, k2, k3], _ =>
    set M := afterKey (afterLength (afterFirst WsMessage.new b) (c / 128 % 2) t
      (declaredLength c ext)) [k0, k1, k2, k3] with hM
    have hH : ws_data_parser_loop WsMessage.new 0 (b :: c :: (ext ++ [k0, k1, k2, k3])) =
        ((((0 + (b :: c :: (ext ++ [k0, k1, k2, k3])).length : Nat)) : Int), M) := by
      rw [loop_first_byte _ _ _ _ rfl hb ((on_opcode_iff _).2 hop), hlen,
        loop_mask_key _ k0 k1 k2 k3 _ [] rfl (by show c / 128 % 2 ≠ 0; omega)]
      simp only [ws_data_parser_loop, List.length_cons, List.length_append, List.length_nil,
        Prod.mk.injEq, Nat.cast_inj, and_true]
      omega
    have hMp : M._pkg_type ≠ .DATA := by
      simp [hM, afterKey, afterLength, afterFirst, WsMessage.new]
    have hpl2 : (on_set_pkgtype M .DATA)._dataParser.payload_length = (x :: xs).length := by
      rw [hpl]; rfl
    have hr2 : (on_set_pkgtype M .DATA)._dataParser.readed_length = 0 := rfl
    have hmk : (on_set_pkgtype M .DATA)._dataParser.mask ≠ 0 := by
      show c / 128 % 2 ≠ 0
      omega
    have hlt2 : (x :: xs).length < 2 ^ 64 := by rw [hpl]; exact hlt
    refine ⟨delivered (on_set_pkgtype M .DATA) (x :: xs), ?_, ?_, rfl, rfl, rfl, ?_, hpl2, rfl,
      hlt2⟩
    · intro extra
      have e1 : frameBytes b c ext [k0, k1, k2, k3] (x :: xs) ++ extra =
          (b :: c :: (ext ++ [k0, k1, k2, k3])) ++ ((x :: xs) ++ extra) := by
        simp [frameBytes]
      have e3 : List.take (x :: xs).length (x :: (xs ++ extra)) = x :: xs := by
        simp
      rw [e1, data_loop_prefix _ _ _ _ _ hH hMp, List.cons_append,
        data_loop_payload _ _ _ _ rfl,
        on_body_min _ _ rfl (by rw [hr2]; omega) (by rw [hpl2]; exact hlt2), hpl2, hr2]
      have e4 : min ((x :: xs).length - 0) (x :: (xs ++ extra)).length = (x :: xs).length := by
        simp only [List.length_cons, List.length_append]
        omega
      rw [e4, e3]
      simp only [Prod.mk.injEq, and_true, Nat.cast_inj]
      simp only [frameBytes, List.length_cons, List.length_append, List.length_nil]
      omega
    · simp only [delivered, decoded, hmk, ↓reduceIte]
      rfl
    · show (0 + (x :: xs).length) % 2 ^ 64 = (x :: xs).length
      omega

/-- C25 (the assembler never reads past the frame): a call of `on_body` in
the payload state (the kind just set to DATA) on a slice of `len` bytes, with
`r = payload_length - readed_length` bytes still missing, returns
`min r len`, appends exactly the first `min r len` bytes of the slice to the
body (unmasked when the frame is masked) and adds `min r len` to
`readed_length`.  So one `ParseFromArray` call on a fresh message with a
whole masked frame followed by any extra bytes returns the length of the
frame and leaves the message completed with the unmasked payload as body:
the extra bytes are not consumed and not appended. -/
theorem assembler_reads_within_frame (m : WsMessage) (data : List Nat)
    (b c : Nat) (ext key payload extra : List Nat)
    (hle : m._dataParser.readed_length ≤ m._dataParser.payload_length)
    (hpl : m._dataParser.payload_length < 2 ^ 64)
    (hF : IsFrame b c ext key payload) (hmask : c / 128 = 1) :
    ((on_body (on_set_pkgtype m .DATA) data).1 =
        min (m._dataParser.payload_length - m._dataParser.readed_length) data.length ∧
      (on_body (on_set_pkgtype m .DATA) data).2._body =
        m._body ++ decoded m (data.take
          (min (m._dataParser.payload_length - m._dataParser.readed_length) data.length)) ∧
      (on_body (on_set_pkgtype m .DATA) data).2._body.length = m._body.length +
        min (m._dataParser.payload_length - m._dataParser.readed_length) data.length ∧
      (on_body (on_set_pkgtype m .DATA) data).2._dataParser.readed_length =
        m._dataParser.readed_length +
          min (m._dataParser.payload_length - m._dataParser.readed_length) data.length) ∧
    ∃ m', ParseFromArray WsMessage.new (frameBytes b c ext key payload ++ extra) =
        (((frameBytes b c ext key payload).length : Int), m') ∧
      m'._body = unmask key 0 payload ∧ m'._body.length = payload.length ∧
      m'._dataParser.readed_length = payload.length ∧ Completed m' = true := by
  constructor
  · have hd1 : (on_set_pkgtype m .DATA)._dataParser = m._dataParser := rfl
    rw [on_body_min (on_set_pkgtype m .DATA) data rfl hle hpl]
    refine ⟨by rw [hd1], by rw [hd1]; rfl, ?_, ?_⟩
    · show (m._body ++ decoded _ _).length = _
      rw [List.length_append, decoded_length, List.length_take, hd1]
      omega
    · show (m._dataParser.readed_length + (List.take _ data).length) % 2 ^ 64 = _
      rw [List.length_take, hd1]
      omega
  · obtain ⟨m', hloop, hbody, he1, he2, hpz, hrl, hpll, hpk, hlt⟩ :=
      masked_frame_loop_extra b c ext key payload hF hmask
    have hwl := mem_whitelist b hF.1 hF.2.1 hF.2.2.1
    have hP := parse_eq_loop WsMessage.new b (c :: (ext ++ key ++ payload) ++ extra)
      (by decide) (Or.inr hwl)
    have e : b :: (c :: (ext ++ key ++ payload) ++ extra) =
        frameBytes b c ext key payload ++ extra := by simp [frameBytes]
    rw [e, hloop extra] at hP
    simp only [he1, he2, ne_eq, not_true_eq_false, or_self, ↓reduceIte] at hP
    rw [hP]
    refine ⟨_, rfl, hbody, ?_, hrl, ?_⟩
    · rw [hbody, unmask_length]
    · simp [Completed, hpk, he1, hrl, hpll]

theorem assembler_reads_within_frame_witness :
    ((on_body (on_set_pkgtype (afterLength WsMessage.new 0 0 3) .DATA) [7, 8, 9, 10, 11]).1 =
        min ((afterLength WsMessage.new 0 0 3)._dataParser.payload_length -
          (afterLength WsMessage.new 0 0 3)._dataParser.readed_length)
          [7, 8, 9, 10, 11].length ∧
      (on_body (on_set_pkgtype (afterLength WsMessage.new 0 0 3) .DATA)
          [7, 8, 9, 10, 11]).2._body =
        (afterLength WsMessage.new 0 0 3)._body ++ decoded (afterLength WsMessage.new 0 0 3)
          ([7, 8, 9, 10, 11].take
            (min ((afterLength WsMessage.new 0 0 3)._dataParser.payload_length -
              (afterLength WsMessage.new 0 0 3)._dataParser.readed_length)
              [7, 8, 9, 10, 11].length)) ∧
      (on_body (on_set_pkgtype (afterLength WsMessage.new 0 0 3) .DATA)
          [7, 8, 9, 10, 11]).2._body.length =
        (afterLength WsMessage.new 0 0 3)._body.length +
          min ((afterLength WsMessage.new 0 0 3)._dataParser.payload_length -
            (afterLength WsMessage.new 0 0 3)._dataParser.readed_length)
            [7, 8, 9, 10, 11].length ∧
      (on_body (on_set_pkgtype (afterLength WsMessage.new 0 0 3) .DATA)
          [7, 8, 9, 10, 11]).2._dataParser.readed_length =
        (afterLength WsMessage.new 0 0 3)._dataParser.readed_length +
          min ((afterLength WsMessage.new 0 0 3)._dataParser.payload_length -
            (afterLength WsMessage.new 0 0 3)._dataParser.readed_length)
            [7, 8, 9, 10, 11].length) ∧
    ∃ m, ParseFromArray WsMessage.new
        (frameBytes 0x81 0x82 [] [1, 2, 3, 4] [0x41, 0x42] ++ [0x81, 0x85]) =
        (((frameBytes 0x81 0x82 [] [1, 2, 3, 4] [0x41, 0x42]).length : Int), m) ∧
      m._body = unmask [1, 2, 3, 4] 0 [0x41, 0x42] ∧
      m._body.length = [0x41, 0x42].length ∧
      m._dataParser.readed_length = [0x41, 0x42].length ∧ Completed m = true :=
  assembler_reads_within_frame (afterLength WsMessage.new 0 0 3) [7, 8, 9, 10, 11]
    0x81 0x82 [] [1, 2, 3, 4] [0x41, 0x42] [0x81, 0x85] (by decide) (by decide)
    (by simp [IsFrame, declaredLength]) (by decide)

theorem on_body_inv (m : WsMessage) (d : List Nat) (hs : m._dataParser.state = .ws_data)
    (h : PayloadInv m) : PayloadInv (on_body (on_set_pkgtype m .DATA) d).2 := by
  obtain ⟨h1, h2, h3, h4⟩ := h
  have h3' := h3 hs
  have hst : (on_body (on_set_pkgtype m .DATA) d).2._dataParser.state = .ws_data := by
    simp only [on_body, on_set_pkgtype]
    split_ifs <;> exact hs
  have hd1 : (on_set_pkgtype m .DATA)._dataParser = m._dataParser := rfl
  have hb1 : (on_set_pkgtype m .DATA)._body = m._body := rfl
  rw [on_body_min (on_set_pkgtype m .DATA) d rfl h3' h1] at hst ⊢
  refine ⟨h1, ?_, fun _ => ?_, fun hh => absurd hst hh⟩
  · show ((on_set_pkgtype m .DATA)._body ++ decoded _ _).length =
      ((on_set_pkgtype m .DATA)._dataParser.readed_length + (List.take _ d).length) % 2 ^ 64
    rw [List.length_append, decoded_length, List.length_take, hd1, hb1]
    omega
  · show ((on_set_pkgtype m .DATA)._dataParser.readed_length + (List.take _ d).length) % 2 ^ 64
      ≤ (on_set_pkgtype m .DATA)._dataParser.payload_length
    rw [List.length_take, hd1]
    omega

theorem data_switch_inv (m : WsMessage) (ch : Nat) (rest : List Nat) (h : PayloadInv m) :
    PayloadInv (ws_data_switch m ch rest).msg := by
  cases hst : m._dataParser.state
  case ws_data =>
    have := on_body_inv m (ch :: rest) hst h
    simpa only [ws_data_switch, hst, Flow.msg] using this
  all_goals
    have h0 : m._dataParser.readed_length = 0 := h.2.2.2 (by rw [hst]; simp)
    have h1 := h.1
    have h2 := h.2.1
    simp only [ws_data_switch, hst, setDataState, setDataErrno, setPayloadLength,
      on_set_mask_key]
    (first | split_ifs | skip) <;>
    (simp only [Flow.msg, PayloadInv]
     refine ⟨?_, h2, fun _ => ?_, fun _ => h0⟩
     · dsimp only
       omega
     · omega)

theorem data_loop_inv (d : List Nat) : ∀ (m : WsMessage) (pos : Nat), PayloadInv m →
    PayloadInv (ws_data_parser_loop m pos d).2 := by
  induction d with
  | nil => intro m pos h; exact h
  | cons ch rest ih =>
    intro m pos h
    have hsw := data_switch_inv m ch rest h
    simp only [ws_data_parser_loop]
    cases hf : ws_data_switch m ch rest with
    | next m1 =>
      rw [hf] at hsw
      exact ih m1 (pos + 1) hsw
    | ret k m1 =>
      rw [hf] at hsw
      exact hsw

theorem sameFrame_inv {m m1 : WsMessage} (hsf : SameFrame m m1) (h : PayloadInv m) :
    PayloadInv m1 := by
  obtain ⟨a, -, b⟩ := hsf
  simpa only [PayloadInv, a, b] using h

theorem parse_inv (m : WsMessage) (data : List Nat) (h : PayloadInv m) :
    PayloadInv (ParseFromArray m data).2 := by
  have hx : PayloadInv (ws_parser_execute m data).2 := by
    cases data with
    | nil => exact h
    | cons d0 rest =>
      simp only [ws_parser_execute]
      split_ifs
      · exact data_loop_inv _ m 0 h
      · exact sameFrame_inv (hs_loop_same_frame _ m 0) h
      · exact data_loop_inv _ m 0 h
      · exact h
  simp only [ParseFromArray]
  split_ifs
  · exact h
  · exact h
  · exact hx
  · exact hx

theorem chunks_inv (cs : List (List Nat)) : ∀ m : WsMessage, PayloadInv m →
    PayloadInv (parseChunks m cs).2 := by
  induction cs with
  | nil => intro m h; exact h
  | cons c cs ih =>
    intro m h
    simp only [parseChunks]
    exact ih _ (parse_inv m c h)

/-- C27 (delivered bytes never exceed the declared length): in the message
reached from a fresh one by any sequence of `ParseFromArray` calls,
`readed_length ≤ payload_length` whenever the frame machine is in the payload
state, and the body holds exactly `readed_length` bytes. -/
theorem delivered_never_exceeds_declared (chunks : List (List Nat)) :
    ((parseChunks WsMessage.new chunks).2._dataParser.state = .ws_data →
      (parseChunks WsMessage.new chunks).2._dataParser.readed_length ≤
        (parseChunks WsMessage.new chunks).2._dataParser.payload_length) ∧
      (parseChunks WsMessage.new chunks).2._body.length =
        (parseChunks WsMessage.new chunks).2._dataParser.readed_length := by
  have h := chunks_inv chunks WsMessage.new
    ⟨by simp [WsMessage.new], rfl, fun _ => Nat.le_refl _, fun _ => rfl⟩
  exact ⟨h.2.2.1, h.2.1⟩

/-! ## Errors, block buffers and the two machines -/

/-- C21, the code at two failing inputs.  On an upgrade request whose last
header line ends in CR `X`, the first call returns -1 with
`INVALID_LINEBREAK`, but all five checker bits are set, `Completed()` holds
and the next call, with the empty input, returns 0 instead of -1.  After the
bytes `GX` (error `INVALID_METHOD_FORMAT`) a call with a masked frame returns
-1 but runs the frame machine, which stores the payload and completes the
message, and the following call with the empty input returns 0. -/
theorem completed_message_hides_handshake_error :
    (ParseFromArray WsMessage.new brokenLineBreakRequest).1 = -1 ∧
      (ParseFromArray WsMessage.new brokenLineBreakRequest).2._hsParser.ws_errno =
        .INVALID_LINEBREAK ∧
      Completed (ParseFromArray WsMessage.new brokenLineBreakRequest).2 = true ∧
      (ParseFromArray (ParseFromArray WsMessage.new brokenLineBreakRequest).2 []).1 = 0 ∧
      (ParseFromArray WsMessage.new (bytes "GX")).1 = -1 ∧
      (ParseFromArray WsMessage.new (bytes "GX")).2._hsParser.ws_errno =
        .INVALID_METHOD_FORMAT ∧
      (ParseFromArray (ParseFromArray WsMessage.new (bytes "GX")).2 oneByteFrame).1 = -1 ∧
      (ParseFromArray (ParseFromArray WsMessage.new (bytes "GX")).2 oneByteFrame).2._body =
        [0x40] ∧
      (ParseFromArray (ParseFromArray (ParseFromArray WsMessage.new (bytes "GX")).2
        oneByteFrame).2 []).1 = 0 := by
  decide!

/-- C22, the code at two failing inputs.  For the blocks `FF` and a masked
one-byte frame, `ws_parser_execute` fails to dispatch the first block (-1, no
error code), yet `ParseFromIOBuf` adds the -1 to the 7 bytes of the second
block and returns 6 with the message completed, where `ParseFromArray` on the
same bytes returns -1.  For a request line in one block and a header line in
the next, it returns 16 - 1 = 15, where `ParseFromArray` on the same bytes
returns 25. -/
theorem iobuf_sum_absorbs_failed_dispatch :
    (ParseFromIOBuf WsMessage.new [[0xFF], oneByteFrame]).1 = 6 ∧
      Completed (ParseFromIOBuf WsMessage.new [[0xFF], oneByteFrame]).2 = true ∧
      (ws_parser_execute WsMessage.new [0xFF]).1 = -1 ∧
      (ParseFromArray WsMessage.new ([0xFF] ++ oneByteFrame)).1 = -1 ∧
      (ParseFromIOBuf WsMessage.new [bytes "GET / HTTP/1.1\r\n", bytes "Host: a\r\n"]).1 = 15 ∧
      (ParseFromArray WsMessage.new (bytes "GET / HTTP/1.1\r\n" ++ bytes "Host: a\r\n")).1
        = 25 := by
  decide!

/-- C28, the code at a failing input.  A handshake cut after the CR of the
request line: the first call runs the handshake machine (15 bytes, phase
`ws_handshake_segment_finish2`); the second chunk starts with LF, a byte of
the frame whitelist, so the second call runs the frame machine on the same
message, which reads `\nHo` as a frame header and stores `st: a\r\n` as
payload.  Both calls succeed and both machines have left their first
state. -/
theorem both_machines_run_on_one_message :
    (parseChunks WsMessage.new [bytes "GET / HTTP/1.1\r", bytes "\nHost: a\r\n"]).1 = [15, 10] ∧
      (parseChunks WsMessage.new
        [bytes "GET / HTTP/1.1\r", bytes "\nHost: a\r\n"]).2._hsParser.state =
          .ws_handshake_segment_finish2 ∧
      (parseChunks WsMessage.new
        [bytes "GET / HTTP/1.1\r", bytes "\nHost: a\r\n"]).2._dataParser.state = .ws_data ∧
      (parseChunks WsMessage.new
        [bytes "GET / HTTP/1.1\r", bytes "\nHost: a\r\n"]).2._body = bytes "st: a\r\n" ∧
      (parseChunks WsMessage.new
        [bytes "GET / HTTP/1.1\r", bytes "\nHost: a\r\n"]).2._pkg_type = .DATA := by
  decide!

/-! ## Phases of the handshake and the names of its headers -/

theorem header_end_bit (m : WsMessage) (h : Hdr)
    (hb : (on_header_end m).2._header_checker.testBit h.index = true) :
    m._header_checker.testBit h.index = true ∨ m._cur_header_key = h.name := by
  simp only [on_header_end] at hb
  split_ifs at hb <;> simp only [Nat.testBit_or, Bool.or_eq_true] at hb <;>
    first
    | exact Or.inl hb
    | (rcases hb with hb | hb
       · exact Or.inl hb
       · cases h <;> first | (right; assumption) | (exact absurd hb (by decide)))

theorem header_end_key (m : WsMessage) : (on_header_end m).2._cur_header_key = [] := by
  simp only [on_header_end]

theorem header_end_state (m : WsMessage) : (on_header_end m).2._hsParser = m._hsParser := by
  simp only [on_header_end]
  split_ifs <;> rfl

theorem name_length_lt (h : Hdr) : h.name.length < 4096 := by
  cases h <;> decide

theorem nameSeen_append (h : Hdr) (a b : List Nat) (hs : NameSeen h a) :
    NameSeen h (a ++ b) := by
  obtain ⟨s, t, e⟩ := hs
  exact ⟨s, t ++ b, by rw [← e]; simp⟩

theorem bitsSeen_append (m : WsMessage) (a b : List Nat) (hs : BitsSeen m a) :
    BitsSeen m (a ++ b) :=
  fun h hb => nameSeen_append h a b (hs h hb)

/-- C29, the claim as stated fails: after `GET / HTTP/1.1`, CR LF and
`Host: a` the machine is in the phase header-value, and the CR that ends the
line takes it to line-end-2, which is not header-key and lies two places
back in the order. -/
theorem header_value_steps_back_to_line_end :
    (ws_handahake_parser_execute WsMessage.new
        (bytes "GET / HTTP/1.1\r\nHost: a")).2._hsParser.state = .ws_handshake_header_value ∧
      (ws_handshake_switch (ws_handahake_parser_execute WsMessage.new
        (bytes "GET / HTTP/1.1\r\nHost: a")).2 CR).msg._hsParser.state =
          .ws_handshake_segment_finish2 ∧
      WsHandShakeState.ws_handshake_segment_finish2 ≠ .ws_handshake_header_key ∧
      WsHandShakeState.ws_handshake_segment_finish2.rank <
        WsHandShakeState.ws_handshake_header_value.rank := by
  decide!

/-- C29 as amended: every step of the handshake machine keeps the phase,
moves it to the next phase of the order method-check, method, HTTP-major,
dot, HTTP-minor, line-end-1, line-end-2, header-key, header-value, or, as the
only backward step, goes from header-value to line-end-2, on the CR that ends
a header line that `on_header_end` accepts (header-key is then entered from
line-end-2 on LF). -/
theorem handshake_phase_order (m : WsMessage) (ch : Nat) :
    (ws_handshake_switch m ch).msg._hsParser.state.rank = m._hsParser.state.rank ∨
      (ws_handshake_switch m ch).msg._hsParser.state.rank = m._hsParser.state.rank + 1 ∨
      (m._hsParser.state = .ws_handshake_header_value ∧ ch = CR ∧
        (on_header_end m).1 = true ∧
        (ws_handshake_switch m ch).msg._hsParser.state = .ws_handshake_segment_finish2) := by
  cases hst : m._hsParser.state
  case ws_handshake_header_value =>
    simp only [ws_handshake_switch, hst, on_append_header_value]
    split_ifs with h1 h2 h3 h4
    · left; simp only [Flow.msg, hst]
    · left
      simp only [Flow.msg, setHsErrno, header_end_state, hst]
    · right; right
      simp only [Bool.not_eq_true, Bool.not_eq_false] at h3
      simp only [Flow.msg, setHsState, h2, true_and, and_true]
      simpa using h3
    · left; simp only [Flow.msg, hst]
    · left; simp only [Flow.msg, hst]
  all_goals
    simp only [ws_handshake_switch, hst, on_append_header_key]
    split_ifs <;>
      simp [Flow.msg, setHsState, setHsErrno, on_set_pkgtype, hst, WsHandShakeState.rank]

theorem suffix_snoc {l pre : List Nat} (ch : Nat) (h : l <:+ pre) :
    (l ++ [ch]) <:+ (pre ++ [ch]) := by
  obtain ⟨t, rfl⟩ := h
  exact ⟨t, by simp⟩

theorem part_snoc {l pre : List Nat} (ch : Nat) (h : l <:+: pre) : l <:+: (pre ++ [ch]) := by
  obtain ⟨s, t, e⟩ := h
  exact ⟨s, t ++ [ch], by rw [← e]; simp⟩

theorem hs_switch_inv (m : WsMessage) (ch : Nat) (pre : List Nat) (h : HsInv m pre) :
    BitsSeen (ws_handshake_switch m ch).msg (pre ++ [ch]) ∧
      ∀ m1, ws_handshake_switch m ch = .next m1 → HsInv m1 (pre ++ [ch]) := by
  obtain ⟨hb, hc⟩ := h
  have hb' : BitsSeen m (pre ++ [ch]) := bitsSeen_append m pre [ch] hb
  cases hst : m._hsParser.state
  case ws_handshake_header_key =>
    simp only [hst] at hc
    simp only [ws_handshake_switch, hst, on_append_header_key]
    split_ifs with h1 h2
    · subst h1
      refine ⟨hb', fun m1 hm => ?_⟩
      simp only [Flow.next.injEq] at hm
      subst hm
      refine ⟨hb', ?_⟩
      simp only [setHsState]
      intro hl
      exact (suffix_snoc 58 (hc hl)).isInfix
    · refine ⟨hb', fun m1 hm => ?_⟩
      simp only [Flow.next.injEq] at hm
      subst hm
      refine ⟨hb', ?_⟩
      simp only [hst]
      intro hl
      omega
    · refine ⟨hb', fun m1 hm => ?_⟩
      simp only [Flow.next.injEq] at hm
      subst hm
      refine ⟨hb', ?_⟩
      simp only [hst, List.length_append, List.length_singleton]
      intro hl
      exact suffix_snoc ch (hc (by omega))
  case ws_handshake_header_value =>
    simp only [hst] at hc
    simp only [ws_handshake_switch, hst, on_append_header_value]
    have hbe : BitsSeen (on_header_end m).2 (pre ++ [ch]) := by
      intro hd hbit
      rcases header_end_bit m hd hbit with h1 | h1
      · exact hb' hd h1
      · have := hc (by rw [h1]; exact name_length_lt hd)
        rw [h1] at this
        exact nameSeen_append hd pre [ch] this
    split_ifs with h1 h2 h3 h4
    · refine ⟨hb', fun m1 hm => ?_⟩
      simp only [Flow.next.injEq] at hm
      subst hm
      refine ⟨hb', ?_⟩
      simp only [hst]
      intro hl
      exact part_snoc ch (hc hl)
    · exact ⟨hbe, fun m1 hm => by simp at hm⟩
    · refine ⟨hbe, fun m1 hm => ?_⟩
      simp only [Flow.next.injEq] at hm
      subst hm
      refine ⟨hbe, ?_⟩
      simp only [setHsState, header_end_key, true_and]
      exact ⟨pre, by rw [h2]⟩
    · refine ⟨hb', fun m1 hm => ?_⟩
      simp only [Flow.next.injEq] at hm
      subst hm
      refine ⟨hb', ?_⟩
      simp only [hst]
      intro hl
      exact part_snoc ch (hc hl)
    · refine ⟨hb', fun m1 hm => ?_⟩
      simp only [Flow.next.injEq] at hm
      subst hm
      refine ⟨hb', ?_⟩
      simp only [hst]
      intro hl
      exact part_snoc ch (hc hl)
  case ws_handshake_segment_finish2 =>
    simp only [hst] at hc
    simp only [ws_handshake_switch, hst]
    split_ifs with h1
    · exact ⟨hb', fun m1 hm => by simp at hm⟩
    · refine ⟨hb', fun m1 hm => ?_⟩
      simp only [Flow.next.injEq] at hm
      subst hm
      refine ⟨hb', ?_⟩
      simp only [setHsState, hc.1, List.length_nil]
      intro _
      have := suffix_snoc ch hc.2
      simp only [not_not] at h1
      rw [h1] at this ⊢
      exact this
  case ws_handshake_segment_finish1 =>
    simp only [hst] at hc
    simp only [ws_handshake_switch, hst]
    split_ifs with h1
    · exact ⟨hb', fun m1 hm => by simp at hm⟩
    · refine ⟨hb', fun m1 hm => ?_⟩
      simp only [Flow.next.injEq] at hm
      subst hm
      refine ⟨hb', ?_⟩
      simp only [setHsState]
      simp only [not_not] at h1
      exact ⟨hc, ⟨pre, by rw [h1]⟩⟩
  all_goals
    simp only [hst] at hc
    simp only [ws_handshake_switch, hst]
    split_ifs <;>
    (refine ⟨hb', fun m1 hm => ?_⟩
     cases hm <;>
     (refine ⟨hb', ?_⟩
      simp only [setHsState, on_set_pkgtype, hst]
      exact hc))

theorem hs_loop_bits (d : List Nat) : ∀ (m : WsMessage) (pos : Nat) (pre : List Nat),
    HsInv m pre → BitsSeen (ws_handahake_parser_loop m pos d).2 (pre ++ d) := by
  induction d with
  | nil =>
    intro m pos pre h
    simpa [ws_handahake_parser_loop] using h.1
  | cons ch rest ih =>
    intro m pos pre h
    obtain ⟨h1, h2⟩ := hs_switch_inv m ch pre h
    have e : pre ++ ch :: rest = (pre ++ [ch]) ++ rest := by simp
    simp only [ws_handahake_parser_loop]
    cases hsw : ws_handshake_switch m ch with
    | next m1 =>
      rw [e]
      exact ih m1 (pos + 1) (pre ++ [ch]) (h2 m1 hsw)
    | ret k m1 =>
      rw [hsw] at h1
      rw [e]
      exact bitsSeen_append m1 _ rest h1

theorem done_bits (m : WsMessage) (h : HsDone m) (hd : Hdr) :
    m._header_checker.testBit hd.index = true := by
  have := congrArg (fun n => n.testBit hd.index) h.2
  simp only [Nat.testBit_and] at this
  have h31 : Nat.testBit 31 hd.index = true := by cases hd <;> decide
  rw [h31] at this
  simpa using this

/-- C26 (a handshake missing a mandatory header never completes): for a
chunk that begins with `G`, parsed by one `ParseFromArray` call on a fresh
message, when the name of one of the five mandatory headers does not occur in
the chunk as the exact name of a header line (a line break CR LF, the name
with its letter case, and the colon), `Completed()` is false after the
call. -/
theorem missing_header_never_completes (rest : List Nat) (h : Hdr)
    (hmiss : ¬ NameSeen h (71 :: rest)) :
    Completed (ParseFromArray WsMessage.new (71 :: rest)).2 = false := by
  rw [completed_parse_new _ (Or.inr ⟨rest, rfl⟩)]
  cases hc : Completed (ws_handahake_parser_loop WsMessage.new 0 (71 :: rest)).2 with
  | false => rfl
  | true =>
    exfalso
    have hnd := hs_loop_not_data (71 :: rest) WsMessage.new 0 (by decide)
    have hdone := done_of_completed _ hnd hc
    have hinv : HsInv WsMessage.new [] := by
      refine ⟨fun hd hb => ?_, rfl⟩
      simp [WsMessage.new] at hb
    have hbits := hs_loop_bits (71 :: rest) WsMessage.new 0 [] hinv
    exact hmiss (by simpa using hbits h (done_bits _ hdone h))

theorem missing_header_never_completes_witness :
    Completed (ParseFromArray WsMessage.new (71 :: lowerCaseHostRequestTail)).2 = false :=
  missing_header_never_completes lowerCaseHostRequestTail .host
    (by unfold NameSeen; decide!)

/-- C30 (unrecognised headers are dropped harmlessly): when the accumulated
name is not exactly one of the five mandatory names, `on_header_end` returns
true, leaves the checker bits, the stored key and both error codes as they
were and empties both scratch buffers; in the value state the CR that ends
such a line makes the machine go on to line-end-2.  The witness takes the
name `host`, which differs from `Host` in letter case only. -/
theorem unrecognised_header_dropped (m : WsMessage)
    (hn : ∀ h : Hdr, m._cur_header_key ≠ h.name) :
    (on_header_end m).1 = true ∧
      (on_header_end m).2._header_checker = m._header_checker ∧
      (on_header_end m).2._ws_key = m._ws_key ∧
      (on_header_end m).2._cur_header_key = [] ∧
      (on_header_end m).2._cur_header_value = [] ∧
      (on_header_end m).2._hsParser.ws_errno = m._hsParser.ws_errno ∧
      (on_header_end m).2._dataParser.ws_errno = m._dataParser.ws_errno ∧
      (m._hsParser.state = .ws_handshake_header_value →
        ws_handshake_switch m CR =
          .next (setHsState (on_header_end m).2 .ws_handshake_segment_finish2)) := by
  have h1 : m._cur_header_key ≠ _host_header := hn .host
  have h2 : m._cur_header_key ≠ _upgrade_header := hn .upgrade
  have h3 : m._cur_header_key ≠ _connection_header := hn .connection
  have h4 : m._cur_header_key ≠ _ws_key_header := hn .key
  have h5 : m._cur_header_key ≠ _ws_version_header := hn .version
  have hr : (on_header_end m).1 = true := by
    simp only [on_header_end, h1, h2, h3, h4, h5, ↓reduceIte]
    split_ifs <;> rfl
  refine ⟨hr, ?_, ?_, rfl, rfl, ?_, ?_, ?_⟩
  · simp only [on_header_end, h1, h2, h3, h4, h5, ↓reduceIte]
    split_ifs <;> rfl
  · simp only [on_header_end, h1, h2, h3, h4, h5, ↓reduceIte]
    split_ifs <;> rfl
  · simp only [on_header_end, h1, h2, h3, h4, h5, ↓reduceIte]
    split_ifs <;> rfl
  · simp only [on_header_end, h1, h2, h3, h4, h5, ↓reduceIte]
    split_ifs <;> rfl
  · intro hs
    simp only [ws_handshake_switch, hs, hr]
    simp [CR]

theorem unrecognised_header_dropped_witness :
    (on_header_end (inValue 0 [] (bytes "host") (bytes "example.com"))).1 = true ∧
      (on_header_end (inValue 0 [] (bytes "host") (bytes "example.com"))).2._header_checker
        = 0 :=
  ⟨(unrecognised_header_dropped (inValue 0 [] (bytes "host") (bytes "example.com"))
      (by intro h; cases h <;> decide)).1,
    (unrecognised_header_dropped (inValue 0 [] (bytes "host") (bytes "example.com"))
      (by intro h; cases h <;> decide)).2.1⟩

/-! ## Monotone error codes and phases -/

theorem keepsErrors_refl (m : WsMessage) : KeepsErrors m m :=
  ⟨fun h => h, fun h => h, fun _ h => h⟩

theorem keepsErrors_trans {a b c : WsMessage} (h1 : KeepsErrors a b) (h2 : KeepsErrors b c) :
    KeepsErrors a c :=
  ⟨fun h => h2.1 (h1.1 h), fun h => h2.2.1 (h1.2.1 h), fun i h => h2.2.2 i (h1.2.2 i h)⟩

theorem data_switch_keeps_errors (m : WsMessage) (ch : Nat) (rest : List Nat) :
    KeepsErrors m (ws_data_switch m ch rest).msg := by
  obtain ⟨h1, h2, -⟩ := data_switch_same_handshake m ch rest
  refine ⟨fun h => by rw [h1]; exact h, ?_, fun i h => by rw [h2]; exact h⟩
  intro he
  cases hst : m._dataParser.state
  case ws_data =>
    simp only [ws_data_switch, hst, on_body, on_set_pkgtype, Flow.msg]
    split_ifs <;> exact he
  all_goals
    simp only [ws_data_switch, hst, setDataState, setDataErrno, setPayloadLength,
      on_set_mask_key]
    (first | split_ifs | skip) <;> first | exact he | simp [Flow.msg]

theorem header_end_keeps_bits (m : WsMessage) (i : Nat)
    (h : m._header_checker.testBit i = true) :
    (on_header_end m).2._header_checker.testBit i = true := by
  simp only [on_header_end]
  split_ifs <;> simp [Nat.testBit_or, h]

theorem hs_switch_keeps_errors (m : WsMessage) (ch : Nat) :
    KeepsErrors m (ws_handshake_switch m ch).msg := by
  obtain ⟨h1, -, -⟩ := hs_switch_same_frame m ch
  refine ⟨?_, fun h => by rw [h1]; exact h, ?_⟩
  · intro he
    cases hst : m._hsParser.state
    case ws_handshake_header_value =>
      simp only [ws_handshake_switch, hst, on_append_header_value]
      split_ifs <;>
        first
        | exact he
        | (simp only [Flow.msg, setHsState, header_end_state]; exact he)
        | simp [Flow.msg, setHsErrno]
    all_goals
      simp only [ws_handshake_switch, hst, on_append_header_key]
      split_ifs <;> first | exact he | simp [Flow.msg, setHsErrno]
  · intro i hb
    cases hst : m._hsParser.state
    case ws_handshake_header_value =>
      simp only [ws_handshake_switch, hst, on_append_header_value]
      split_ifs <;> first | exact hb | exact header_end_keeps_bits m i hb
    all_goals
      simp only [ws_handshake_switch, hst, on_append_header_key]
      split_ifs <;> exact hb

theorem data_loop_keeps_errors (d : List Nat) : ∀ (m : WsMessage) (pos : Nat),
    KeepsErrors m (ws_data_parser_loop m pos d).2 := by
  induction d with
  | nil => intro m pos; exact keepsErrors_refl m
  | cons ch rest ih =>
    intro m pos
    have h := data_switch_keeps_errors m ch rest
    simp only [ws_data_parser_loop]
    cases hsw : ws_data_switch m ch rest with
    | next m1 =>
      rw [hsw] at h
      exact keepsErrors_trans h (ih m1 (pos + 1))
    | ret k m1 =>
      rw [hsw] at h
      exact h

theorem hs_loop_keeps_errors (d : List Nat) : ∀ (m : WsMessage) (pos : Nat),
    KeepsErrors m (ws_handahake_parser_loop m pos d).2 := by
  induction d with
  | nil => intro m pos; exact keepsErrors_refl m
  | cons ch rest ih =>
    intro m pos
    have h := hs_switch_keeps_errors m ch
    simp only [ws_handahake_parser_loop]
    cases hsw : ws_handshake_switch m ch with
    | next m1 =>
      rw [hsw] at h
      exact keepsErrors_trans h (ih m1 (pos + 1))
    | ret k m1 =>
      rw [hsw] at h
      exact h

theorem execute_keeps_errors (m : WsMessage) (data : List Nat) :
    KeepsErrors m (ws_parser_execute m data).2 := by
  cases data with
  | nil => exact keepsErrors_refl m
  | cons d0 rest =>
    simp only [ws_parser_execute]
    split_ifs
    · exact data_loop_keeps_errors _ m 0
    · exact hs_loop_keeps_errors _ m 0
    · exact data_loop_keeps_errors _ m 0
    · exact keepsErrors_refl m

theorem parse_keeps_errors (m : WsMessage) (data : List Nat) :
    KeepsErrors m (ParseFromArray m data).2 := by
  have hx := execute_keeps_errors m data
  simp only [ParseFromArray]
  split_ifs
  · exact keepsErrors_refl m
  · exact keepsErrors_refl m
  · exact hx
  · exact hx

theorem iobuf_loop_keeps_errors (blks : List (List Nat)) : ∀ (m : WsMessage) (n : Int),
    KeepsErrors m (ParseFromIOBuf_loop m n blks).2 := by
  induction blks with
  | nil => intro m n; exact keepsErrors_refl m
  | cons blk blks ih =>
    intro m n
    have hx := execute_keeps_errors m blk
    simp only [ParseFromIOBuf_loop]
    split_ifs
    · exact ih m n
    · exact hx
    · exact hx
    · exact keepsErrors_trans hx (ih _ _)

theorem iobuf_keeps_errors (m : WsMessage) (buf : List (List Nat)) :
    KeepsErrors m (ParseFromIOBuf m buf).2 := by
  have hx := iobuf_loop_keeps_errors buf m 0
  simp only [ParseFromIOBuf]
  split_ifs
  · exact keepsErrors_refl m
  · exact keepsErrors_refl m
  · cases hl : ParseFromIOBuf_loop m 0 buf with
    | mk o m1 =>
      rw [hl] at hx
      cases o <;> exact hx

theorem chunks_keep_errors (cs : List (List Nat)) : ∀ m : WsMessage,
    KeepsErrors m (parseChunks m cs).2 := by
  induction cs with
  | nil => intro m; exact keepsErrors_refl m
  | cons c cs ih =>
    intro m
    simp only [parseChunks]
    exact keepsErrors_trans (parse_keeps_errors m c) (ih _)

/-- C31 (error codes and validation bits are monotone): along every sequence
of `ParseFromArray` calls, and through a `ParseFromIOBuf` call, on any
message, a handshake error code or frame error code that is not VALID stays
not VALID, and every bit of the checker that is set, so each of the five
validation bits, stays set. -/
theorem errors_and_bits_are_monotone (m : WsMessage) (chunks : List (List Nat))
    (buf : List (List Nat)) :
    KeepsErrors m (parseChunks m chunks).2 ∧ KeepsErrors m (ParseFromIOBuf m buf).2 ∧
      ∀ h : Hdr, m._header_checker.testBit h.index = true →
        (parseChunks m chunks).2._header_checker.testBit h.index = true :=
  ⟨chunks_keep_errors chunks m, iobuf_keeps_errors m buf,
    fun h hb => (chunks_keep_errors chunks m).2.2 h.index hb⟩

theorem on_body_frame_fields (m : WsMessage) (d : List Nat) :
    (on_body m d).2._dataParser.state = m._dataParser.state ∧
      (on_body m d).2._dataParser.fin = m._dataParser.fin ∧
      (on_body m d).2._dataParser.opcode = m._dataParser.opcode ∧
      (on_body m d).2._dataParser.mask = m._dataParser.mask ∧
      (on_body m d).2._dataParser.payload_length = m._dataParser.payload_length ∧
      (on_body m d).2._dataParser.ws_errno = m._dataParser.ws_errno ∧
      (on_body m d).2._mask_key = m._mask_key := by
  simp only [on_body]
  split_ifs <;> exact ⟨rfl, rfl, rfl, rfl, rfl, rfl, rfl⟩

theorem data_switch_phase (m : WsMessage) (ch : Nat) (rest : List Nat) :
    m._dataParser.state.rank ≤ (ws_data_switch m ch rest).msg._dataParser.state.rank ∧
      (m._dataParser.state ≠ .ws_data_start →
        (ws_data_switch m ch rest).msg._dataParser.fin = m._dataParser.fin ∧
        (ws_data_switch m ch rest).msg._dataParser.opcode = m._dataParser.opcode) ∧
      (m._dataParser.state ≠ .ws_data_fin_done →
        (ws_data_switch m ch rest).msg._dataParser.mask = m._dataParser.mask) ∧
      (10 ≤ m._dataParser.state.rank →
        (ws_data_switch m ch rest).msg._dataParser.payload_length =
          m._dataParser.payload_length) := by
  cases hst : m._dataParser.state
  case ws_data =>
    obtain ⟨a1, a2, a3, a4, a5, -, -⟩ := on_body_frame_fields (on_set_pkgtype m .DATA) (ch :: rest)
    simp only [ws_data_switch, hst, Flow.msg]
    refine ⟨?_, fun _ => ⟨a2, a3⟩, fun _ => a4, fun _ => a5⟩
    rw [a1]
    show WsDataState.ws_data.rank ≤ m._dataParser.state.rank
    rw [hst]
  all_goals
    simp only [ws_data_switch, hst, setDataState, setDataErrno, setPayloadLength,
      on_set_mask_key]
    (first | split_ifs | skip) <;>
      simp [Flow.msg, WsDataState.rank, hst]

theorem data_loop_phase (d : List Nat) : ∀ (m : WsMessage) (pos : Nat),
    m._dataParser.state.rank ≤ (ws_data_parser_loop m pos d).2._dataParser.state.rank ∧
      (1 ≤ m._dataParser.state.rank →
        (ws_data_parser_loop m pos d).2._dataParser.fin = m._dataParser.fin ∧
        (ws_data_parser_loop m pos d).2._dataParser.opcode = m._dataParser.opcode) ∧
      (2 ≤ m._dataParser.state.rank →
        (ws_data_parser_loop m pos d).2._dataParser.mask = m._dataParser.mask) ∧
      (10 ≤ m._dataParser.state.rank →
        (ws_data_parser_loop m pos d).2._dataParser.payload_length =
          m._dataParser.payload_length) := by
  induction d with
  | nil =>
    intro m pos
    exact ⟨Nat.le_refl _, fun _ => ⟨rfl, rfl⟩, fun _ => rfl, fun _ => rfl⟩
  | cons ch rest ih =>
    intro m pos
    obtain ⟨s1, s2, s3, s4⟩ := data_switch_phase m ch rest
    have hne1 : 1 ≤ m._dataParser.state.rank → m._dataParser.state ≠ .ws_data_start := by
      intro h e
      rw [e] at h
      exact absurd h (by decide)
    have hne2 : 2 ≤ m._dataParser.state.rank → m._dataParser.state ≠ .ws_data_fin_done := by
      intro h e
      rw [e] at h
      exact absurd h (by decide)
    simp only [ws_data_parser_loop]
    cases hsw : ws_data_switch m ch rest with
    | next m1 =>
      rw [hsw] at s1 s2 s3 s4
      simp only [Flow.msg] at s1 s2 s3 s4
      obtain ⟨i1, i2, i3, i4⟩ := ih m1 (pos + 1)
      refine ⟨Nat.le_trans s1 i1, fun h => ?_, fun h => ?_, fun h => ?_⟩
      · obtain ⟨a, b⟩ := i2 (Nat.le_trans h s1)
        obtain ⟨c, e⟩ := s2 (hne1 h)
        exact ⟨a.trans c, b.trans e⟩
      · exact (i3 (Nat.le_trans h s1)).trans (s3 (hne2 h))
      · exact (i4 (Nat.le_trans h s1)).trans (s4 h)
    | ret k m1 =>
      rw [hsw] at s1 s2 s3 s4
      simp only [Flow.msg] at s1 s2 s3 s4
      exact ⟨s1, fun h => s2 (hne1 h), fun h => s3 (hne2 h), s4⟩

/-- C32, the claim as stated fails: from the initial state the byte `81` is a
valid first byte and leaves the mask flag 0; the next byte `85`, in the same
run or in the next one, sets the mask flag to 1, so the mask flag is modified
after the first valid byte has been consumed. -/
theorem mask_flag_written_by_second_byte :
    (ws_data_parser_execute WsMessage.new [0x81]).1 = 1 ∧
      (ws_data_parser_execute WsMessage.new [0x81]).2._dataParser.state = .ws_data_fin_done ∧
      (ws_data_parser_execute WsMessage.new [0x81]).2._dataParser.mask = 0 ∧
      (ws_data_parser_execute WsMessage.new [0x81, 0x85]).2._dataParser.mask = 1 ∧
      (ws_data_parser_execute (ws_data_parser_execute WsMessage.new [0x81]).2
        [0x85]).2._dataParser.mask = 1 := by
  decide

/-- C32 as amended: a run of `ws_data_parser_execute` from any state never
decreases the phase number; once the start phase is left it is not entered
again and fin and opcode are not modified; the mask flag, which the second
byte writes, is not modified once the phase is past `ws_data_fin_done`; and
`payload_length` is not modified from the first mask-key phase on. -/
theorem frame_phase_is_monotone (m : WsMessage) (data : List Nat) :
    m._dataParser.state.rank ≤ (ws_data_parser_execute m data).2._dataParser.state.rank ∧
      (m._dataParser.state ≠ .ws_data_start →
        (ws_data_parser_execute m data).2._dataParser.state ≠ .ws_data_start ∧
        (ws_data_parser_execute m data).2._dataParser.fin = m._dataParser.fin ∧
        (ws_data_parser_execute m data).2._dataParser.opcode = m._dataParser.opcode) ∧
      (2 ≤ m._dataParser.state.rank →
        (ws_data_parser_execute m data).2._dataParser.mask = m._dataParser.mask) ∧
      (10 ≤ m._dataParser.state.rank →
        (ws_data_parser_execute m data).2._dataParser.payload_length =
          m._dataParser.payload_length) := by
  obtain ⟨h1, h2, h3, h4⟩ := data_loop_phase data m 0
  have hr : m._dataParser.state ≠ .ws_data_start → 1 ≤ m._dataParser.state.rank := by
    intro h
    cases hst : m._dataParser.state <;> simp_all [WsDataState.rank]
  refine ⟨h1, fun h => ⟨?_, h2 (hr h)⟩, h3, h4⟩
  intro e
  have := Nat.le_trans (hr h) h1
  rw [ws_data_parser_execute] at e
  rw [e] at this
  exact absurd this (by decide)

theorem data_switch_mask_key (m : WsMessage) (ch : Nat) (rest : List Nat)
    (h : MaskKeyInv m) : MaskKeyInv (ws_data_switch m ch rest).msg := by
  obtain ⟨hm, hk⟩ := h
  cases hst : m._dataParser.state
  case ws_data =>
    obtain ⟨a1, -, -, a4, -, -, a7⟩ := on_body_frame_fields (on_set_pkgtype m .DATA) (ch :: rest)
    simp only [hst] at hk
    simp only [ws_data_switch, hst, Flow.msg, MaskKeyInv, a1, a4, a7]
    have e : (on_set_pkgtype m .DATA)._dataParser.state = .ws_data := hst
    simp only [e]
    exact ⟨hm, hk⟩
  case ws_mask_key_1 =>
    simp only [hst] at hk
    simp only [ws_data_switch, hst, setDataState, on_set_mask_key]
    split_ifs with h0
    · simp only [Flow.msg, MaskKeyInv]
      exact ⟨hm, fun _ => hk, fun h1 => by omega⟩
    · simp only [Flow.msg, MaskKeyInv, List.length_append, hk]
      exact ⟨hm, by omega, rfl⟩
  case ws_mask_key_2 =>
    simp only [hst] at hk
    simp only [ws_data_switch, hst, setDataState, on_set_mask_key, Flow.msg, MaskKeyInv,
      List.length_append, hk.2]
    exact ⟨hm, hk.1, rfl⟩
  case ws_mask_key_3 =>
    simp only [hst] at hk
    simp only [ws_data_switch, hst, setDataState, on_set_mask_key, Flow.msg, MaskKeyInv,
      List.length_append, hk.2]
    exact ⟨hm, hk.1, rfl⟩
  case ws_mask_key_4 =>
    simp only [hst] at hk
    simp only [ws_data_switch, hst, setDataState, on_set_mask_key, Flow.msg, MaskKeyInv,
      List.length_append, hk.2]
    exact ⟨hm, fun h0 => by omega, fun _ => rfl⟩
  all_goals
    simp only [hst] at hk
    simp only [ws_data_switch, hst, setDataState, setDataErrno, setPayloadLength]
    (first | split_ifs | skip) <;>
    (simp only [Flow.msg, MaskKeyInv, hst]
     refine ⟨?_, hk⟩
     first | exact hm | omega)

theorem data_loop_mask_key (d : List Nat) : ∀ (m : WsMessage) (pos : Nat), MaskKeyInv m →
    MaskKeyInv (ws_data_parser_loop m pos d).2 := by
  induction d with
  | nil => intro m pos h; exact h
  | cons ch rest ih =>
    intro m pos h
    have hsw := data_switch_mask_key m ch rest h
    simp only [ws_data_parser_loop]
    cases hf : ws_data_switch m ch rest with
    | next m1 =>
      rw [hf] at hsw
      exact ih m1 (pos + 1) hsw
    | ret k m1 =>
      rw [hf] at hsw
      exact hsw

theorem sameFrame_mask_key {m m1 : WsMessage} (hsf : SameFrame m m1) (h : MaskKeyInv m) :
    MaskKeyInv m1 := by
  obtain ⟨a, b, -⟩ := hsf
  simpa only [MaskKeyInv, a, b] using h

theorem parse_mask_key (m : WsMessage) (data : List Nat) (h : MaskKeyInv m) :
    MaskKeyInv (ParseFromArray m data).2 := by
  have hx : MaskKeyInv (ws_parser_execute m data).2 := by
    cases data with
    | nil => exact h
    | cons d0 rest =>
      simp only [ws_parser_execute]
      split_ifs
      · exact data_loop_mask_key _ m 0 h
      · exact sameFrame_mask_key (hs_loop_same_frame _ m 0) h
      · exact data_loop_mask_key _ m 0 h
      · exact h
  simp only [ParseFromArray]
  split_ifs
  · exact h
  · exact h
  · exact hx
  · exact hx

theorem chunks_mask_key (cs : List (List Nat)) : ∀ m : WsMessage, MaskKeyInv m →
    MaskKeyInv (parseChunks m cs).2 := by
  induction cs with
  | nil => intro m h; exact h
  | cons c cs ih =>
    intro m h
    simp only [parseChunks]
    exact ih _ (parse_mask_key m c h)

/-- C33 (mask key indexing is safe): in the message reached from a fresh one
by any sequence of `ParseFromArray` calls, and in every message the frame
loop reaches from there on further bytes, a set mask flag in the payload
state comes with a mask key of exactly 4 bytes, so `idx % 4` is a valid index
for every `idx`; and with mask flag 0 the mask key is empty. -/
theorem mask_key_index_in_bounds (chunks : List (List Nat)) (d : List Nat) (pos : Nat) :
    ((ws_data_parser_loop (parseChunks WsMessage.new chunks).2 pos d).2._dataParser.state
        = .ws_data →
      (ws_data_parser_loop (parseChunks WsMessage.new chunks).2 pos d).2._dataParser.mask
        ≠ 0 →
      (ws_data_parser_loop (parseChunks WsMessage.new chunks).2 pos d).2._mask_key.length = 4 ∧
      ∀ idx : Nat, idx % 4 <
        (ws_data_parser_loop (parseChunks WsMessage.new chunks).2 pos d).2._mask_key.length) ∧
    ((ws_data_parser_loop (parseChunks WsMessage.new chunks).2 pos d).2._dataParser.mask = 0 →
      (ws_data_parser_loop (parseChunks WsMessage.new chunks).2 pos d).2._mask_key = []) := by
  have h0 : MaskKeyInv WsMessage.new := ⟨by decide, rfl⟩
  obtain ⟨hm, hk⟩ := data_loop_mask_key d _ pos (chunks_mask_key chunks WsMessage.new h0)
  constructor
  · intro hs hmask
    rw [hs] at hk
    have h4 := hk.2 (by omega)
    exact ⟨h4, fun idx => by rw [h4]; exact Nat.mod_lt _ (by decide)⟩
  · intro h0m
    cases hst :
        (ws_data_parser_loop (parseChunks WsMessage.new chunks).2 pos d).2._dataParser.state <;>
      rw [hst] at hk <;> first | exact hk | exact hk.1 h0m | (exfalso; omega)

theorem data_switch_no_unknown (m : WsMessage) (ch : Nat) (rest : List Nat)
    (hs : m._dataParser.state ≠ .ws_data_start)
    (he : m._dataParser.ws_errno ≠ .INVALID_UNKNOWN_OPCODE) :
    (ws_data_switch m ch rest).msg._dataParser.ws_errno ≠ .INVALID_UNKNOWN_OPCODE := by
  cases hst : m._dataParser.state
  case ws_data_start => exact absurd hst hs
  case ws_data =>
    obtain ⟨-, -, -, -, -, a6, -⟩ := on_body_frame_fields (on_set_pkgtype m .DATA) (ch :: rest)
    simp only [ws_data_switch, hst, Flow.msg, a6]
    exact he
  all_goals
    simp only [ws_data_switch, hst, setDataState, setDataErrno, setPayloadLength,
      on_set_mask_key]
    (first | split_ifs | skip) <;> first | exact he | simp [Flow.msg]

theorem data_loop_no_unknown (d : List Nat) : ∀ (m : WsMessage) (pos : Nat),
    m._dataParser.state ≠ .ws_data_start →
    m._dataParser.ws_errno ≠ .INVALID_UNKNOWN_OPCODE →
    (ws_data_parser_loop m pos d).2._dataParser.ws_errno ≠ .INVALID_UNKNOWN_OPCODE := by
  induction d with
  | nil => intro m pos _ he; exact he
  | cons ch rest ih =>
    intro m pos hs he
    have h1 := data_switch_no_unknown m ch rest hs he
    have h2 := (data_switch_phase m ch rest).1
    simp only [ws_data_parser_loop]
    cases hsw : ws_data_switch m ch rest with
    | next m1 =>
      rw [hsw] at h1 h2
      simp only [Flow.msg] at h1 h2
      refine ih m1 (pos + 1) ?_ h1
      intro e
      rw [e] at h2
      cases hst : m._dataParser.state <;> simp_all [WsDataState.rank]
    | ret k m1 =>
      rw [hsw] at h1
      exact h1

theorem execute_no_unknown (m : WsMessage) (data : List Nat)
    (he : m._dataParser.ws_errno ≠ .INVALID_UNKNOWN_OPCODE) :
    (ws_parser_execute m data).2._dataParser.ws_errno ≠ .INVALID_UNKNOWN_OPCODE := by
  cases data with
  | nil => exact he
  | cons d0 rest =>
    simp only [ws_parser_execute]
    split_ifs with h1 h2 h3
    · exact data_loop_no_unknown _ m 0 h1 he
    · rw [ws_handahake_parser_execute, (hs_loop_same_frame _ m 0).1]
      exact he
    · simp only [ne_eq, not_not] at h1
      have hop : on_opcode (d0 % 16) = true := by
        simp only [List.mem_cons, List.mem_singleton, List.not_mem_nil, or_false] at h3
        rcases h3 with h | h | h | h | h | h | h | h | h | h | h | h <;> subst h <;> decide
      have hsw : ws_data_switch m d0 rest = .next (setDataState
          { m with _dataParser :=
              { m._dataParser with fin := (d0 / 128) % 2, opcode := d0 % 16 } }
          .ws_data_fin_done) := by
        simp [ws_data_switch, h1, hop]
      rw [ws_data_parser_execute, data_loop_next 0 hsw]
      exact data_loop_no_unknown _ _ _ (by simp [setDataState]) he
    · exact he

theorem executeChunks_no_unknown (cs : List (List Nat)) : ∀ m : WsMessage,
    m._dataParser.ws_errno ≠ .INVALID_UNKNOWN_OPCODE →
    (executeChunks m cs).2._dataParser.ws_errno ≠ .INVALID_UNKNOWN_OPCODE := by
  induction cs with
  | nil => intro m h; exact h
  | cons c cs ih =>
    intro m h
    simp only [executeChunks]
    exact ih _ (execute_no_unknown m c h)

/-- C34, the claim as stated fails: the byte `G` (`0x47`) has the
unrecognised opcode 7 and a reserved bit set, yet on fresh parsers
`ws_parser_execute` does not return -1 for it: it runs the handshake machine,
returns 1 for the chunk `G`, and for the chunk `GX` returns 1 with the
handshake error `INVALID_METHOD_FORMAT`. -/
theorem first_byte_G_is_not_rejected :
    on_opcode (71 % 16) = false ∧ 71 / 16 % 8 ≠ 0 ∧
      (ws_parser_execute WsMessage.new [71]).1 = 1 ∧
      (ws_parser_execute WsMessage.new [71]).1 ≠ -1 ∧
      (ws_parser_execute WsMessage.new [71, 88]).1 = 1 ∧
      (ws_parser_execute WsMessage.new [71, 88]).2._hsParser.ws_errno =
        .INVALID_METHOD_FORMAT := by
  decide

/-- C34 as amended: for every sequence of chunks fed to fresh parsers through
`ws_parser_execute` the frame error code never becomes
`INVALID_UNKNOWN_OPCODE`; and a first byte other than `G` with an
unrecognised opcode or a reserved bit set makes `ws_parser_execute` on fresh
parsers return -1 and change nothing, both error codes still VALID. -/
theorem unknown_opcode_unreachable (chunks : List (List Nat)) (b : Nat) (rest : List Nat)
    (hb : b < 256) (hG : b ≠ 71) (hbad : on_opcode (b % 16) = false ∨ b / 16 % 8 ≠ 0) :
    (executeChunks WsMessage.new chunks).2._dataParser.ws_errno ≠ .INVALID_UNKNOWN_OPCODE ∧
      ws_parser_execute WsMessage.new (b :: rest) = (-1, WsMessage.new) ∧
      (ws_parser_execute WsMessage.new (b :: rest)).2._hsParser.ws_errno = .VALID ∧
      (ws_parser_execute WsMessage.new (b :: rest)).2._dataParser.ws_errno = .VALID := by
  have hnw : b ∉ [0b00000000, 0b00000001, 0b00000010, 0b00001000, 0b00001001,
      0b00001010, 0b10000000, 0b10000001, 0b10000010, 0b10001000, 0b10001001,
      0b10001010] := by
    intro hmem
    simp only [List.mem_cons, List.mem_singleton, List.not_mem_nil, or_false] at hmem
    rcases hbad with h | h
    · rcases hmem with e | e | e | e | e | e | e | e | e | e | e | e <;> subst e <;>
        exact absurd h (by decide)
    · rcases hmem with e | e | e | e | e | e | e | e | e | e | e | e <;> subst e <;>
        exact absurd rfl h
  have hx : ws_parser_execute WsMessage.new (b :: rest) = (-1, WsMessage.new) := by
    simp only [ws_parser_execute, hG, hnw, ↓reduceIte]
    simp [WsMessage.new]
  refine ⟨executeChunks_no_unknown chunks WsMessage.new (by decide), hx, ?_, ?_⟩
  · rw [hx]; rfl
  · rw [hx]; rfl

theorem unknown_opcode_unreachable_witness :
    (executeChunks WsMessage.new [[0x81], [0x00]]).2._dataParser.ws_errno ≠
        .INVALID_UNKNOWN_OPCODE ∧
      ws_parser_execute WsMessage.new (0x83 :: [1, 2]) = (-1, WsMessage.new) ∧
      (ws_parser_execute WsMessage.new (0x83 :: [1, 2])).2._hsParser.ws_errno = .VALID ∧
      (ws_parser_execute WsMessage.new (0x83 :: [1, 2])).2._dataParser.ws_errno = .VALID :=
  unknown_opcode_unreachable [[0x81], [0x00]] 0x83 [1, 2] (by decide) (by decide)
    (Or.inl (by decide))

/-! ## Exact results of the handshake machine -/

theorem hs_switch_errno (m : WsMessage) (ch : Nat) :
    (∀ m1, ws_handshake_switch m ch = .next m1 →
        m1._hsParser.ws_errno = m._hsParser.ws_errno) ∧
      (∀ k m1, ws_handshake_switch m ch = .ret k m1 → m1._hsParser.ws_errno ≠ .VALID) := by
  have he : (on_header_end m).2._hsParser.ws_errno = m._hsParser.ws_errno := by
    rw [header_end_state]
  cases hst : m._hsParser.state
  case ws_handshake_header_value =>
    simp only [ws_handshake_switch, hst, on_append_header_value]
    split_ifs <;>
      (constructor
       · intro m1 hm
         cases hm
         all_goals first | rfl | exact he
       · intro k m1 hm
         cases hm
         all_goals simp [setHsErrno])
  all_goals
    simp only [ws_handshake_switch, hst, on_append_header_key]
    split_ifs <;>
      (constructor
       · intro m1 hm
         cases hm
         all_goals rfl
       · intro k m1 hm
         cases hm
         all_goals simp [setHsErrno])

theorem hs_loop_pos (d : List Nat) : ∀ (m : WsMessage) (pos : Nat),
    ws_handahake_parser_loop m pos d =
      ((pos : Int) + (ws_handahake_parser_loop m 0 d).1, (ws_handahake_parser_loop m 0 d).2) := by
  induction d with
  | nil => intro m pos; simp [ws_handahake_parser_loop]
  | cons ch rest ih =>
    intro m pos
    simp only [ws_handahake_parser_loop]
    cases hsw : ws_handshake_switch m ch with
    | next m1 =>
      simp only []
      rw [ih m1 (pos + 1), ih m1 (0 + 1)]
      simp only [Prod.mk.injEq, and_true]
      push_cast
      omega
    | ret k m1 =>
      simp only [Prod.mk.injEq, and_true]
      push_cast
      omega

theorem hs_loop_valid_all (d : List Nat) : ∀ (m : WsMessage) (pos : Nat),
    (ws_handahake_parser_loop m pos d).2._hsParser.ws_errno = .VALID →
    (ws_handahake_parser_loop m pos d).1 = ((pos + d.length : Nat) : Int) := by
  induction d with
  | nil => intro m pos _; simp [ws_handahake_parser_loop]
  | cons ch rest ih =>
    intro m pos h
    cases hsw : ws_handshake_switch m ch with
    | next m1 =>
      rw [hs_loop_next _ _ hsw] at h ⊢
      rw [ih m1 (pos + 1) h]
      simp only [List.length_cons, Nat.cast_inj]
      omega
    | ret k m1 =>
      rw [hs_loop_ret _ _ hsw] at h
      exact absurd h ((hs_switch_errno m ch).2 k m1 hsw)

/-- C35 (the handshake machine is chunking-invariant): from every state, when
`ws_handahake_parser_execute` on `a` sets no error (the error code is VALID
after it, or, for a state that already carries an error, all of `a` is
read), running it on `a` and then on `b` ends in the same message, so the
same handshake state, scratch buffers, validation bits, stored strings and
error code, as running it once on `a ++ b`, and the two returned counts add
up to the count returned for `a ++ b`. -/
theorem handshake_machine_chunking (m : WsMessage) (a b : List Nat)
    (h : (ws_handahake_parser_execute m a).2._hsParser.ws_errno = .VALID ∨
      (ws_handahake_parser_execute m a).1 = (a.length : Int)) :
    (ws_handahake_parser_execute m (a ++ b)).2 =
        (ws_handahake_parser_execute (ws_handahake_parser_execute m a).2 b).2 ∧
      (ws_handahake_parser_execute m (a ++ b)).1 =
        (ws_handahake_parser_execute m a).1 +
          (ws_handahake_parser_execute (ws_handahake_parser_execute m a).2 b).1 := by
  simp only [ws_handahake_parser_execute] at h ⊢
  have hall : (ws_handahake_parser_loop m 0 a).1 = ((0 + a.length : Nat) : Int) := by
    rcases h with h | h
    · exact hs_loop_valid_all a m 0 h
    · rw [h, Nat.zero_add]
  have hpair : ws_handahake_parser_loop m 0 a =
      (((0 + a.length : Nat) : Int), (ws_handahake_parser_loop m 0 a).2) :=
    Prod.ext hall rfl
  rw [hs_loop_append a m _ 0 b hpair, hs_loop_pos b _ (0 + a.length), hall]
  exact ⟨rfl, rfl⟩

theorem handshake_machine_chunking_witness :
    (ws_handahake_parser_execute WsMessage.new
        (bytes "GET / HT" ++ bytes "TP/1.1\r\nHo")).2 =
        (ws_handahake_parser_execute
          (ws_handahake_parser_execute WsMessage.new (bytes "GET / HT")).2
          (bytes "TP/1.1\r\nHo")).2 ∧
      (ws_handahake_parser_execute WsMessage.new
        (bytes "GET / HT" ++ bytes "TP/1.1\r\nHo")).1 =
        (ws_handahake_parser_execute WsMessage.new (bytes "GET / HT")).1 +
          (ws_handahake_parser_execute
            (ws_handahake_parser_execute WsMessage.new (bytes "GET / HT")).2
            (bytes "TP/1.1\r\nHo")).1 :=
  handshake_machine_chunking WsMessage.new (bytes "GET / HT") (bytes "TP/1.1\r\nHo")
    (Or.inl (by decide))

theorem hs_loop_exact (d : List Nat) : ∀ (m : WsMessage) (pos : Nat),
    m._hsParser.ws_errno = .VALID →
    ((ws_handahake_parser_loop m pos d).2._hsParser.ws_errno = .VALID ∧
        (ws_handahake_parser_loop m pos d).1 = ((pos + d.length : Nat) : Int)) ∨
      ((ws_handahake_parser_loop m pos d).2._hsParser.ws_errno ≠ .VALID ∧
        ∃ i, i < d.length ∧ (ws_handahake_parser_loop m pos d).1 = ((pos + i : Nat) : Int) ∧
          (ws_handahake_parser_loop m pos (d.take i)).2._hsParser.ws_errno = .VALID ∧
          (ws_handahake_parser_loop m pos (d.take i)).1 = ((pos + i : Nat) : Int) ∧
          ∀ s, ws_handahake_parser_loop m pos (d.take (i + 1) ++ s) =
            ws_handahake_parser_loop m pos d) := by
  induction d with
  | nil =>
    intro m pos hv
    left
    exact ⟨hv, by simp [ws_handahake_parser_loop]⟩
  | cons ch rest ih =>
    intro m pos hv
    obtain ⟨hn, hr⟩ := hs_switch_errno m ch
    cases hsw : ws_handshake_switch m ch with
    | next m1 =>
      have hv1 : m1._hsParser.ws_errno = .VALID := (hn m1 hsw).trans hv
      rw [hs_loop_next _ _ hsw]
      rcases ih m1 (pos + 1) hv1 with ⟨a1, a2⟩ | ⟨a1, i, hi, a2, a3, a4, a5⟩
      · left
        refine ⟨a1, ?_⟩
        rw [a2]
        simp only [List.length_cons, Nat.cast_inj]
        omega
      · right
        refine ⟨a1, i + 1, by simp only [List.length_cons]; omega, ?_, ?_, ?_, ?_⟩
        · rw [a2]
          simp only [Nat.cast_inj]
          omega
        · rw [List.take_succ_cons, hs_loop_next _ _ hsw]
          exact a3
        · rw [List.take_succ_cons, hs_loop_next _ _ hsw, a4]
          simp only [Nat.cast_inj]
          omega
        · intro s
          rw [List.take_succ_cons, List.cons_append, hs_loop_next _ _ hsw]
          exact a5 s
    | ret k m1 =>
      have hk := hs_switch_ret_zero m m1 ch k hsw
      subst hk
      right
      rw [hs_loop_ret _ _ hsw]
      refine ⟨hr 0 m1 hsw, 0, by simp, rfl, ?_, ?_, ?_⟩
      · simpa [ws_handahake_parser_loop] using hv
      · simp [ws_handahake_parser_loop]
      · intro s
        simp only [List.take_succ_cons, List.take_zero, List.cons_append, List.nil_append]
        rw [hs_loop_ret _ _ hsw]

/-- C36 (the handshake parse result is exact): from a state whose handshake
error code is VALID, `ws_handahake_parser_execute` on a chunk returns the
length of the chunk exactly when it leaves the error code VALID; otherwise it
returns an index `i` below the length such that the `i` bytes before it are
read without error, and whatever follows byte `i` has no effect on the result;
the frame error code is never touched, so one error code is set. -/
theorem handshake_result_exact (m : WsMessage) (chunk : List Nat)
    (hv : m._hsParser.ws_errno = .VALID) :
    ((ws_handahake_parser_execute m chunk).1 = (chunk.length : Int) ↔
        (ws_handahake_parser_execute m chunk).2._hsParser.ws_errno = .VALID) ∧
      ((ws_handahake_parser_execute m chunk).2._hsParser.ws_errno ≠ .VALID →
        ∃ i, i < chunk.length ∧ (ws_handahake_parser_execute m chunk).1 = (i : Int) ∧
          (ws_handahake_parser_execute m (chunk.take i)).2._hsParser.ws_errno = .VALID ∧
          (ws_handahake_parser_execute m (chunk.take i)).1 = (i : Int) ∧
          (∀ s, ws_handahake_parser_execute m (chunk.take (i + 1) ++ s) =
            ws_handahake_parser_execute m chunk)) ∧
      (ws_handahake_parser_execute m chunk).2._dataParser.ws_errno =
        m._dataParser.ws_errno := by
  simp only [ws_handahake_parser_execute]
  refine ⟨?_, ?_, by rw [(hs_loop_same_frame chunk m 0).1]⟩
  · rcases hs_loop_exact chunk m 0 hv with ⟨a1, a2⟩ | ⟨a1, i, hi, a2, -⟩
    · exact ⟨fun _ => a1, fun _ => by rw [a2, Nat.zero_add]⟩
    · constructor
      · intro h
        rw [a2] at h
        have : 0 + i = chunk.length := by exact_mod_cast h
        omega
      · intro h
        exact absurd h a1
  · intro hne
    rcases hs_loop_exact chunk m 0 hv with ⟨a1, -⟩ | ⟨-, i, hi, a2, a3, a4, a5⟩
    · exact absurd a1 hne
    · refine ⟨i, hi, ?_, a3, ?_, a5⟩
      · rw [a2, Nat.zero_add]
      · rw [a4, Nat.zero_add]

theorem handshake_result_exact_witness :
    ((ws_handahake_parser_execute WsMessage.new (bytes "GET / HTTP/2.0\r\n")).1 =
        ((bytes "GET / HTTP/2.0\r\n").length : Int) ↔
        (ws_handahake_parser_execute WsMessage.new
          (bytes "GET / HTTP/2.0\r\n")).2._hsParser.ws_errno = .VALID) ∧
      ((ws_handahake_parser_execute WsMessage.new
          (bytes "GET / HTTP/2.0\r\n")).2._hsParser.ws_errno ≠ .VALID →
        ∃ i, i < (bytes "GET / HTTP/2.0\r\n").length ∧
          (ws_handahake_parser_execute WsMessage.new (bytes "GET / HTTP/2.0\r\n")).1 = (i : Int) ∧
          (ws_handahake_parser_execute WsMessage.new
            ((bytes "GET / HTTP/2.0\r\n").take i)).2._hsParser.ws_errno = .VALID ∧
          (ws_handahake_parser_execute WsMessage.new
            ((bytes "GET / HTTP/2.0\r\n").take i)).1 = (i : Int) ∧
          (∀ s, ws_handahake_parser_execute WsMessage.new
              ((bytes "GET / HTTP/2.0\r\n").take (i + 1) ++ s) =
            ws_handahake_parser_execute WsMessage.new (bytes "GET / HTTP/2.0\r\n"))) ∧
      (ws_handahake_parser_execute WsMessage.new
          (bytes "GET / HTTP/2.0\r\n")).2._dataParser.ws_errno =
        WsMessage.new._dataParser.ws_errno :=
  handshake_result_exact WsMessage.new (bytes "GET / HTTP/2.0\r\n") rfl

end brpc
